import Mathlib

/-!
# uhd-helper: profile catalog and directory swap engine

A shallow embedding of `src/config_util.cpp`, `src/profile_util.cpp`, `src/file_util.cpp`,
`src/res.cpp` and the parser and serializer of `src/json_min.hpp`, followed by the
properties proved about it.

* `std::string` is a list of characters (`Str`); `std::vector<Profile>` is a list.
* A `Profile*` returned by `FindProfileById` is the index of the entry in the vector.
* `std::unordered_set<std::string>` is a list used only through membership.
* A member function that mutates the manager is a function from the state before the call
  to the returned `bool` and the state after it; the error text is left out.
* The filesystem is the asset root directory with its immediate children, keyed by folder
  name (see the section on the asset root for what this assumes).
-/

namespace UhdHelper

/-- A `std::string`, as the list of its characters. -/
abbrev Str := List Char

/-- The struct `Profile` of `profile_util.hpp`. -/
structure Profile where
  id : Str
  display_name : Str
  folder_name : Str
  is_official : Bool
  deriving DecidableEq, Repr

/-- The struct `AppConfig` of `config_util.hpp`. -/
structure AppConfig where
  schema_version : Int
  uhd_dir : Str
  images_folder_name : Str
  idle_profile_prefix : Str
  official_profile_folder : Str
  backup_profile_folder : Str
  active_profile_id : Str
  profiles : List Profile
  deriving DecidableEq, Repr

/-- The literal `"official"`. -/
def officialId : Str := "official".toList

/-- The literal `"NI Official"`. -/
def officialDisplayName : Str := "NI Official".toList

/-- Index of the first entry of the vector whose id is `id` (the loop of `FindProfileById`). -/
def findIndexById : List Profile → Str → Option Nat
  | [], _ => none
  | p :: rest, id =>
    if p.id = id then some 0
    else (findIndexById rest id).map Nat.succ

/-- Embedding of `FindProfileById` of `config_util.cpp`: the position of the first profile
with this id, `none` for `nullptr`. -/
def FindProfileById (config : AppConfig) (id : Str) : Option Nat :=
  findIndexById config.profiles id

/-- The profile a pointer returned by `FindProfileById` points to. -/
def profileAt (config : AppConfig) (id : Str) : Option Profile :=
  match FindProfileById config id with
  | none => none
  | some i => config.profiles.get? i

/-- The writes `EnsureOfficialProfile` makes through the pointer `existing`. -/
def affirmOfficial (config : AppConfig) (existing : Profile) : Profile :=
  let p1 := { existing with folder_name := config.official_profile_folder }
  let p2 := { p1 with is_official := true }
  if p2.display_name = [] then { p2 with display_name := officialDisplayName } else p2

/-- Embedding of `EnsureOfficialProfile` of `config_util.cpp`. -/
def EnsureOfficialProfile (config : AppConfig) : AppConfig :=
  match FindProfileById config officialId with
  | none =>
    let official : Profile :=
      { id := officialId
        display_name := officialDisplayName
        folder_name := config.official_profile_folder
        is_official := true }
    { config with profiles := config.profiles ++ [official] }
  | some i =>
    { config with profiles := config.profiles.modify (affirmOfficial config) i }

/-- The defaults `NormalizeProfiles` fills into an entry it keeps. -/
def fillDefaults (config : AppConfig) (profile : Profile) : Profile :=
  let p1 := if profile.display_name = [] then { profile with display_name := profile.id }
            else profile
  if p1.folder_name = [] then
    if p1.is_official then { p1 with folder_name := config.official_profile_folder }
    else { p1 with folder_name := config.idle_profile_prefix ++ p1.id }
  else p1

/-- One iteration of the loop of `NormalizeProfiles`; the state is `(seen_ids, normalized)`. -/
def normalizeStep (config : AppConfig) (st : List Str × List Profile) (profile : Profile) :
    List Str × List Profile :=
  if profile.id = [] then st
  else if profile.id ∈ st.1 then st
  else (profile.id :: st.1, st.2 ++ [fillDefaults config profile])

/-- Embedding of `NormalizeProfiles` of `config_util.cpp`. -/
def NormalizeProfiles (config : AppConfig) : AppConfig :=
  { config with profiles := (config.profiles.foldl (normalizeStep config) ([], [])).2 }

/-! ## Identifier generation (`profile_util.cpp`) -/

/-- Embedding of `std::isalnum` on an `unsigned char` in the "C" locale (the program never calls
`setlocale`). -/
def isalnum (c : Char) : Bool := c.isAlphanum

/-- Embedding of `std::tolower` on an `unsigned char` in the "C" locale. -/
def tolower (c : Char) : Char := c.toLower

/-- The separator test `c == ' ' || c == '-' || c == '_'` of `Slugify`. -/
def isSeparator (c : Char) : Bool := c == ' ' || c == '-' || c == '_'

/-- Embedding of `ToLowerAscii` of `profile_util.cpp`. -/
def ToLowerAscii (value : Str) : Str := value.map tolower

/-- One iteration of the loop of `Slugify`; the state is the string `out`. -/
def slugifyStep (out : Str) (c : Char) : Str :=
  if isalnum c then out ++ [tolower c]
  else if isSeparator c then
    if out ≠ [] ∧ out.getLast? ≠ some '_' then out ++ ['_'] else out
  else out

/-- Embedding of `Slugify` of `profile_util.cpp`. -/
def Slugify (input : Str) : Str :=
  let out := input.foldl slugifyStep []
  if out ≠ [] ∧ out.getLast? = some '_' then out.dropLast else out

/-- Embedding of `std::to_string` on a non-negative `int`. -/
def to_string (i : Nat) : Str := Nat.toDigits 10 i

/-- The value of `base` in `GenerateProfileId`: the slug, or `"profile"` when it is empty. -/
def candidateBase (display_name : Str) : Str :=
  if Slugify display_name = [] then "profile".toList else Slugify display_name

/-- The candidate `base + "_" + std::to_string(i)`. -/
def suffixed (base : Str) (i : Nat) : Str := base ++ "_".toList ++ to_string i

/-- The loop `for (int i = 2; i < 10000; ++i)` of `GenerateProfileId`, started at `i` with
`n` iterations left, followed by the fallback `base + "_x"`. -/
def generateLoop (existing : List Str) (base : Str) : Nat → Nat → Str
  | _, 0 => base ++ "_x".toList
  | i, n + 1 =>
    if suffixed base i ∉ existing then suffixed base i
    else generateLoop existing base (i + 1) n

/-- Embedding of `ProfileManager::GenerateProfileId`. -/
def GenerateProfileId (config : AppConfig) (display_name : Str) : Str :=
  let base := candidateBase display_name
  let existing := config.profiles.map Profile.id
  if base ∉ existing then base
  else generateLoop existing base 2 9998

/-! ## The asset root directory (`std::filesystem` as used by `file_util.cpp`)

Every path the profile manager touches is `cfg.uhd_dir / name`.  The model keeps the
state of `cfg.uhd_dir` and, when it is a directory, its immediate children keyed by
`name`, looked up by the exact string.  This is what `std::filesystem` does with
`cfg.uhd_dir / name` when `name` is a single path component (`isPathComponent`: not
empty, without a separator, not `.` or `..`) and names are compared exactly: different
names are then different, unrelated children.  For any other name (`""` is the asset root
itself, `./images` is another spelling of `images`, `R_NI/sub` lies inside `R_NI`) the
lookup by string is not what the program does, so every property of the directory layout
below that depends on which child a name denotes assumes `isPathComponent` of the names
it uses, and `PlainDisk` of the layout where names are read from it.
The content of a child directory is a list of (relative file path, bytes); the empty list
is the empty directory.

A filesystem call that changes the layout can also fail for reasons the layout does not
show (permissions, I/O errors): it then asks `Env.permits`, and a refused call leaves the
layout as it was. -/

/-- What a path under the asset root holds. -/
inductive Node where
  | file (bytes : List Nat)
  | dir (content : List (Str × List Nat))
  deriving DecidableEq, Repr

/-- The state of the path `cfg.uhd_dir`. -/
inductive AssetRoot where
  | missing
  | notDir
  | dir (entries : List (Str × Node))
  deriving DecidableEq, Repr

/-- Filesystem calls whose outcome also depends on the environment. -/
inductive FsOp where
  | createRoot
  | removeAll (name : Str)
  | rename (src dst : Str)
  | copy (src dst : Str)
  | writeConfig
  deriving DecidableEq, Repr

/-- The operating system of `res.hpp`. -/
inductive Os where
  | kLinux
  | kUnknown
  deriving DecidableEq, Repr

/-- The environment of a run: the platform and which filesystem calls are permitted. -/
structure Env where
  os : Os
  permits : FsOp → Bool

/-- The children of the asset root (none unless it is a directory). -/
def AssetRoot.entries : AssetRoot → List (Str × Node)
  | .dir es => es
  | _ => []

/-- What `cfg.uhd_dir / name` holds. -/
def AssetRoot.node (disk : AssetRoot) (name : Str) : Option Node :=
  disk.entries.lookup name

/-- The layout without `cfg.uhd_dir / name`. -/
def AssetRoot.without (disk : AssetRoot) (name : Str) : AssetRoot :=
  match disk with
  | .dir es => .dir (es.filter (fun e => e.1 != name))
  | d => d

/-- The layout with `cfg.uhd_dir / name` holding `node`. -/
def AssetRoot.withNode (disk : AssetRoot) (name : Str) (node : Node) : AssetRoot :=
  match disk with
  | .dir es => .dir (es.filter (fun e => e.1 != name) ++ [(name, node)])
  | d => d

/-- Embedding of `FileUtil::Exists` on `cfg.uhd_dir / name`. -/
def FileUtil.Exists (disk : AssetRoot) (name : Str) : Bool := (disk.node name).isSome

/-- Embedding of `FileUtil::IsDir` on `cfg.uhd_dir / name`. -/
def FileUtil.IsDir (disk : AssetRoot) (name : Str) : Bool :=
  match disk.node name with
  | some (.dir _) => true
  | _ => false

/-- Embedding of `FolderExists` of `profile_util.cpp`. -/
def FolderExists (disk : AssetRoot) (name : Str) : Bool :=
  FileUtil.Exists disk name && FileUtil.IsDir disk name

/-- Embedding of `FileUtil::EnsureDir` on `cfg.uhd_dir`. -/
def FileUtil.EnsureDir (env : Env) (disk : AssetRoot) : Bool × AssetRoot :=
  match disk with
  | .dir es => (true, .dir es)
  | .notDir => (false, .notDir)
  | .missing => if env.permits .createRoot then (true, .dir []) else (false, .missing)

/-- Embedding of `FileUtil::RemoveAll` on `cfg.uhd_dir / name` (`remove_all` of a missing
path is not an error). -/
def FileUtil.RemoveAll (env : Env) (disk : AssetRoot) (name : Str) : Bool × AssetRoot :=
  if !FileUtil.Exists disk name then (true, disk)
  else if env.permits (.removeAll name) then (true, disk.without name)
  else (false, disk)

/-- Whether `std::filesystem::rename` may replace `dst` by `src`: a directory replaces only
an empty directory, a file only a file. -/
def canReplace (src : Node) (dst : Option Node) : Bool :=
  match src, dst with
  | _, none => true
  | .dir _, some (.dir c) => c.isEmpty
  | .file _, some (.file _) => true
  | _, _ => false

/-- Embedding of `FileUtil::Rename` from `cfg.uhd_dir / src` to `cfg.uhd_dir / dst`. -/
def FileUtil.Rename (env : Env) (disk : AssetRoot) (src dst : Str) : Bool × AssetRoot :=
  match disk.node src with
  | none => (false, disk)
  | some node =>
    if src = dst then (true, disk)
    else if canReplace node (disk.node dst) && env.permits (.rename src dst) then
      (true, (disk.without src).withNode dst node)
    else (false, disk)

/-- The content of a directory after `src` was copied over it with `overwrite_existing`. -/
def mergeContent (src dst : List (Str × List Nat)) : List (Str × List Nat) :=
  src ++ dst.filter (fun e => !(src.map Prod.fst).contains e.1)

/-- What `std::filesystem::copy` with `recursive | overwrite_existing` leaves at the
destination, `none` when it reports an error. -/
def copyResult (srcName : Str) (src : Node) (dst : Option Node) : Option Node :=
  match src, dst with
  | n, none => some n
  | .file b, some (.file _) => some (.file b)
  | .file b, some (.dir c) => some (.dir (mergeContent [(srcName, b)] c))
  | .dir _, some (.file _) => none
  | .dir c, some (.dir d) => some (.dir (mergeContent c d))

/-- Embedding of `FileUtil::CopyDir` from `cfg.uhd_dir / src` to `cfg.uhd_dir / dst`. -/
def FileUtil.CopyDir (env : Env) (disk : AssetRoot) (src dst : Str) : Bool × AssetRoot :=
  match disk.node src with
  | none => (false, disk)
  | some node =>
    if src = dst then (false, disk)
    else
      match copyResult src node (disk.node dst) with
      | none => (false, disk)
      | some result =>
        if env.permits (.copy src dst) then (true, disk.withNode dst result)
        else (false, disk)

/-- Embedding of `FileUtil::ListDirs` on `cfg.uhd_dir`, as the names
`dir.filename().string()`; the order of the entries is the order `directory_iterator`
yields them in. -/
def FileUtil.ListDirs (disk : AssetRoot) : List Str :=
  disk.entries.filterMap (fun e =>
    match e.2 with
    | .dir _ => some e.1
    | .file _ => none)

/-- A character that can stand in a file name: not a path separator (`/`, `\`) and not
the NUL character. -/
def isNameChar (c : Char) : Bool :=
  c != '/' && c != Char.ofNat 92 && c != Char.ofNat 0

/-- Whether `name` is a single path component, so that `cfg.uhd_dir / name` is the child
of the asset root with exactly that name: not empty, not `.` or `..`, and made of file
name characters. -/
def isPathComponent (name : Str) : Bool :=
  name != [] && name != ".".toList && name != "..".toList && name.all isNameChar

/-- The layout of a real directory: every child is named by a single path component. -/
def PlainDisk (disk : AssetRoot) : Prop :=
  ∀ e ∈ disk.entries, isPathComponent e.1 = true

instance (disk : AssetRoot) : Decidable (PlainDisk disk) := by
  unfold PlainDisk
  infer_instance

/-! ## The persisted document (`json_min.hpp` values, as `config_util.cpp` reads them) -/

/-- A `json_min::Value`.  A number (a `double` in the source) is kept as the integer
`static_cast<int>` makes of it, the only way `config_util.cpp` reads one; an object (a
`std::map<std::string, Value>`) is the list of its members in the order the map keeps
them, by ascending key. -/
inductive Value where
  | null
  | bool (b : Bool)
  | number (n : Int)
  | string (s : Str)
  | array (items : List Value)
  | object (members : List (Str × Value))

/-- Embedding of `operator<` on `std::string`, the order of the keys of a `std::map`:
lexicographic on the characters. -/
def stringLess : Str → Str → Bool
  | [], [] => false
  | [], _ :: _ => true
  | _ :: _, [] => false
  | a :: as, b :: bs =>
    if a.toNat < b.toNat then true
    else if b.toNat < a.toNat then false
    else stringLess as bs

/-- Embedding of `obj.emplace(key, value)` on a `json_min::Object`: the member is put at
its place in the key order, and nothing happens when the key is already there. -/
def emplace (key : Str) (value : Value) : List (Str × Value) → List (Str × Value)
  | [] => [(key, value)]
  | (k, v) :: rest =>
    if key = k then (k, v) :: rest
    else if stringLess key k then (key, value) :: (k, v) :: rest
    else (k, v) :: emplace key value rest

/-- Embedding of `GetObjectValue` of `config_util.cpp`: the member stored under `key`, if any. -/
def GetObjectValue : List (Str × Value) → Str → Option Value
  | [], _ => none
  | (k, v) :: rest, key => if k = key then some v else GetObjectValue rest key

/-- Embedding of `GetString` of `config_util.cpp`. -/
def GetString (obj : List (Str × Value)) (key : Str) (fallback : Str) : Str :=
  match GetObjectValue obj key with
  | some (.string s) => s
  | _ => fallback

/-- Embedding of `GetInt` of `config_util.cpp`. -/
def GetInt (obj : List (Str × Value)) (key : Str) (fallback : Int) : Int :=
  match GetObjectValue obj key with
  | some (.number n) => n
  | _ => fallback

/-- Embedding of `GetBool` of `config_util.cpp`. -/
def GetBool (obj : List (Str × Value)) (key : Str) (fallback : Bool) : Bool :=
  match GetObjectValue obj key with
  | some (.bool b) => b
  | _ => fallback

/-- Embedding of `ParseProfile` of `config_util.cpp`. -/
def ParseProfile (obj : List (Str × Value)) (defaults : AppConfig) : Profile :=
  let id := GetString obj "id".toList []
  { id := id
    display_name := GetString obj "display_name".toList id
    folder_name := GetString obj "folder_name".toList (defaults.idle_profile_prefix ++ id)
    is_official := GetBool obj "is_official".toList false }

/-- Embedding of `ProfileToJson` of `config_util.cpp`. -/
def ProfileToJson (profile : Profile) : Value :=
  let obj : List (Str × Value) := []
  let obj := emplace "id".toList (.string profile.id) obj
  let obj := emplace "display_name".toList (.string profile.display_name) obj
  let obj := emplace "folder_name".toList (.string profile.folder_name) obj
  let obj := emplace "is_official".toList (.bool profile.is_official) obj
  .object obj

/-- The document `ConfigManager::Save` serializes: its `root_obj` as a value. -/
def ConfigToJson (config : AppConfig) : Value :=
  let root_obj : List (Str × Value) := []
  let root_obj := emplace "schema_version".toList (.number config.schema_version) root_obj
  let root_obj := emplace "uhd_dir".toList (.string config.uhd_dir) root_obj
  let root_obj :=
    emplace "images_folder_name".toList (.string config.images_folder_name) root_obj
  let root_obj :=
    emplace "idle_profile_prefix".toList (.string config.idle_profile_prefix) root_obj
  let root_obj :=
    emplace "official_profile_folder".toList (.string config.official_profile_folder)
      root_obj
  let root_obj :=
    emplace "backup_profile_folder".toList (.string config.backup_profile_folder) root_obj
  let root_obj :=
    emplace "active_profile_id".toList (.string config.active_profile_id) root_obj
  let profiles := config.profiles.map ProfileToJson
  let root_obj := emplace "profiles".toList (.array profiles) root_obj
  .object root_obj

/-- The struct `AppDefaults` of `res.hpp`. -/
structure AppDefaults where
  idle_profile_prefix : Str := "I_P_".toList
  official_profile_folder : Str := "R_NI".toList
  backup_profile_folder : Str := "I_P__backup".toList
  schema_version : Int := 1

/-- Embedding of `Defaults` of `res.cpp`. -/
def Defaults : AppDefaults := {}

/-- Embedding of `GetUhdDirByOs` of `res.cpp`. -/
def GetUhdDirByOs : Os → Str
  | .kLinux => "/usr/share/uhd".toList
  | .kUnknown => []

/-- Embedding of `GetImagesFolderName` of `res.cpp`. -/
def GetImagesFolderName : Str := "images".toList

/-- The state of the file at `ConfigManager::path_`, by what `Load` finds: `absent`
(nothing at the path), `inaccessible` (a file is there but its status cannot be read:
`std::filesystem::exists(path_, ec)` then sets `ec`, which `Load` does not look at, and
returns `false`), `unreadable` (`exists` reports the file and opening it for reading
fails), or `text`, a readable file, given by what `json_min::Parser::Parse` makes of its
content (`none` when it throws). -/
inductive ConfigFile where
  | absent
  | inaccessible
  | unreadable
  | text (parsed : Option Value)

/-- The state the operations act on: the `ConfigManager` (its `config_` and the file at
its `path_`) and the directory `cfg.uhd_dir`. -/
structure World where
  config : AppConfig
  file : ConfigFile
  disk : AssetRoot

/-- Embedding of `ConfigManager::Save`: a complete rewrite of the file, failing when it
cannot be opened for writing.  The file it leaves is given, as every readable file is, by
what the parser makes of its content: the text written is `SaveText`, and
`parse_saveText` shows that `Parse` reads it as `ConfigToJson w.config` with the schema
version as the stream library reads it back, so the document kept here is the one in the
file whenever the schema version is read back as it was written (an integer of up to six
significant digits in the source, whose `operator<<` writes a `double` with six). -/
def Save (env : Env) (w : World) : Bool × World :=
  if env.permits .writeConfig then
    (true, { w with file := .text (some (ConfigToJson w.config)) })
  else (false, w)

/-- Embedding of `AppConfig{}`: the value-initialised configuration. -/
def emptyConfig : AppConfig :=
  { schema_version := 1
    uhd_dir := []
    images_folder_name := []
    idle_profile_prefix := []
    official_profile_folder := []
    backup_profile_folder := []
    active_profile_id := []
    profiles := [] }

/-- The configuration `ConfigManager::Load` builds when no file exists, before
`EnsureOfficialProfile`. -/
def defaultConfig (env : Env) : AppConfig :=
  { emptyConfig with
    schema_version := Defaults.schema_version
    uhd_dir := GetUhdDirByOs env.os
    images_folder_name := GetImagesFolderName
    idle_profile_prefix := Defaults.idle_profile_prefix
    official_profile_folder := Defaults.official_profile_folder
    backup_profile_folder := Defaults.backup_profile_folder }

/-- One iteration of the loop of `ConfigManager::Load` over the `profiles` array. -/
def loadProfileStep (cfg : AppConfig) (item : Value) : AppConfig :=
  match item with
  | .object obj =>
    let profile := ParseProfile obj cfg
    if profile.id ≠ [] then { cfg with profiles := cfg.profiles ++ [profile] } else cfg
  | _ => cfg

/-- The local `cfg` that `ConfigManager::Load` reads from the root object. -/
def readConfig (env : Env) (root_obj : List (Str × Value)) : AppConfig :=
  let cfg : AppConfig :=
    { schema_version := GetInt root_obj "schema_version".toList Defaults.schema_version
      uhd_dir := GetString root_obj "uhd_dir".toList (GetUhdDirByOs env.os)
      images_folder_name :=
        GetString root_obj "images_folder_name".toList GetImagesFolderName
      idle_profile_prefix :=
        GetString root_obj "idle_profile_prefix".toList Defaults.idle_profile_prefix
      official_profile_folder :=
        GetString root_obj "official_profile_folder".toList Defaults.official_profile_folder
      backup_profile_folder :=
        GetString root_obj "backup_profile_folder".toList Defaults.backup_profile_folder
      active_profile_id := GetString root_obj "active_profile_id".toList []
      profiles := [] }
  match GetObjectValue root_obj "profiles".toList with
  | some (.array items) => items.foldl loadProfileStep cfg
  | _ => cfg

/-- Embedding of `ConfigManager::Load`.  The first branch is taken when
`std::filesystem::exists(path_, ec)` returns `false`, which it does for a missing file and
for a file whose status cannot be read. -/
def Load (env : Env) (w : World) : Bool × World :=
  match w.file with
  | .absent | .inaccessible =>
    Save env { w with config := NormalizeProfiles (EnsureOfficialProfile (defaultConfig env)) }
  | .unreadable => (false, w)
  | .text none => (false, w)
  | .text (some (.object root_obj)) =>
    let config := NormalizeProfiles (EnsureOfficialProfile (readConfig env root_obj))
    let config :=
      if config.active_profile_id = [] then { config with active_profile_id := officialId }
      else config
    (true, { w with config := config })
  | .text (some _) => (false, w)

/-! ## `ProfileManager` (`profile_util.cpp`)

Each operation returns the `bool` it returns in the source together with the state it
leaves; the error text is not modelled. -/

/-- Embedding of `ProfileManager::EnsureUhdDir`. -/
def EnsureUhdDir (env : Env) (w : World) : Bool × World :=
  let r := FileUtil.EnsureDir env w.disk
  (r.1, { w with disk := r.2 })

/-- The last part of `RenameActiveToIdle`: the active slot goes to the backup slot. -/
def renameToBackup (env : Env) (w : World) : Bool × World :=
  let cfg := w.config
  let disk :=
    if FolderExists w.disk cfg.backup_profile_folder then
      (FileUtil.RemoveAll env w.disk cfg.backup_profile_folder).2
    else w.disk
  let r := FileUtil.Rename env disk cfg.images_folder_name cfg.backup_profile_folder
  (r.1, { w with disk := r.2 })

/-- The branch of `RenameActiveToIdle` taken when the active profile `active` is found and
has a folder name. -/
def renameToFolder (env : Env) (w : World) (active : Profile) : Bool × World :=
  let cfg := w.config
  if FolderExists w.disk active.folder_name then
    let removed := FileUtil.RemoveAll env w.disk active.folder_name
    if !removed.1 then (false, { w with disk := removed.2 })
    else
      let r := FileUtil.Rename env removed.2 cfg.images_folder_name active.folder_name
      (r.1, { w with disk := r.2 })
  else
    let r := FileUtil.Rename env w.disk cfg.images_folder_name active.folder_name
    (r.1, { w with disk := r.2 })

/-- Embedding of `ProfileManager::RenameActiveToIdle`. -/
def RenameActiveToIdle (env : Env) (w : World) : Bool × World :=
  let cfg := w.config
  if !FolderExists w.disk cfg.images_folder_name then (true, w)
  else if cfg.active_profile_id ≠ [] then
    match profileAt cfg cfg.active_profile_id with
    | some active =>
      if active.folder_name ≠ [] then renameToFolder env w active
      else renameToBackup env w
    | none => renameToBackup env w
  else renameToBackup env w

/-- Embedding of `ProfileManager::ApplyProfile`. -/
def ApplyProfile (env : Env) (w : World) (profile_id : Str) : Bool × World :=
  let ensured := EnsureUhdDir env w
  if !ensured.1 then (false, ensured.2)
  else
    let w1 := ensured.2
    match profileAt w1.config profile_id with
    | none => (false, w1)
    | some target =>
      if !FolderExists w1.disk target.folder_name then
        if profile_id = w1.config.active_profile_id ∧
            FolderExists w1.disk w1.config.images_folder_name then (true, w1)
        else (false, w1)
      else
        let displaced := RenameActiveToIdle env w1
        if !displaced.1 then (false, displaced.2)
        else
          let w2 := displaced.2
          let moved :=
            FileUtil.Rename env w2.disk target.folder_name w2.config.images_folder_name
          if !moved.1 then (false, { w2 with disk := moved.2 })
          else
            Save env
              { w2 with
                disk := moved.2
                config := { w2.config with active_profile_id := target.id } }

/-- Embedding of `ProfileManager::ResetToOfficial`. -/
def ResetToOfficial (env : Env) (w : World) : Bool × World :=
  ApplyProfile env w officialId

/-- Embedding of `ProfileManager::AddProfileFromActive`. -/
def AddProfileFromActive (env : Env) (w : World) (display_name : Str) : Bool × World :=
  let ensured := EnsureUhdDir env w
  if !ensured.1 then (false, ensured.2)
  else
    let w1 := ensured.2
    let cfg := w1.config
    match profileAt cfg officialId with
    | none => (false, w1)
    | some official =>
      let source : Option Str :=
        if FolderExists w1.disk official.folder_name then some official.folder_name
        else if cfg.active_profile_id = officialId ∧
            FolderExists w1.disk cfg.images_folder_name then some cfg.images_folder_name
        else none
      match source with
      | none => (false, w1)
      | some source_path =>
        let id := GenerateProfileId cfg display_name
        let profile : Profile :=
          { id := id
            display_name := if display_name = [] then id else display_name
            folder_name := cfg.idle_profile_prefix ++ id
            is_official := false }
        if FolderExists w1.disk profile.folder_name then (false, w1)
        else
          let copied := FileUtil.CopyDir env w1.disk source_path profile.folder_name
          if !copied.1 then (false, { w1 with disk := copied.2 })
          else
            Save env
              { w1 with
                disk := copied.2
                config := { cfg with profiles := cfg.profiles ++ [profile] } }

/-- Embedding of `ProfileManager::DeleteProfile`. -/
def DeleteProfile (env : Env) (w : World) (profile_id : Str) : Bool × World :=
  let cfg := w.config
  if profile_id = [] then (false, w)
  else if profile_id = cfg.active_profile_id then (false, w)
  else
    match findIndexById cfg.profiles profile_id with
    | none => (false, w)
    | some it =>
      match cfg.profiles.get? it with
      | none => (false, w)
      | some found =>
        if found.is_official then (false, w)
        else
          let removed :=
            if FolderExists w.disk found.folder_name then
              FileUtil.RemoveAll env w.disk found.folder_name
            else (true, w.disk)
          if !removed.1 then (false, { w with disk := removed.2 })
          else
            Save env
              { w with
                disk := removed.2
                config := { cfg with profiles := cfg.profiles.eraseIdx it } }

/-- One iteration of the discovery loop of `RefreshFromDisk` over the listed directories;
`known_folders` is computed before the loop from the configuration `cfg` the call
started with. -/
def discoverStep (cfg : AppConfig) (known_folders : List Str) (profiles : List Profile)
    (name : Str) : List Profile :=
  if name = cfg.images_folder_name then profiles
  else if name ∈ known_folders then profiles
  else if name = cfg.backup_profile_folder then profiles
  else if !(cfg.idle_profile_prefix.isPrefixOf name) then profiles
  else
    let id := ToLowerAscii (name.drop cfg.idle_profile_prefix.length)
    if id = [] then profiles
    else
      profiles ++
        [{ id := id, display_name := id, folder_name := name, is_official := false }]

/-- Embedding of `ProfileManager::RefreshFromDisk`. -/
def RefreshFromDisk (env : Env) (w : World) : Bool × World :=
  let ensured := EnsureUhdDir env w
  if !ensured.1 then (false, ensured.2)
  else
    let w1 := ensured.2
    let cfg := w1.config
    let copied :=
      if !FolderExists w1.disk cfg.official_profile_folder ∧
          FolderExists w1.disk cfg.images_folder_name then
        FileUtil.CopyDir env w1.disk cfg.images_folder_name cfg.official_profile_folder
      else (true, w1.disk)
    if !copied.1 then (false, { w1 with disk := copied.2 })
    else
      let known_folders := cfg.profiles.map Profile.folder_name
      let dirs := FileUtil.ListDirs copied.2
      let profiles := dirs.foldl (discoverStep cfg known_folders) cfg.profiles
      Save env
        { w1 with
          disk := copied.2
          config := NormalizeProfiles { cfg with profiles := profiles } }

/-- Embedding of `ProfileManager::Initialize` (the manager always has its `ConfigManager`). -/
def Initialize (env : Env) (w : World) : Bool × World :=
  let loaded := Load env w
  if !loaded.1 then (false, loaded.2)
  else RefreshFromDisk env loaded.2

/-! ## Specification-side definitions -/

/-- The entries the loop of `NormalizeProfiles` appends to `normalized` when it runs over
`profiles` with `seen_ids = seen`, written as a recursion on the input. -/
def normalizeFrom (config : AppConfig) : List Str → List Profile → List Profile
  | _, [] => []
  | seen, p :: rest =>
    if p.id = [] then normalizeFrom config seen rest
    else if p.id ∈ seen then normalizeFrom config seen rest
    else fillDefaults config p :: normalizeFrom config (p.id :: seen) rest

/-- Specification of the entries normalization keeps: an entry of the input stays exactly
when its id is non-empty and no entry before it (`earlier`) carries the same id, so the
result is the subsequence of first occurrences of the non-empty ids, in input order. -/
def firstOccurrences (earlier : List Profile) : List Profile → List Profile
  | [] => []
  | p :: rest =>
    if p.id ≠ [] ∧ ∀ q ∈ earlier, q.id ≠ p.id then
      p :: firstOccurrences (earlier ++ [p]) rest
    else firstOccurrences (earlier ++ [p]) rest

/-- Specification of the defaults a kept entry receives: an empty display name becomes the
id, an empty folder name becomes the official folder name for an official entry and
`idlePrefix + id` otherwise; nothing else changes. -/
def withDefaults (config : AppConfig) (p : Profile) : Profile :=
  { id := p.id
    display_name := if p.display_name = [] then p.id else p.display_name
    folder_name :=
      if p.folder_name = [] then
        if p.is_official then config.official_profile_folder
        else config.idle_profile_prefix ++ p.id
      else p.folder_name
    is_official := p.is_official }

/-- Specification of `NormalizeProfiles` on the profile list. -/
def normalizeSpec (config : AppConfig) (input : List Profile) : List Profile :=
  (firstOccurrences [] input).map (withDefaults config)

/-- The candidate ids `GenerateProfileId` can try for `base`: `base`, `base_2`, ...,
`base_9999`. -/
def candidateIds (base : Str) : List Str :=
  base :: (List.range' 2 9998).map (suffixed base)

/-- How many of the candidate ids for `base` are ids of profiles of the catalog. -/
def takenCandidates (config : AppConfig) (base : Str) : Nat :=
  ((candidateIds base).filter (fun c => c ∈ config.profiles.map Profile.id)).length

/-- Specification of the slug body: alphanumeric characters are lowercased and kept in
order, each run of space/hyphen/underscore characters among the kept characters becomes one
underscore, every other character is left out.  `inRun` says that the underscore of the
current run was already produced. -/
def collapseRuns : Bool → Str → Str
  | _, [] => []
  | inRun, c :: rest =>
    if isalnum c then tolower c :: collapseRuns false rest
    else if isSeparator c then
      if inRun then collapseRuns true rest else '_' :: collapseRuns true rest
    else collapseRuns inRun rest

/-- Specification of trimming a trailing underscore. -/
def trimUnderscore (s : Str) : Str :=
  if s.getLast? = some '_' then s.dropLast else s

/-- The candidate id as C6 words it: runs collapsed, a trailing underscore trimmed, and
`"profile"` when nothing is left. -/
def candidateAsClaimed (display_name : Str) : Str :=
  if trimUnderscore (collapseRuns false display_name) = [] then "profile".toList
  else trimUnderscore (collapseRuns false display_name)

/-- A catalog in which the ids `official` and `my_theme` are taken. -/
def catalogWithMyTheme : AppConfig :=
  { emptyConfig with
    idle_profile_prefix := "I_P_".toList
    official_profile_folder := "R_NI".toList
    profiles :=
      [ { id := officialId, display_name := officialDisplayName,
          folder_name := "R_NI".toList, is_official := true },
        { id := "my_theme".toList, display_name := "My Theme".toList,
          folder_name := "I_P_my_theme".toList, is_official := false } ] }

/-- The name `RenameActiveToIdle` moves the active slot to: the folder of the active
profile when that profile is recorded, found and has a folder name, the backup folder
otherwise. -/
def displacedTo (cfg : AppConfig) : Str :=
  if cfg.active_profile_id ≠ [] then
    match profileAt cfg cfg.active_profile_id with
    | some active =>
      if active.folder_name ≠ [] then active.folder_name else cfg.backup_profile_folder
    | none => cfg.backup_profile_folder
  else cfg.backup_profile_folder

/-! ## Concrete states used by witnesses and counterexamples -/

/-- An environment in which every filesystem call is permitted. -/
def permissive : Env := { os := .kLinux, permits := fun _ => true }

/-- An environment in which only the removal of the directory `images` is refused. -/
def imagesUndeletable : Env :=
  { os := .kLinux, permits := fun op => op != FsOp.removeAll "images".toList }

/-- The default configuration with the profiles `official` and `my_theme`; `official` is
active. -/
def sampleConfig : AppConfig :=
  { schema_version := 1
    uhd_dir := "/usr/share/uhd".toList
    images_folder_name := "images".toList
    idle_profile_prefix := "I_P_".toList
    official_profile_folder := "R_NI".toList
    backup_profile_folder := "I_P__backup".toList
    active_profile_id := officialId
    profiles := catalogWithMyTheme.profiles }

/-- An asset root holding the active slot, the official folder and the folder of
`my_theme`, each with one file. -/
def sampleDisk : AssetRoot :=
  .dir
    [ ("images".toList, .dir [("fpga.bin".toList, [1])]),
      ("R_NI".toList, .dir [("fpga.bin".toList, [2])]),
      ("I_P_my_theme".toList, .dir [("fpga.bin".toList, [3])]) ]

/-- The sample configuration over the sample asset root. -/
def sampleWorld : World :=
  { config := sampleConfig, file := .text (some (ConfigToJson sampleConfig)),
    disk := sampleDisk }

/-- A state in which the official folder, the backup folder and the active slot are all
named `images` and the recorded active id names no profile. -/
def sharedSlotWorld : World :=
  { config :=
      { sampleConfig with
        official_profile_folder := "images".toList
        backup_profile_folder := "images".toList
        active_profile_id := "ghost".toList
        profiles :=
          [ { id := officialId, display_name := officialDisplayName,
              folder_name := "images".toList, is_official := true } ] }
    file := .absent
    disk := .dir [("images".toList, .dir [])] }

/-- A state with no recorded active profile in which the profile `p` is stored in the
backup folder. -/
def backupProfileWorld : World :=
  { config :=
      { sampleConfig with
        active_profile_id := []
        profiles :=
          [ { id := officialId, display_name := officialDisplayName,
              folder_name := "R_NI".toList, is_official := true },
            { id := "p".toList, display_name := "p".toList,
              folder_name := "I_P__backup".toList, is_official := false } ] }
    file := .absent
    disk :=
      .dir
        [ ("images".toList, .dir [("fpga.bin".toList, [1])]),
          ("I_P__backup".toList, .dir [("fpga.bin".toList, [2])]) ] }

/-- The catalog invariant of C1: every profile id is non-empty, the ids are pairwise
distinct, exactly one profile has the id `"official"`, and that profile is flagged
official and stored in the configuration's official folder. -/
def CatalogInvariant (cfg : AppConfig) : Prop :=
  (∀ p ∈ cfg.profiles, p.id ≠ []) ∧
  (cfg.profiles.map Profile.id).Nodup ∧
  (cfg.profiles.filter (fun p => p.id = officialId)).length = 1 ∧
  ∀ p ∈ cfg.profiles, p.id = officialId →
    p.is_official = true ∧ p.folder_name = cfg.official_profile_folder

instance (cfg : AppConfig) : Decidable (CatalogInvariant cfg) := by
  unfold CatalogInvariant
  infer_instance

/-- The profiles the discovery loop of `RefreshFromDisk` appends for the listed
directories, written as a recursion on the listing. -/
def discoverFrom (cfg : AppConfig) (known_folders : List Str) : List Str → List Profile
  | [] => []
  | name :: rest =>
    discoverStep cfg known_folders [] name ++ discoverFrom cfg known_folders rest

/-- The first part of `RefreshFromDisk`: `EnsureUhdDir` and the bootstrap copy of the
active slot into a missing official folder; the result is whether both succeeded and the
directory layout they leave. -/
def refreshDisk (env : Env) (w : World) : Bool × AssetRoot :=
  let ensured := FileUtil.EnsureDir env w.disk
  if !ensured.1 then (false, ensured.2)
  else if !FolderExists ensured.2 w.config.official_profile_folder ∧
      FolderExists ensured.2 w.config.images_folder_name then
    FileUtil.CopyDir env ensured.2 w.config.images_folder_name w.config.official_profile_folder
  else (true, ensured.2)

/-- The state of a first run: no configuration file, an asset root that holds only the
active slot. -/
def firstRunWorld : World :=
  { config := emptyConfig
    file := .absent
    disk := .dir [("images".toList, .dir [("fpga.bin".toList, [1])])] }

/-- An asset root with the active slot and two idle folders whose names give the same id. -/
def collidingDisk : AssetRoot :=
  .dir
    [ ("images".toList, .dir [("fpga.bin".toList, [1])]),
      ("I_P_Foo".toList, .dir [("fpga.bin".toList, [2])]),
      ("I_P_foo".toList, .dir [("fpga.bin".toList, [3])]) ]

/-- The sample state after `my_theme` was activated: the official content sits in `R_NI`,
the content of `my_theme` in the active slot. -/
def myThemeActiveWorld : World :=
  { config := { sampleConfig with active_profile_id := "my_theme".toList }
    file := .text (some (ConfigToJson { sampleConfig with active_profile_id := "my_theme".toList }))
    disk :=
      .dir
        [ ("R_NI".toList, .dir [("fpga.bin".toList, [1])]),
          ("images".toList, .dir [("fpga.bin".toList, [3])]) ] }

/-- An environment in which only writing the configuration file is refused. -/
def configReadOnly : Env :=
  { os := .kLinux, permits := fun op => op != FsOp.writeConfig }

/-- The sample state with the configuration file removed. -/
def sampleWithoutFile : World := { sampleWorld with file := .absent }

/-- The sample state with the asset root directory missing. -/
def sampleWithoutRoot : World := { sampleWorld with disk := .missing }

/-- A persisted document whose `active_profile_id` names no profile. -/
def ghostActiveFile : ConfigFile :=
  .text (some (.object [("active_profile_id".toList, .string "ghost".toList)]))

/-- A persisted document whose only profile has the id `x` and carries the official flag. -/
def flaggedFile : ConfigFile :=
  .text (some (.object
    [ ("profiles".toList,
        .array
          [ .object
              [ ("id".toList, .string "x".toList),
                ("is_official".toList, .bool true) ] ]) ]))

/-- The profiles `ConfigManager::Load` reads from the persisted file, before
`EnsureOfficialProfile` and `NormalizeProfiles`: none unless the file parses to an
object. -/
def persistedProfiles (env : Env) : ConfigFile → List Profile
  | .text (some (.object root_obj)) => (readConfig env root_obj).profiles
  | _ => []

/-- The layout `after` is `before` with the directory entry `src` moved to `dst`: `src`
is gone, `dst` holds exactly what `src` held (whatever `dst` held before is replaced, not
merged) and every other name holds what it held. -/
def SlotMovedTo (before after : AssetRoot) (src dst : Str) : Prop :=
  after.node src = none ∧ after.node dst = before.node src ∧
    ∀ k, k ≠ src → k ≠ dst → after.node k = before.node k

/-! ## String escaping (`json_min.hpp`) -/

/-- The character `'"'`. -/
def quoteChar : Char := Char.ofNat 34

/-- The character `'\\'`. -/
def backslashChar : Char := Char.ofNat 92

/-- The character `'\n'`. -/
def newlineChar : Char := Char.ofNat 10

/-- The character `'\r'`. -/
def carriageReturnChar : Char := Char.ofNat 13

/-- The character `'\t'`. -/
def tabChar : Char := Char.ofNat 9

/-- The character `'\b'`. -/
def backspaceChar : Char := Char.ofNat 8

/-- The character `'\f'`. -/
def formFeedChar : Char := Char.ofNat 12

/-- The `switch` in the loop of `EscapeString`: what is appended to `out` for `c`. -/
def escapeChar (c : Char) : Str :=
  if c = quoteChar then [backslashChar, quoteChar]
  else if c = backslashChar then [backslashChar, backslashChar]
  else if c = newlineChar then [backslashChar, 'n']
  else if c = carriageReturnChar then [backslashChar, 'r']
  else if c = tabChar then [backslashChar, 't']
  else [c]

/-- Embedding of `EscapeString` of `json_min.hpp`. -/
def EscapeString : Str → Str
  | [] => []
  | c :: rest => escapeChar c ++ EscapeString rest

/-- The text `Serialize` of `json_min.hpp` writes for a string value:
`out << '"' << EscapeString(*value.AsString()) << '"'`. -/
def SerializeString (value : Str) : Str :=
  [quoteChar] ++ EscapeString value ++ [quoteChar]

/-! ## Reachable states -/

/-- One successful call of a mutating operation of the profile manager on the state `w`,
in any environment, leaving the state `w'`. -/
def ManagerStep (w w' : World) : Prop :=
  (∃ env id, (ApplyProfile env w id).1 = true ∧ (ApplyProfile env w id).2 = w') ∨
  (∃ env, (ResetToOfficial env w).1 = true ∧ (ResetToOfficial env w).2 = w') ∨
  (∃ env name, (AddProfileFromActive env w name).1 = true ∧
    (AddProfileFromActive env w name).2 = w') ∨
  (∃ env id, (DeleteProfile env w id).1 = true ∧ (DeleteProfile env w id).2 = w') ∨
  (∃ env, (RefreshFromDisk env w).1 = true ∧ (RefreshFromDisk env w).2 = w')

/-- The states reached from `w0` by any sequence of successful calls of `ApplyProfile`,
`ResetToOfficial`, `AddProfileFromActive`, `DeleteProfile` and `RefreshFromDisk`. -/
inductive ReachableFrom (w0 : World) : World → Prop
  | start : ReachableFrom w0 w0
  | step {w w' : World} : ReachableFrom w0 w → ManagerStep w w' → ReachableFrom w0 w'

/-- The folder names of a configuration keep the official folder apart: the official
folder name, the active folder name and the backup folder name are single path
components and the idle prefix is made of file name characters; the official folder name
does not start with the idle prefix and is neither the active folder name nor the backup
folder name; the active folder name does not start with the idle prefix either; and every
profile other than `official` is stored in a folder whose name starts with the idle
prefix and is a single path component. -/
def IdleLayout (cfg : AppConfig) : Prop :=
  isPathComponent cfg.official_profile_folder = true ∧
  isPathComponent cfg.images_folder_name = true ∧
  isPathComponent cfg.backup_profile_folder = true ∧
  cfg.idle_profile_prefix.all isNameChar = true ∧
  cfg.idle_profile_prefix.isPrefixOf cfg.official_profile_folder = false ∧
  cfg.idle_profile_prefix.isPrefixOf cfg.images_folder_name = false ∧
  cfg.images_folder_name ≠ cfg.official_profile_folder ∧
  cfg.backup_profile_folder ≠ cfg.official_profile_folder ∧
  ∀ p ∈ cfg.profiles, p.id ≠ officialId →
    cfg.idle_profile_prefix.isPrefixOf p.folder_name = true ∧
      isPathComponent p.folder_name = true

instance (cfg : AppConfig) : Decidable (IdleLayout cfg) := by
  unfold IdleLayout
  infer_instance

/-- The catalog has a profile with the id `"official"`, and every profile with that id is
flagged official and stored in the official folder. -/
def OfficialEntry (cfg : AppConfig) : Prop :=
  (∃ e ∈ cfg.profiles, e.id = officialId) ∧
  ∀ p ∈ cfg.profiles, p.id = officialId →
    p.is_official = true ∧ p.folder_name = cfg.official_profile_folder

/-- The official folder exists, or the official profile is the active one and the active
slot exists. -/
def OfficialAvailable (w : World) : Prop :=
  FolderExists w.disk w.config.official_profile_folder = true ∨
    (w.config.active_profile_id = officialId ∧
      FolderExists w.disk w.config.images_folder_name = true)

/-! ## The string parser (`json_min.hpp`)

The state of a `Parser` (`input_`, `pos_`) is represented by the text from `pos_` to the
end of `input_`: advancing `pos_` drops characters from the front, and
`pos_ == input_.size()` is the empty text.  A member function that can throw returns
`none` when it throws, otherwise its result together with the text left. -/

/-- Embedding of `std::isspace` on an `unsigned char` in the "C" locale: space and the
characters `\t`, `\n`, `\v`, `\f`, `\r`. -/
def isspace (c : Char) : Bool := c.toNat = 32 ∨ (9 ≤ c.toNat ∧ c.toNat ≤ 13)

/-- Embedding of `Parser::Peek`: the character at `pos_`, `'\0'` at the end of the input. -/
def Peek (rest : Str) : Char :=
  match rest with
  | [] => Char.ofNat 0
  | c :: _ => c

/-- Embedding of `Parser::Expect`. -/
def Expect (expected : Char) (rest : Str) : Option Str :=
  if Peek rest ≠ expected then none else some (rest.drop 1)

/-- Embedding of `Parser::Match`: `some` of the text after the token when
`input_.compare(pos_, len, token) == 0`, `none` when it returns `false` (and leaves `pos_`
as it is). -/
def Match (token : Str) (rest : Str) : Option Str :=
  if rest.take token.length = token then some (rest.drop token.length) else none

/-- Embedding of `Parser::SkipWhitespace`. -/
def SkipWhitespace (rest : Str) : Str := rest.dropWhile isspace

/-- The `while` loop of `Parser::ParseString`, with the text left and the local `out`;
running off the end of the input is the exception "Unterminated string". -/
def parseStringLoop : Str → Str → Option (Str × Str)
  | [], _ => none
  | c :: rest, out =>
    if c = quoteChar then some (out, rest)
    else if c = backslashChar then
      match rest with
      | [] => none
      | esc :: rest1 =>
        if esc = quoteChar ∨ esc = backslashChar ∨ esc = '/' then
          parseStringLoop rest1 (out ++ [esc])
        else if esc = 'b' then parseStringLoop rest1 (out ++ [backspaceChar])
        else if esc = 'f' then parseStringLoop rest1 (out ++ [formFeedChar])
        else if esc = 'n' then parseStringLoop rest1 (out ++ [newlineChar])
        else if esc = 'r' then parseStringLoop rest1 (out ++ [carriageReturnChar])
        else if esc = 't' then parseStringLoop rest1 (out ++ [tabChar])
        else if esc = 'u' then
          match rest1 with
          | _ :: _ :: _ :: _ :: rest2 => parseStringLoop rest2 (out ++ ['?'])
          | _ => none
        else none
    else parseStringLoop rest (out ++ [c])

/-- Embedding of `Parser::ParseString`. -/
def ParseString (rest : Str) : Option (Str × Str) :=
  match Expect quoteChar rest with
  | none => none
  | some rest1 => parseStringLoop rest1 []

/-- Embedding of `std::isdigit` on an `unsigned char` in the "C" locale. -/
def isdigit (c : Char) : Bool := c.isDigit

/-- The part of `Parser::ParseNumber` that advances `pos_`: an optional `-`, digits, an
optional `.` with digits, an optional `e` or `E` with an optional sign and digits.  The
result is the text passed over (`input_.substr(start, pos_ - start)`) and the text
left. -/
def scanNumber (rest : Str) : Str × Str :=
  let signed : Str × Str :=
    if Peek rest = '-' then (rest.take 1, rest.drop 1) else ([], rest)
  let whole := signed.2.span isdigit
  let fraction : Str × Str :=
    match whole.2 with
    | c :: r => if c = '.' then (c :: (r.span isdigit).1, (r.span isdigit).2) else ([], whole.2)
    | [] => ([], whole.2)
  let exponent : Str × Str :=
    match fraction.2 with
    | c :: r =>
      if c = 'e' ∨ c = 'E' then
        let sign : Str × Str :=
          match r with
          | d :: r1 => if d = '+' ∨ d = '-' then ([d], r1) else ([], r)
          | [] => ([], r)
        (c :: sign.1 ++ (sign.2.span isdigit).1, (sign.2.span isdigit).2)
      else ([], fraction.2)
    | [] => ([], fraction.2)
  (signed.1 ++ whole.1 ++ fraction.1 ++ exponent.1, exponent.2)

/-- What the model leaves to the C++ stream library about numbers: `format n` is the text
`out << static_cast<double>(n)` writes, and `read token` is what `stream >> value` makes
of the text `ParseNumber` has passed over, as the integer kept in `Value.number`
(`none` when `stream.fail()`). -/
structure NumberText where
  format : Int → Str
  read : Str → Option Int

/-- Embedding of `Parser::ParseNumber`. -/
def ParseNumber (num : NumberText) (rest : Str) : Option (Int × Str) :=
  match num.read (scanNumber rest).1 with
  | none => none
  | some value => some (value, (scanNumber rest).2)

/-- The character `'{'`. -/
def braceOpenChar : Char := Char.ofNat 123

/-- The character `'}'`. -/
def braceCloseChar : Char := Char.ofNat 125

/-- The character `'['`. -/
def bracketOpenChar : Char := Char.ofNat 91

/-- The character `']'`. -/
def bracketCloseChar : Char := Char.ofNat 93

mutual

/-- Embedding of `Parser::ParseValue`.  The recursion of the parser is bounded by `fuel`:
every call of `ParseValue`, `ParseObject` or `ParseArray` and every round of their loops
takes one unit, and at most three units are taken before one more character of the input
is passed over (`ParseValue` calls `ParseArray`, that its loop, the loop `ParseValue`
again), so the `3 * input_.size() + 3` units `Parse` starts with do not run out; `none` is
an exception (or no fuel). -/
def ParseValue (num : NumberText) : Nat → Str → Option (Value × Str)
  | 0, _ => none
  | fuel + 1, rest =>
    match Match "null".toList (SkipWhitespace rest) with
    | some rest1 => some (.null, rest1)
    | none =>
      match Match "true".toList (SkipWhitespace rest) with
      | some rest1 => some (.bool true, rest1)
      | none =>
        match Match "false".toList (SkipWhitespace rest) with
        | some rest1 => some (.bool false, rest1)
        | none =>
          if Peek (SkipWhitespace rest) = quoteChar then
            match ParseString (SkipWhitespace rest) with
            | none => none
            | some (s, rest1) => some (.string s, rest1)
          else if Peek (SkipWhitespace rest) = braceOpenChar then
            match ParseObject num fuel (SkipWhitespace rest) with
            | none => none
            | some (obj, rest1) => some (.object obj, rest1)
          else if Peek (SkipWhitespace rest) = bracketOpenChar then
            match ParseArray num fuel (SkipWhitespace rest) with
            | none => none
            | some (arr, rest1) => some (.array arr, rest1)
          else if Peek (SkipWhitespace rest) = '-' ∨
              isdigit (Peek (SkipWhitespace rest)) then
            match ParseNumber num (SkipWhitespace rest) with
            | none => none
            | some (n, rest1) => some (.number n, rest1)
          else none

/-- Embedding of `Parser::ParseObject` up to its loop. -/
def ParseObject (num : NumberText) : Nat → Str → Option (List (Str × Value) × Str)
  | 0, _ => none
  | fuel + 1, rest =>
    match Expect braceOpenChar rest with
    | none => none
    | some rest1 =>
      if Peek (SkipWhitespace rest1) = braceCloseChar then
        some ([], (SkipWhitespace rest1).drop 1)
      else parseMembers num fuel (SkipWhitespace rest1) []

/-- The loop `while (true)` of `Parser::ParseObject`, with the text left and the local
`obj`. -/
def parseMembers (num : NumberText) :
    Nat → Str → List (Str × Value) → Option (List (Str × Value) × Str)
  | 0, _, _ => none
  | fuel + 1, rest, obj =>
    if Peek (SkipWhitespace rest) ≠ quoteChar then none
    else
      match ParseString (SkipWhitespace rest) with
      | none => none
      | some (key, rest1) =>
        match Expect ':' (SkipWhitespace rest1) with
        | none => none
        | some rest2 =>
          match ParseValue num fuel (SkipWhitespace rest2) with
          | none => none
          | some (value, rest3) =>
            if Peek (SkipWhitespace rest3) = braceCloseChar then
              some (emplace key value obj, (SkipWhitespace rest3).drop 1)
            else
              match Expect ',' (SkipWhitespace rest3) with
              | none => none
              | some rest4 => parseMembers num fuel rest4 (emplace key value obj)

/-- Embedding of `Parser::ParseArray` up to its loop. -/
def ParseArray (num : NumberText) : Nat → Str → Option (List Value × Str)
  | 0, _ => none
  | fuel + 1, rest =>
    match Expect bracketOpenChar rest with
    | none => none
    | some rest1 =>
      if Peek (SkipWhitespace rest1) = bracketCloseChar then
        some ([], (SkipWhitespace rest1).drop 1)
      else parseItems num fuel (SkipWhitespace rest1) []

/-- The loop `while (true)` of `Parser::ParseArray`, with the text left and the local
`arr`. -/
def parseItems (num : NumberText) : Nat → Str → List Value → Option (List Value × Str)
  | 0, _, _ => none
  | fuel + 1, rest, arr =>
    match ParseValue num fuel (SkipWhitespace rest) with
    | none => none
    | some (value, rest1) =>
      if Peek (SkipWhitespace rest1) = bracketCloseChar then
        some (arr ++ [value], (SkipWhitespace rest1).drop 1)
      else
        match Expect ',' (SkipWhitespace rest1) with
        | none => none
        | some rest2 => parseItems num fuel rest2 (arr ++ [value])

end

/-- Embedding of `Parser::Parse`; trailing content is the exception "Unexpected trailing
content". -/
def Parse (num : NumberText) (input : Str) : Option Value :=
  match ParseValue num (3 * input.length + 3) (SkipWhitespace input) with
  | none => none
  | some (value, rest) => if SkipWhitespace rest ≠ [] then none else some value

/-! ## Serialization (`json_min.hpp`) -/

/-- The lambda `pad` of `Serialize`: `level` spaces. -/
def pad (level : Nat) : Str := List.replicate level ' '

mutual

/-- Embedding of `Serialize(value, out, indent, depth)` of `json_min.hpp`: the text it
appends to `out`. -/
def Serialize (num : NumberText) (indent : Nat) : Value → Nat → Str
  | .null, _ => "null".toList
  | .bool b, _ => if b then "true".toList else "false".toList
  | .number n, _ => num.format n
  | .string s, _ => SerializeString s
  | .array arr, depth =>
    [bracketOpenChar]
      ++ (if arr.isEmpty then []
          else [newlineChar] ++ serializeItems num indent arr depth ++ pad (depth * indent))
      ++ [bracketCloseChar]
  | .object obj, depth =>
    [braceOpenChar]
      ++ (if obj.isEmpty then []
          else [newlineChar] ++ serializeMembers num indent obj depth ++ pad (depth * indent))
      ++ [braceCloseChar]

/-- The `for` loop of `Serialize` over the elements of an array, from the element at hand
on. -/
def serializeItems (num : NumberText) (indent : Nat) : List Value → Nat → Str
  | [], _ => []
  | item :: rest, depth =>
    pad ((depth + 1) * indent) ++ Serialize num indent item (depth + 1)
      ++ (if rest.isEmpty then [] else [',']) ++ [newlineChar]
      ++ serializeItems num indent rest depth

/-- The `for` loop of `Serialize` over the members of an object, from the member at hand
on. -/
def serializeMembers (num : NumberText) (indent : Nat) : List (Str × Value) → Nat → Str
  | [], _ => []
  | (key, child) :: rest, depth =>
    pad ((depth + 1) * indent) ++ SerializeString key ++ [':', ' ']
      ++ Serialize num indent child (depth + 1)
      ++ (if rest.isEmpty then [] else [',']) ++ [newlineChar]
      ++ serializeMembers num indent rest depth

end

/-- The text `ConfigManager::Save` writes to the file:
`json_min::Serialize(root, 2) << '\n'`. -/
def SaveText (num : NumberText) (config : AppConfig) : Str :=
  Serialize num 2 (ConfigToJson config) 0 ++ [newlineChar]

/-- The number a string of decimal digits stands for. -/
def digitsValue (digits : Str) : Nat :=
  digits.foldl (fun acc c => 10 * acc + (c.toNat - 48)) 0

/-- A number library for integers in decimal, as the C++ streams write and read integers
of up to six digits: `format` writes the digits, with `-` in front of a negative number,
and `read` accepts exactly such a text. -/
def decimalNumbers : NumberText :=
  { format := fun n =>
      match n with
      | Int.ofNat k => Nat.toDigits 10 k
      | Int.negSucc k => '-' :: Nat.toDigits 10 (k + 1)
    read := fun token =>
      match token with
      | [] => none
      | c :: rest =>
        if c = '-' then
          if rest ≠ [] ∧ rest.all isdigit then some (-(digitsValue rest : Int)) else none
        else if (c :: rest).all isdigit then some (digitsValue (c :: rest) : Int)
        else none }

/-- The text written for the number `n` begins as `ParseValue` expects a number to begin,
and `ParseNumber`, in front of a comma, passes over all of it and reads it as `m`. -/
def NumberRereadAs (num : NumberText) (n m : Int) : Prop :=
  (Peek (num.format n) = '-' ∨ isdigit (Peek (num.format n)) = true) ∧
    ∀ rest, ParseNumber num (num.format n ++ ',' :: rest) = some (m, ',' :: rest)

end UhdHelper

/-! # Theorems -/

namespace UhdHelper

/-! ## Normalization -/

theorem foldl_normalizeStep (config : AppConfig) (l : List Profile) (seen : List Str)
    (acc : List Profile) :
    (l.foldl (normalizeStep config) (seen, acc)).2 = acc ++ normalizeFrom config seen l := by
  induction l generalizing seen acc with
  | nil => simp [normalizeFrom]
  | cons p rest ih =>
    simp only [List.foldl_cons, normalizeStep, normalizeFrom]
    by_cases h1 : p.id = []
    · simp [h1, ih]
    · by_cases h2 : p.id ∈ seen
      · simp [h1, h2, ih]
      · simp [h1, h2, ih]

theorem normalizeProfiles_profiles (config : AppConfig) :
    (NormalizeProfiles config).profiles = normalizeFrom config [] config.profiles := by
  simp [NormalizeProfiles, foldl_normalizeStep]

theorem fillDefaults_eq_withDefaults (config : AppConfig) (p : Profile) :
    fillDefaults config p = withDefaults config p := by
  obtain ⟨i, d, f, o⟩ := p
  unfold fillDefaults withDefaults
  by_cases h1 : d = [] <;> by_cases h2 : f = [] <;> cases o <;> simp [h1, h2]

theorem fillDefaults_id (config : AppConfig) (p : Profile) :
    (fillDefaults config p).id = p.id := by
  rw [fillDefaults_eq_withDefaults]; rfl

theorem fillDefaults_is_official (config : AppConfig) (p : Profile) :
    (fillDefaults config p).is_official = p.is_official := by
  rw [fillDefaults_eq_withDefaults]; rfl

theorem fillDefaults_idem (config : AppConfig) (p : Profile) :
    fillDefaults config (fillDefaults config p) = fillDefaults config p := by
  simp only [fillDefaults_eq_withDefaults]
  unfold withDefaults
  by_cases h1 : p.display_name = [] <;> by_cases h2 : p.folder_name = [] <;>
    by_cases h3 : p.is_official = true <;> by_cases h4 : p.id = [] <;>
    by_cases h5 : config.official_profile_folder = [] <;>
    by_cases h6 : config.idle_profile_prefix = [] <;> simp [h1, h2, h3, h4, h5, h6]

/-- Every entry normalization emits has a non-empty id outside `seen` and already carries
its defaults. -/
theorem normalizeFrom_mem (config : AppConfig) (l : List Profile) (seen : List Str)
    (p : Profile) (hp : p ∈ normalizeFrom config seen l) :
    p.id ≠ [] ∧ p.id ∉ seen ∧ fillDefaults config p = p ∧
      ∃ q ∈ l, p = fillDefaults config q := by
  induction l generalizing seen with
  | nil => simp [normalizeFrom] at hp
  | cons q rest ih =>
    simp only [normalizeFrom] at hp
    by_cases h1 : q.id = []
    · simp only [h1, if_true] at hp
      obtain ⟨a, b, c, r, hr, e⟩ := ih seen hp
      exact ⟨a, b, c, r, List.mem_cons_of_mem _ hr, e⟩
    · by_cases h2 : q.id ∈ seen
      · simp only [h1, h2, if_true, if_false] at hp
        obtain ⟨a, b, c, r, hr, e⟩ := ih seen hp
        exact ⟨a, b, c, r, List.mem_cons_of_mem _ hr, e⟩
      · simp only [h1, h2, if_false, List.mem_cons] at hp
        rcases hp with hp | hp
        · subst hp
          refine ⟨?_, ?_, fillDefaults_idem config q, q, List.mem_cons_self _ _, rfl⟩
          · rw [fillDefaults_id]; exact h1
          · rw [fillDefaults_id]; exact h2
        · obtain ⟨a, b, c, r, hr, e⟩ := ih (q.id :: seen) hp
          exact ⟨a, fun h => b (List.mem_cons_of_mem _ h), c, r, List.mem_cons_of_mem _ hr, e⟩

theorem normalizeFrom_nodup (config : AppConfig) (l : List Profile) (seen : List Str) :
    ((normalizeFrom config seen l).map Profile.id).Nodup := by
  induction l generalizing seen with
  | nil => simp [normalizeFrom]
  | cons q rest ih =>
    simp only [normalizeFrom]
    by_cases h1 : q.id = []
    · simpa [h1] using ih seen
    · by_cases h2 : q.id ∈ seen
      · simpa [h1, h2] using ih seen
      · simp only [h1, h2, if_false, List.map_cons, List.nodup_cons]
        refine ⟨?_, ih _⟩
        rw [fillDefaults_id]
        intro hmem
        obtain ⟨r, hr, e⟩ := List.mem_map.1 hmem
        have := (normalizeFrom_mem config rest (q.id :: seen) r hr).2.1
        exact this (by rw [e]; exact List.mem_cons_self _ _)

/-- A list of distinct, non-empty, unseen ids whose entries carry their defaults passes
through the loop unchanged. -/
theorem normalizeFrom_fixed (config : AppConfig) (l : List Profile) (seen : List Str)
    (hl : ∀ p ∈ l, p.id ≠ [] ∧ p.id ∉ seen ∧ fillDefaults config p = p)
    (hnd : (l.map Profile.id).Nodup) :
    normalizeFrom config seen l = l := by
  induction l generalizing seen with
  | nil => simp [normalizeFrom]
  | cons q rest ih =>
    obtain ⟨h1, h2, h3⟩ := hl q (List.mem_cons_self _ _)
    simp only [List.map_cons, List.nodup_cons] at hnd
    simp only [normalizeFrom, h1, h2, if_false, h3]
    congr 1
    apply ih _ _ hnd.2
    intro p hp
    obtain ⟨a, b, c⟩ := hl p (List.mem_cons_of_mem _ hp)
    refine ⟨a, ?_, c⟩
    intro hmem
    rcases List.mem_cons.1 hmem with e | e
    · exact hnd.1 (List.mem_map.2 ⟨p, hp, e⟩)
    · exact b e

theorem normalizeFrom_idem (config : AppConfig) (l : List Profile) :
    normalizeFrom config [] (normalizeFrom config [] l) = normalizeFrom config [] l := by
  apply normalizeFrom_fixed _ _ _ _ (normalizeFrom_nodup config l [])
  intro p hp
  obtain ⟨a, b, c, _⟩ := normalizeFrom_mem config l [] p hp
  exact ⟨a, b, c⟩

theorem normalizeFrom_config (config : AppConfig) (ps : List Profile) :
    normalizeFrom { config with profiles := ps } = normalizeFrom config := by
  funext seen l
  induction l generalizing seen with
  | nil => simp [normalizeFrom]
  | cons q rest ih =>
    simp only [normalizeFrom, ih]
    rfl

/-- C2: `NormalizeProfiles` is idempotent: on every configuration, running it a second time
returns exactly the configuration the first run produced. -/
theorem normalizeProfiles_idempotent (config : AppConfig) :
    NormalizeProfiles (NormalizeProfiles config) = NormalizeProfiles config := by
  have h1 : (NormalizeProfiles (NormalizeProfiles config)).profiles
      = (NormalizeProfiles config).profiles := by
    rw [normalizeProfiles_profiles (NormalizeProfiles config), normalizeProfiles_profiles config]
    have : NormalizeProfiles config
        = { config with profiles := normalizeFrom config [] config.profiles } := by
      simp [NormalizeProfiles, foldl_normalizeStep]
    rw [this, normalizeFrom_config]
    exact normalizeFrom_idem config _
  have h2 : ∀ c : AppConfig, NormalizeProfiles c
      = { c with profiles := (NormalizeProfiles c).profiles } := fun c => rfl
  rw [h2 (NormalizeProfiles config), h1]

theorem normalizeFrom_eq_firstOccurrences (config : AppConfig) (l : List Profile)
    (seen : List Str) (earlier : List Profile)
    (h : ∀ x : Str, x ≠ [] → (x ∈ seen ↔ ∃ q ∈ earlier, q.id = x)) :
    normalizeFrom config seen l = (firstOccurrences earlier l).map (withDefaults config) := by
  induction l generalizing seen earlier with
  | nil => simp [normalizeFrom, firstOccurrences]
  | cons p rest ih =>
    simp only [normalizeFrom, firstOccurrences]
    by_cases h1 : p.id = []
    · simp only [h1, if_true, ne_eq, not_true_eq_false, false_and, if_false]
      apply ih
      intro x hx
      rw [h x hx]
      constructor
      · rintro ⟨q, hq, e⟩
        exact ⟨q, List.mem_append_left _ hq, e⟩
      · rintro ⟨q, hq, e⟩
        rcases List.mem_append.1 hq with hq | hq
        · exact ⟨q, hq, e⟩
        · rw [List.mem_singleton] at hq
          subst hq
          exact absurd (e.symm.trans h1) hx
    · by_cases h2 : p.id ∈ seen
      · obtain ⟨q, hq, e⟩ := (h p.id h1).1 h2
        have hno : ¬ (p.id ≠ [] ∧ ∀ q ∈ earlier, q.id ≠ p.id) := fun hh => hh.2 q hq e
        simp only [h1, h2, if_true, if_false, hno]
        apply ih
        intro x hx
        rw [h x hx]
        constructor
        · rintro ⟨r, hr, e'⟩
          exact ⟨r, List.mem_append_left _ hr, e'⟩
        · rintro ⟨r, hr, e'⟩
          rcases List.mem_append.1 hr with hr | hr
          · exact ⟨r, hr, e'⟩
          · rw [List.mem_singleton] at hr
            subst hr
            exact ⟨q, hq, e.trans e'⟩
      · have hyes : p.id ≠ [] ∧ ∀ q ∈ earlier, q.id ≠ p.id :=
          ⟨h1, fun q hq e => h2 ((h p.id h1).2 ⟨q, hq, e⟩)⟩
        simp only [h1, h2, if_false, if_pos hyes, List.map_cons, fillDefaults_eq_withDefaults]
        congr 1
        apply ih
        intro x hx
        rw [List.mem_cons, h x hx]
        constructor
        · rintro (e | ⟨r, hr, e'⟩)
          · exact ⟨p, List.mem_append_right _ (List.mem_singleton_self _), e.symm⟩
          · exact ⟨r, List.mem_append_left _ hr, e'⟩
        · rintro ⟨r, hr, e'⟩
          rcases List.mem_append.1 hr with hr | hr
          · exact Or.inr ⟨r, hr, e'⟩
          · rw [List.mem_singleton] at hr
            subst hr
            exact Or.inl e'.symm

theorem firstOccurrences_sublist (earlier l : List Profile) :
    List.Sublist (firstOccurrences earlier l) l := by
  induction l generalizing earlier with
  | nil => simp [firstOccurrences]
  | cons p rest ih =>
    simp only [firstOccurrences]
    split
    · exact (ih _).cons₂ _
    · exact (ih _).cons _

/-- C3: the profile list `NormalizeProfiles` leaves is the subsequence of the input formed
by the first occurrence of each non-empty id, in input order, each kept entry with an empty
display name replaced by its id and an empty folder name replaced by the official folder
name (official entry) or `idlePrefix + id` (any other entry), and otherwise unchanged. -/
theorem normalizeProfiles_first_occurrences (config : AppConfig) :
    (NormalizeProfiles config).profiles = normalizeSpec config config.profiles ∧
      List.Sublist (firstOccurrences [] config.profiles) config.profiles := by
  refine ⟨?_, firstOccurrences_sublist _ _⟩
  rw [normalizeProfiles_profiles, normalizeSpec]
  apply normalizeFrom_eq_firstOccurrences
  intro x _
  simp

/-! ## `EnsureOfficialProfile` -/

theorem findIndexById_none {l : List Profile} {id : Str} :
    findIndexById l id = none ↔ ∀ p ∈ l, p.id ≠ id := by
  induction l with
  | nil => simp [findIndexById]
  | cons p rest ih =>
    simp only [findIndexById]
    by_cases h : p.id = id
    · simp [h]
    · simp [h, ih]

theorem findIndexById_some {l : List Profile} {id : Str} {i : Nat}
    (h : findIndexById l id = some i) :
    ∃ pre p post, l = pre ++ p :: post ∧ pre.length = i ∧ p.id = id ∧
      ∀ q ∈ pre, q.id ≠ id := by
  induction l generalizing i with
  | nil => simp [findIndexById] at h
  | cons p rest ih =>
    simp only [findIndexById] at h
    by_cases hp : p.id = id
    · simp only [hp, if_true, Option.some.injEq] at h
      exact ⟨[], p, rest, rfl, by simpa using h, hp, by simp⟩
    · simp only [hp, if_false, Option.map_eq_some'] at h
      obtain ⟨j, hj, e⟩ := h
      obtain ⟨pre, q, post, e1, e2, e3, e4⟩ := ih hj
      refine ⟨p :: pre, q, post, by simp [e1], by simp [e2, ← e], e3, ?_⟩
      intro r hr
      rcases List.mem_cons.1 hr with hr | hr
      · subst hr; exact hp
      · exact e4 r hr

theorem findIndexById_append {pre post : List Profile} {p : Profile} {id : Str}
    (hp : p.id = id) (hpre : ∀ q ∈ pre, q.id ≠ id) :
    findIndexById (pre ++ p :: post) id = some pre.length := by
  induction pre with
  | nil => simp [findIndexById, hp]
  | cons q rest ih =>
    have hq : q.id ≠ id := hpre q (List.mem_cons_self _ _)
    have := ih (fun r hr => hpre r (List.mem_cons_of_mem _ hr))
    simp [findIndexById, hq, this]

theorem modify_append_cons {α : Type} (f : α → α) (pre post : List α) (p : α) :
    (pre ++ p :: post).modify f pre.length = pre ++ f p :: post := by
  induction pre with
  | nil => simp [List.modify, List.modifyTailIdx, List.modifyHead]
  | cons q rest ih => simpa [List.modify, List.modifyTailIdx] using ih

theorem get?_append_cons {α : Type} (pre post : List α) (p : α) :
    (pre ++ p :: post).get? pre.length = some p := by
  induction pre with
  | nil => simp
  | cons q rest ih => simpa using ih

/-- The two outcomes of `EnsureOfficialProfile`: a new entry is appended when no entry has
the id `"official"`, otherwise the first such entry is rewritten in place. -/
theorem ensureOfficial_cases (config : AppConfig) :
    ((∀ p ∈ config.profiles, p.id ≠ officialId) ∧
        (EnsureOfficialProfile config).profiles = config.profiles ++
          [{ id := officialId, display_name := officialDisplayName,
             folder_name := config.official_profile_folder, is_official := true }]) ∨
      ∃ pre p post, config.profiles = pre ++ p :: post ∧
        (∀ q ∈ pre, q.id ≠ officialId) ∧ p.id = officialId ∧
        (EnsureOfficialProfile config).profiles = pre ++
          { id := officialId,
            display_name :=
              if p.display_name = [] then officialDisplayName else p.display_name,
            folder_name := config.official_profile_folder,
            is_official := true } :: post := by
  cases hfind : findIndexById config.profiles officialId with
  | none =>
    left
    refine ⟨findIndexById_none.1 hfind, ?_⟩
    simp [EnsureOfficialProfile, FindProfileById, hfind]
  | some i =>
    right
    obtain ⟨pre, p, post, e1, e2, e3, e4⟩ := findIndexById_some hfind
    refine ⟨pre, p, post, e1, e4, e3, ?_⟩
    simp only [EnsureOfficialProfile, FindProfileById, hfind]
    rw [e1, ← e2, modify_append_cons]
    congr 2
    obtain ⟨pi, pd, pf, po⟩ := p
    simp only at e3
    subst e3
    unfold affirmOfficial
    by_cases hd : pd = [] <;> simp [hd]

theorem ensureOfficial_fields (config : AppConfig) :
    EnsureOfficialProfile config =
      { config with profiles := (EnsureOfficialProfile config).profiles } := by
  cases hfind : findIndexById config.profiles officialId <;>
    simp [EnsureOfficialProfile, FindProfileById, hfind]

/-- C4: after `EnsureOfficialProfile` a lookup of `"official"` finds a profile of the
catalog that is official and whose folder is the configuration's official folder name.
When no entry had that id, the result is the old list with one entry named "NI Official"
appended; otherwise the first entry with that id is rewritten in place (folder forced,
flag forced, display name replaced only if it was empty), the length stays the same and
every other entry and every other field of the configuration is unchanged. -/
theorem ensureOfficialProfile_spec (config : AppConfig) :
    (∃ p, profileAt (EnsureOfficialProfile config) officialId = some p ∧
        p ∈ (EnsureOfficialProfile config).profiles ∧ p.id = officialId ∧
        p.is_official = true ∧ p.folder_name = config.official_profile_folder) ∧
    ((∀ p ∈ config.profiles, p.id ≠ officialId) →
        (EnsureOfficialProfile config).profiles = config.profiles ++
          [{ id := officialId, display_name := officialDisplayName,
             folder_name := config.official_profile_folder, is_official := true }]) ∧
    ((∃ p ∈ config.profiles, p.id = officialId) →
        (EnsureOfficialProfile config).profiles.length = config.profiles.length ∧
        ∃ pre p post, config.profiles = pre ++ p :: post ∧
          (∀ q ∈ pre, q.id ≠ officialId) ∧ p.id = officialId ∧
          (EnsureOfficialProfile config).profiles = pre ++
            { id := officialId,
              display_name :=
                if p.display_name = [] then officialDisplayName else p.display_name,
              folder_name := config.official_profile_folder,
              is_official := true } :: post) ∧
    EnsureOfficialProfile config =
      { config with profiles := (EnsureOfficialProfile config).profiles } := by
  cases hfind : findIndexById config.profiles officialId with
  | none =>
    have hall := findIndexById_none.1 hfind
    have hprof : (EnsureOfficialProfile config).profiles = config.profiles ++
          [{ id := officialId, display_name := officialDisplayName,
             folder_name := config.official_profile_folder, is_official := true }] := by
      simp [EnsureOfficialProfile, FindProfileById, hfind]
    refine ⟨?_, fun _ => hprof, ?_, ?_⟩
    · refine ⟨{ id := officialId, display_name := officialDisplayName,
                folder_name := config.official_profile_folder, is_official := true }, ?_, ?_,
             rfl, rfl, rfl⟩
      · simp only [profileAt, FindProfileById, hprof]
        rw [findIndexById_append rfl hall]
        exact get?_append_cons _ _ _
      · rw [hprof]; simp
    · rintro ⟨p, hp, e⟩
      exact absurd e (hall p hp)
    · simp [EnsureOfficialProfile, FindProfileById, hfind]
  | some i =>
    obtain ⟨pre, p, post, e1, e2, e3, e4⟩ := findIndexById_some hfind
    have hprof : (EnsureOfficialProfile config).profiles = pre ++
            { id := officialId,
              display_name :=
                if p.display_name = [] then officialDisplayName else p.display_name,
              folder_name := config.official_profile_folder,
              is_official := true } :: post := by
      simp only [EnsureOfficialProfile, FindProfileById, hfind]
      rw [e1, ← e2, modify_append_cons]
      congr 2
      obtain ⟨pi, pd, pf, po⟩ := p
      simp only at e3
      subst e3
      unfold affirmOfficial
      by_cases hd : pd = [] <;> simp [hd]
    refine ⟨?_, ?_, fun _ => ⟨?_, pre, p, post, e1, e4, e3, hprof⟩, ?_⟩
    · refine ⟨{ id := officialId,
                display_name :=
                  if p.display_name = [] then officialDisplayName else p.display_name,
                folder_name := config.official_profile_folder,
                is_official := true }, ?_, ?_, rfl, rfl, rfl⟩
      · simp only [profileAt, FindProfileById, hprof]
        rw [findIndexById_append rfl e4]
        exact get?_append_cons _ _ _
      · rw [hprof]; simp
    · intro hall
      exact absurd e3 (hall p (by rw [e1]; simp))
    · rw [hprof, e1]; simp
    · simp [EnsureOfficialProfile, FindProfileById, hfind]

/-! ## `GenerateProfileId` -/

theorem generateLoop_fresh (existing : List Str) (base : Str) (n i : Nat)
    (h : ∃ j, i ≤ j ∧ j < i + n ∧ suffixed base j ∉ existing) :
    generateLoop existing base i n ∉ existing := by
  induction n generalizing i with
  | zero =>
    obtain ⟨j, h1, h2, _⟩ := h
    omega
  | succ n ih =>
    simp only [generateLoop]
    by_cases hc : suffixed base i ∈ existing
    · simp only [hc, not_true_eq_false, if_false]
      apply ih
      obtain ⟨j, h1, h2, h3⟩ := h
      have hne : j ≠ i := fun e => h3 (e ▸ hc)
      exact ⟨j, by omega, by omega, h3⟩
    · simp only [hc, not_false_eq_true, if_true]

theorem exists_not_of_filter_length_lt {α : Type} (p : α → Bool) (l : List α)
    (h : (l.filter p).length < l.length) : ∃ x ∈ l, p x = false := by
  by_contra hcon
  push_neg at hcon
  have : l.filter p = l := List.filter_eq_self.2 (fun x hx => by simpa using hcon x hx)
  rw [this] at h
  exact lt_irrefl _ h

theorem generateProfileId_not_mem (config : AppConfig) (display_name : Str)
    (h : takenCandidates config (candidateBase display_name) < 9998) :
    GenerateProfileId config display_name ∉ config.profiles.map Profile.id := by
  unfold GenerateProfileId
  by_cases hb : candidateBase display_name ∈ config.profiles.map Profile.id
  · simp only [hb, not_true_eq_false, if_false]
    apply generateLoop_fresh
    unfold takenCandidates candidateIds at h
    rw [List.filter_cons] at h
    simp only [hb, decide_True, if_true, List.length_cons] at h
    have hlen : ((List.range' 2 9998).map (suffixed (candidateBase display_name))).length
        = 9998 := by simp
    obtain ⟨x, hx, hpx⟩ := exists_not_of_filter_length_lt
      (fun c => decide (c ∈ config.profiles.map Profile.id))
      ((List.range' 2 9998).map (suffixed (candidateBase display_name)))
      (by rw [hlen]; omega)
    obtain ⟨j, hj, rfl⟩ := List.mem_map.1 hx
    rw [List.mem_range'_1] at hj
    exact ⟨j, hj.1, by omega, by simpa using hpx⟩
  · simp only [hb, not_false_eq_true, if_true]

/-- C5: when fewer than 9998 of the candidate ids `base`, `base_2`, ..., `base_9999` are
ids of the catalog, the id `GenerateProfileId` returns is the id of no profile of the
catalog. -/
theorem generateProfileId_fresh (config : AppConfig) (display_name : Str)
    (h : takenCandidates config (candidateBase display_name) < 9998) :
    ∀ p ∈ config.profiles, p.id ≠ GenerateProfileId config display_name := by
  intro p hp e
  exact generateProfileId_not_mem config display_name h (e ▸ List.mem_map_of_mem _ hp)

/-- Two free candidates are enough for the bound of C5. -/
theorem takenCandidates_lt (config : AppConfig) (base : Str)
    (h2 : suffixed base 2 ∉ config.profiles.map Profile.id)
    (h3 : suffixed base 3 ∉ config.profiles.map Profile.id) :
    takenCandidates config base < 9998 := by
  have hr : List.range' 2 9998 = 2 :: 3 :: List.range' 4 9996 := by
    rw [show 9998 = 9996 + 1 + 1 from rfl, List.range'_succ, List.range'_succ]
  unfold takenCandidates candidateIds
  rw [hr, List.map_cons, List.map_cons]
  simp only [List.filter_cons, h2, h3, decide_False, Bool.false_eq_true, if_false]
  have hle := List.length_filter_le (fun c => decide (c ∈ config.profiles.map Profile.id))
    ((List.range' 4 9996).map (suffixed base))
  rw [List.length_map, List.length_range'] at hle
  split
  · simp only [List.length_cons]; omega
  · omega

/-- Witness of C5: with `official` and `my_theme` taken, "My Theme" gets `my_theme_2`,
which is the id of no profile of the catalog. -/
theorem generateProfileId_fresh_witness :
    takenCandidates catalogWithMyTheme (candidateBase "My Theme".toList) < 9998 ∧
      GenerateProfileId catalogWithMyTheme "My Theme".toList = "my_theme_2".toList ∧
      ∀ p ∈ catalogWithMyTheme.profiles,
        p.id ≠ GenerateProfileId catalogWithMyTheme "My Theme".toList :=
  ⟨takenCandidates_lt _ _ (by decide) (by decide), by decide,
    generateProfileId_fresh catalogWithMyTheme "My Theme".toList
      (takenCandidates_lt _ _ (by decide) (by decide))⟩

/-! ## `Slugify` -/

theorem tolower_ne_underscore (c : Char) (h : isalnum c = true) : tolower c ≠ '_' := by
  unfold tolower Char.toLower
  by_cases hu : c.toNat ≥ 65 ∧ c.toNat ≤ 90
  · simp only [hu, and_self, if_true]
    obtain ⟨h1, h2⟩ := hu
    generalize c.toNat = n at h1 h2
    interval_cases n <;> decide
  · simp only [hu, if_false]
    intro e
    rw [e] at h
    exact absurd h (by decide)

/-- The flag of `collapseRuns` that corresponds to the string `out` built so far: no
underscore is due when `out` is empty or already ends in one. -/
theorem foldl_slugifyStep (l : Str) (out : Str) :
    l.foldl slugifyStep out
      = out ++ collapseRuns (decide (out = [] ∨ out.getLast? = some '_')) l := by
  induction l generalizing out with
  | nil => simp [collapseRuns]
  | cons c rest ih =>
    rw [List.foldl_cons, ih]
    unfold slugifyStep
    by_cases ha : isalnum c = true
    · have hne := tolower_ne_underscore c ha
      have hflag : decide (out ++ [tolower c] = [] ∨
          (out ++ [tolower c]).getLast? = some '_') = false := by
        simp [hne]
      simp only [ha, if_true, hflag, collapseRuns, List.append_assoc, List.singleton_append]
    · by_cases hs : isSeparator c = true
      · by_cases hf : out = [] ∨ out.getLast? = some '_'
        · have hcond : ¬ (out ≠ [] ∧ out.getLast? ≠ some '_') := by
            rintro ⟨h1, h2⟩
            rcases hf with hf | hf
            · exact h1 hf
            · exact h2 hf
          simp only [ha, hs, hcond, if_false, if_true, collapseRuns, hf, decide_True,
            Bool.false_eq_true]
        · have hcond : out ≠ [] ∧ out.getLast? ≠ some '_' := by
            push_neg at hf
            exact hf
          have hflag :
              decide (out ++ ['_'] = [] ∨ (out ++ ['_']).getLast? = some '_') = true := by
            simp
          have hf2 : decide (out = [] ∨ out.getLast? = some '_') = false := by
            simpa using hf
          rw [if_neg ha, if_pos hs, if_pos hcond, hflag, hf2]
          simp [collapseRuns, ha, hs]
      · simp only [ha, hs, if_false, collapseRuns, Bool.false_eq_true]

theorem slugify_eq (input : Str) :
    Slugify input = trimUnderscore (collapseRuns true input) := by
  unfold Slugify trimUnderscore
  have h := foldl_slugifyStep input []
  simp only [List.nil_append, true_or, decide_True] at h
  simp only [h]
  by_cases hl : (collapseRuns true input).getLast? = some '_'
  · have hne : collapseRuns true input ≠ [] := by
      intro e
      rw [e] at hl
      simp at hl
    simp [hl, hne]
  · simp [hl]

theorem collapseRuns_true (l : Str) :
    collapseRuns true l = collapseRuns false (l.dropWhile (fun c => !isalnum c)) := by
  induction l with
  | nil => simp [collapseRuns]
  | cons c rest ih =>
    by_cases ha : isalnum c = true
    · simp [collapseRuns, List.dropWhile, ha]
    · by_cases hs : isSeparator c = true
      · simp [collapseRuns, List.dropWhile, ha, hs, ih]
      · simp [collapseRuns, List.dropWhile, ha, hs, ih]

/-- C6 as stated fails: for the name `" a"` the leading run of separators would give the
candidate `"_a"`, while the code computes `"a"`. -/
theorem candidateBase_leading_separator_counterexample :
    candidateBase " a".toList = "a".toList ∧
      candidateAsClaimed " a".toList = "_a".toList ∧
      candidateBase " a".toList ≠ candidateAsClaimed " a".toList := by
  decide

/-- C6 (amended): the candidate id is what the claim describes, computed on the display
name without the characters before its first alphanumeric character: alphanumerics
lowercased in order, each run of space/hyphen/underscore among the kept characters
collapsed into one underscore, every other character left out, a trailing underscore
trimmed, and `"profile"` when nothing is left; `"My Theme"` gives `"my_theme"`. -/
theorem candidateBase_spec (display_name : Str) :
    candidateBase display_name
        = candidateAsClaimed (display_name.dropWhile (fun c => !isalnum c)) ∧
      candidateBase "My Theme".toList = "my_theme".toList := by
  refine ⟨?_, by decide⟩
  unfold candidateBase candidateAsClaimed
  rw [slugify_eq, collapseRuns_true]

/-! ## The directory layout -/

theorem lookup_filter_ne (es : List (Str × Node)) (name k : Str) :
    (es.filter (fun e => e.1 != name)).lookup k = if k = name then none else es.lookup k := by
  induction es with
  | nil => simp
  | cons e rest ih =>
    obtain ⟨n, x⟩ := e
    by_cases hn : n = name
    · have h1 : (n != name) = false := by simpa using hn
      rw [List.filter_cons]
      simp only [h1, Bool.false_eq_true, if_false, ih, List.lookup_cons]
      by_cases hk : k = name
      · simp only [hk, if_true]
      · have : (k == n) = false := by rw [hn]; simpa using hk
        simp only [hk, if_false, this]
    · have h1 : (n != name) = true := by simpa using hn
      rw [List.filter_cons]
      simp only [h1, if_true, List.lookup_cons, ih]
      by_cases hk : k = n
      · have h2 : (k == n) = true := by simpa using hk
        have h3 : k ≠ name := by rw [hk]; exact hn
        simp only [h2, h3, if_false]
      · have : (k == n) = false := by simpa using hk
        simp only [this]

theorem lookup_append_singleton (es : List (Str × Node)) (name k : Str) (x : Node) :
    (es ++ [(name, x)]).lookup k
      = match es.lookup k with
        | some y => some y
        | none => if k = name then some x else none := by
  induction es with
  | nil =>
    by_cases hk : k = name
    · subst hk; simp
    · have : (k == name) = false := by simpa using hk
      simp [List.lookup_cons, this, hk]
  | cons e rest ih =>
    obtain ⟨n, y⟩ := e
    by_cases hk : k = n
    · subst hk; simp
    · have : (k == n) = false := by simpa using hk
      simp only [List.cons_append, List.lookup_cons, this, ih]

theorem node_without (disk : AssetRoot) (name k : Str) :
    (disk.without name).node k = if k = name then none else disk.node k := by
  cases disk with
  | missing => simp [AssetRoot.without, AssetRoot.node, AssetRoot.entries]
  | notDir => simp [AssetRoot.without, AssetRoot.node, AssetRoot.entries]
  | dir es => simp [AssetRoot.without, AssetRoot.node, AssetRoot.entries, lookup_filter_ne]

theorem node_some_isDir {disk : AssetRoot} {k : Str} {x : Node} (h : disk.node k = some x) :
    ∃ es, disk = .dir es := by
  cases disk with
  | missing => simp [AssetRoot.node, AssetRoot.entries] at h
  | notDir => simp [AssetRoot.node, AssetRoot.entries] at h
  | dir es => exact ⟨es, rfl⟩

theorem node_withNode (es : List (Str × Node)) (name k : Str) (x : Node) :
    ((AssetRoot.dir es).withNode name x).node k
      = if k = name then some x else (AssetRoot.dir es).node k := by
  simp only [AssetRoot.withNode, AssetRoot.node, AssetRoot.entries, lookup_append_singleton,
    lookup_filter_ne]
  by_cases hk : k = name
  · simp [hk]
  · simp only [hk, if_false]
    cases List.lookup k es <;> rfl

theorem without_isDir (es : List (Str × Node)) (name : Str) :
    ∃ es', (AssetRoot.dir es).without name = .dir es' := ⟨_, rfl⟩

theorem withNode_isDir (es : List (Str × Node)) (name : Str) (x : Node) :
    ∃ es', (AssetRoot.dir es).withNode name x = .dir es' := ⟨_, rfl⟩

theorem folderExists_iff (disk : AssetRoot) (name : Str) :
    FolderExists disk name = true ↔ ∃ c, disk.node name = some (.dir c) := by
  unfold FolderExists FileUtil.Exists FileUtil.IsDir
  cases h : disk.node name with
  | none => simp
  | some x => cases x <;> simp

theorem ensureDir_ok {env : Env} {disk : AssetRoot} (h : (FileUtil.EnsureDir env disk).1 = true) :
    ∃ es, (FileUtil.EnsureDir env disk).2 = .dir es ∧
      (∀ k x, disk.node k = some x → (FileUtil.EnsureDir env disk).2 = disk) := by
  cases disk with
  | missing =>
    unfold FileUtil.EnsureDir at h ⊢
    by_cases hp : env.permits .createRoot = true
    · simp only [hp, if_true]
      exact ⟨[], rfl, fun k x hk => by simp [AssetRoot.node, AssetRoot.entries] at hk⟩
    · simp [hp] at h
  | notDir => simp [FileUtil.EnsureDir] at h
  | dir es => exact ⟨es, rfl, fun _ _ _ => rfl⟩

theorem ensureDir_dir (env : Env) (es : List (Str × Node)) :
    FileUtil.EnsureDir env (.dir es) = (true, .dir es) := rfl

theorem removeAll_node (env : Env) (disk : AssetRoot) (name k : Str) :
    (FileUtil.RemoveAll env disk name).2.node k = disk.node k ∨
      ((FileUtil.RemoveAll env disk name).1 = true ∧ k = name ∧
        (FileUtil.RemoveAll env disk name).2.node k = none) := by
  unfold FileUtil.RemoveAll
  by_cases he : FileUtil.Exists disk name = true
  · by_cases hp : env.permits (.removeAll name) = true
    · simp only [he, hp, Bool.not_true, Bool.false_eq_true, if_false, if_true, node_without]
      by_cases hk : k = name
      · right; simp [hk]
      · left; simp [hk]
    · left; simp [he, hp]
  · left; simp [he]

theorem removeAll_ok_node {env : Env} {disk : AssetRoot} {name : Str}
    (h : (FileUtil.RemoveAll env disk name).1 = true) (k : Str) :
    (FileUtil.RemoveAll env disk name).2.node k = if k = name then none else disk.node k := by
  unfold FileUtil.RemoveAll at h ⊢
  by_cases he : FileUtil.Exists disk name = true
  · by_cases hp : env.permits (.removeAll name) = true
    · simp only [he, hp, Bool.not_true, Bool.false_eq_true, if_false, if_true, node_without]
    · simp [he, hp] at h
  · simp only [he, Bool.not_false, if_true]
    by_cases hk : k = name
    · subst hk
      simp only [if_true]
      unfold FileUtil.Exists at he
      cases hn : disk.node k with
      | none => rfl
      | some x => simp [hn] at he
    · simp [hk]

theorem rename_fail {env : Env} {disk : AssetRoot} {src dst : Str}
    (h : (FileUtil.Rename env disk src dst).1 = false) :
    (FileUtil.Rename env disk src dst).2 = disk := by
  unfold FileUtil.Rename at h ⊢
  cases hn : disk.node src with
  | none => rfl
  | some node =>
    simp only [hn] at h ⊢
    by_cases e : src = dst
    · simp [e] at h
    · by_cases c : (canReplace node (disk.node dst) && env.permits (.rename src dst)) = true
      · simp [e, c] at h
      · simp [e, c]

theorem rename_ok {env : Env} {disk : AssetRoot} {src dst : Str}
    (h : (FileUtil.Rename env disk src dst).1 = true) :
    ∃ node, disk.node src = some node ∧
      ((src = dst ∧ (FileUtil.Rename env disk src dst).2 = disk) ∨
       (src ≠ dst ∧ canReplace node (disk.node dst) = true ∧
         (FileUtil.Rename env disk src dst).2 = (disk.without src).withNode dst node)) := by
  unfold FileUtil.Rename at h ⊢
  cases hn : disk.node src with
  | none => simp [hn] at h
  | some node =>
    simp only [hn] at h ⊢
    refine ⟨node, rfl, ?_⟩
    by_cases e : src = dst
    · left; simp [e]
    · by_cases c : (canReplace node (disk.node dst) && env.permits (.rename src dst)) = true
      · right
        simp only [e, c, if_false, if_true, ne_eq, not_false_eq_true, true_and, and_true]
        simp only [Bool.and_eq_true] at c
        exact c.1
      · simp [e, c] at h

/-- After a successful `Rename` between different names the source is gone and the
destination holds what the source held; every other name is untouched. -/
theorem rename_ok_node {env : Env} {disk : AssetRoot} {src dst : Str}
    (h : (FileUtil.Rename env disk src dst).1 = true) (hne : src ≠ dst) (k : Str) :
    (FileUtil.Rename env disk src dst).2.node k
      = if k = dst then disk.node src else if k = src then none else disk.node k := by
  obtain ⟨node, hn, hcase⟩ := rename_ok h
  rcases hcase with ⟨e, _⟩ | ⟨_, _, hres⟩
  · exact absurd e hne
  · rw [hres]
    obtain ⟨es, rfl⟩ := node_some_isDir hn
    obtain ⟨es', he'⟩ := without_isDir es src
    rw [he', node_withNode, ← he', node_without, hn]

/-! ## Lookups in the catalog -/

theorem findIndexById_get {l : List Profile} {id : Str} {i : Nat}
    (h : findIndexById l id = some i) :
    ∃ p, l.get? i = some p ∧ p ∈ l ∧ p.id = id := by
  obtain ⟨pre, p, post, e1, e2, e3, _⟩ := findIndexById_some h
  refine ⟨p, ?_, ?_, e3⟩
  · rw [e1, ← e2]; exact get?_append_cons _ _ _
  · rw [e1]; simp

theorem profileAt_some {config : AppConfig} {id : Str} {p : Profile}
    (h : profileAt config id = some p) : p ∈ config.profiles ∧ p.id = id := by
  unfold profileAt FindProfileById at h
  cases hf : findIndexById config.profiles id with
  | none => simp [hf] at h
  | some i =>
    obtain ⟨q, hq, hmem, hid⟩ := findIndexById_get hf
    simp only [hf, hq, Option.some.injEq] at h
    subst h
    exact ⟨hmem, hid⟩

theorem profileAt_profiles (c1 c2 : AppConfig) (h : c1.profiles = c2.profiles) (id : Str) :
    profileAt c1 id = profileAt c2 id := by
  unfold profileAt FindProfileById
  rw [h]

/-! ## `DeleteProfile` -/

/-- C7: in a catalog whose profiles with id `"official"` carry the official flag,
`DeleteProfile` on the active id or on `"official"` returns failure and leaves the whole
state (profile list, active id, persisted file and directory layout) as it was. -/
theorem deleteProfile_protected (env : Env) (w : World) (profile_id : Str)
    (hflag : ∀ p ∈ w.config.profiles, p.id = officialId → p.is_official = true)
    (hid : profile_id = w.config.active_profile_id ∨ profile_id = officialId) :
    DeleteProfile env w profile_id = (false, w) := by
  unfold DeleteProfile
  by_cases h1 : profile_id = []
  · simp [h1]
  · by_cases h2 : profile_id = w.config.active_profile_id
    · simp [h1, h2]
    · have h3 : profile_id = officialId := hid.resolve_left h2
      simp only [h1, h2, if_false]
      cases hf : findIndexById w.config.profiles profile_id with
      | none => rfl
      | some i =>
        obtain ⟨q, hq, hmem, hqid⟩ := findIndexById_get hf
        have := hflag q hmem (hqid.trans h3)
        simp only [hq, this, if_true]

/-- Witness of C7: with `my_theme` active, deleting `official` and deleting `my_theme` both
fail and change nothing. -/
theorem deleteProfile_protected_witness :
    (∀ p ∈ myThemeActiveWorld.config.profiles, p.id = officialId → p.is_official = true) ∧
      DeleteProfile permissive myThemeActiveWorld officialId = (false, myThemeActiveWorld) ∧
      DeleteProfile permissive myThemeActiveWorld "my_theme".toList
        = (false, myThemeActiveWorld) :=
  ⟨by decide,
    deleteProfile_protected permissive myThemeActiveWorld officialId (by decide) (Or.inr rfl),
    deleteProfile_protected permissive myThemeActiveWorld "my_theme".toList (by decide)
      (Or.inl rfl)⟩

/-! ## `RenameActiveToIdle` -/

theorem save_ok {env : Env} {w : World} (h : (Save env w).1 = true) :
    (Save env w).2 = { w with file := .text (some (ConfigToJson w.config)) } := by
  unfold Save at h ⊢
  by_cases hp : env.permits .writeConfig = true
  · simp [hp]
  · simp [hp] at h

theorem save_config (env : Env) (w : World) : (Save env w).2.config = w.config := by
  unfold Save
  split <;> rfl

theorem save_disk (env : Env) (w : World) : (Save env w).2.disk = w.disk := by
  unfold Save
  split <;> rfl

/-- What a successful move of the active slot to `dst` leaves, when `dst` was possibly
removed first. -/
theorem renameAfterRemove_ok {env : Env} {disk mid : AssetRoot} {src dst : Str}
    (hmid : ∀ k, mid.node k = disk.node k ∨ (k = dst ∧ mid.node k = none))
    (hsame : src = dst → mid.node src = none ∨ mid = disk)
    (h : (FileUtil.Rename env mid src dst).1 = true) :
    (src = dst → (FileUtil.Rename env mid src dst).2 = disk) ∧
    (src ≠ dst →
      (FileUtil.Rename env mid src dst).2.node src = none ∧
      (FileUtil.Rename env mid src dst).2.node dst = disk.node src ∧
      ∀ k, k ≠ src → k ≠ dst →
        (FileUtil.Rename env mid src dst).2.node k = disk.node k) := by
  constructor
  · intro e
    obtain ⟨node, hn, hcase⟩ := rename_ok h
    rcases hsame e with hnone | heq
    · rw [hnone] at hn; exact absurd hn (by simp)
    · rcases hcase with ⟨_, hres⟩ | ⟨hne, _⟩
      · rw [hres, heq]
      · exact absurd e hne
  · intro hne
    have hsrc : mid.node src = disk.node src := by
      rcases hmid src with h1 | ⟨h1, _⟩
      · exact h1
      · exact absurd h1 hne
    refine ⟨?_, ?_, ?_⟩
    · rw [rename_ok_node h hne]; simp [hne]
    · rw [rename_ok_node h hne]; simp [hsrc]
    · intro k h1 h2
      rw [rename_ok_node h hne]
      simp only [h1, h2, if_false]
      rcases hmid k with h3 | ⟨h3, _⟩
      · exact h3
      · exact absurd h3 h2

theorem renameToBackup_ok {env : Env} {w : World}
    (h : (renameToBackup env w).1 = true) :
    (renameToBackup env w).2.config = w.config ∧ (renameToBackup env w).2.file = w.file ∧
    (w.config.images_folder_name = w.config.backup_profile_folder →
      (renameToBackup env w).2.disk = w.disk) ∧
    (w.config.images_folder_name ≠ w.config.backup_profile_folder →
      (renameToBackup env w).2.disk.node w.config.images_folder_name = none ∧
      (renameToBackup env w).2.disk.node w.config.backup_profile_folder
        = w.disk.node w.config.images_folder_name ∧
      ∀ k, k ≠ w.config.images_folder_name → k ≠ w.config.backup_profile_folder →
        (renameToBackup env w).2.disk.node k = w.disk.node k) := by
  unfold renameToBackup at h ⊢
  refine ⟨rfl, rfl, ?_⟩
  by_cases hb : FolderExists w.disk w.config.backup_profile_folder = true
  · simp only [hb, if_true] at h ⊢
    apply renameAfterRemove_ok _ _ h
    · intro k
      rcases removeAll_node env w.disk w.config.backup_profile_folder k with h1 | ⟨_, h2, h3⟩
      · exact Or.inl h1
      · exact Or.inr ⟨h2, h3⟩
    · intro e
      by_cases hr : (FileUtil.RemoveAll env w.disk w.config.backup_profile_folder).1 = true
      · left
        rw [removeAll_ok_node hr]; simp [e]
      · right
        unfold FileUtil.RemoveAll at hr ⊢
        split
        · rfl
        · split
          · rename_i h1 h2; simp [h1, h2] at hr
          · rfl
  · simp only [hb, Bool.false_eq_true, if_false] at h ⊢
    exact renameAfterRemove_ok (fun k => Or.inl rfl) (fun _ => Or.inr rfl) h

theorem renameToFolder_ok {env : Env} {w : World} {active : Profile}
    (h : (renameToFolder env w active).1 = true) :
    (renameToFolder env w active).2.config = w.config ∧
    (renameToFolder env w active).2.file = w.file ∧
    (w.config.images_folder_name = active.folder_name →
      (renameToFolder env w active).2.disk = w.disk) ∧
    (w.config.images_folder_name ≠ active.folder_name →
      (renameToFolder env w active).2.disk.node w.config.images_folder_name = none ∧
      (renameToFolder env w active).2.disk.node active.folder_name
        = w.disk.node w.config.images_folder_name ∧
      ∀ k, k ≠ w.config.images_folder_name → k ≠ active.folder_name →
        (renameToFolder env w active).2.disk.node k = w.disk.node k) := by
  unfold renameToFolder at h ⊢
  by_cases hb : FolderExists w.disk active.folder_name = true
  · simp only [hb, if_true] at h ⊢
    by_cases hr : (FileUtil.RemoveAll env w.disk active.folder_name).1 = true
    · simp only [hr, Bool.not_true, Bool.false_eq_true, if_false] at h ⊢
      refine ⟨by first | rfl | trivial, by first | rfl | trivial, ?_⟩
      apply renameAfterRemove_ok _ _ h
      · intro k
        rcases removeAll_node env w.disk active.folder_name k with h1 | ⟨_, h2, h3⟩
        · exact Or.inl h1
        · exact Or.inr ⟨h2, h3⟩
      · intro e
        left
        rw [removeAll_ok_node hr]; simp [e]
    · simp [hr] at h
  · simp only [hb, Bool.false_eq_true, if_false] at h ⊢
    refine ⟨by first | rfl | trivial, by first | rfl | trivial, ?_⟩
    exact renameAfterRemove_ok (fun k => Or.inl rfl) (fun _ => Or.inr rfl) h

/-- The effect of a successful `RenameActiveToIdle`: the catalog and the persisted file
are untouched; without an active slot nothing changes; otherwise the active slot's content
sits at `displacedTo`, the active slot is gone and all other names are untouched (when
`displacedTo` is the active slot itself, the layout is as before). -/
theorem renameActiveToIdle_ok {env : Env} {w : World}
    (h : (RenameActiveToIdle env w).1 = true) :
    (RenameActiveToIdle env w).2.config = w.config ∧
    (RenameActiveToIdle env w).2.file = w.file ∧
    (FolderExists w.disk w.config.images_folder_name = false →
      (RenameActiveToIdle env w).2 = w) ∧
    (FolderExists w.disk w.config.images_folder_name = true →
      (w.config.images_folder_name = displacedTo w.config →
        (RenameActiveToIdle env w).2.disk = w.disk) ∧
      (w.config.images_folder_name ≠ displacedTo w.config →
        (RenameActiveToIdle env w).2.disk.node w.config.images_folder_name = none ∧
        (RenameActiveToIdle env w).2.disk.node (displacedTo w.config)
          = w.disk.node w.config.images_folder_name ∧
        ∀ k, k ≠ w.config.images_folder_name → k ≠ displacedTo w.config →
          (RenameActiveToIdle env w).2.disk.node k = w.disk.node k)) := by
  unfold RenameActiveToIdle at h ⊢
  by_cases hi : FolderExists w.disk w.config.images_folder_name = true
  · simp only [hi, Bool.not_true, Bool.false_eq_true, if_false] at h ⊢
    unfold displacedTo
    by_cases ha : w.config.active_profile_id ≠ []
    · simp only [if_pos ha] at h ⊢
      cases hp : profileAt w.config w.config.active_profile_id with
      | none =>
        simp only [hp] at h ⊢
        obtain ⟨a, b, c, d⟩ := renameToBackup_ok h
        exact ⟨a, b, fun hh => absurd hh (by simp), fun _ => ⟨c, d⟩⟩
      | some active =>
        simp only [hp] at h ⊢
        by_cases hf : active.folder_name ≠ []
        · simp only [if_pos hf] at h ⊢
          obtain ⟨a, b, c, d⟩ := renameToFolder_ok h
          exact ⟨a, b, fun hh => absurd hh (by simp), fun _ => ⟨c, d⟩⟩
        · simp only [if_neg hf] at h ⊢
          obtain ⟨a, b, c, d⟩ := renameToBackup_ok h
          exact ⟨a, b, fun hh => absurd hh (by simp), fun _ => ⟨c, d⟩⟩
    · simp only [if_neg ha] at h ⊢
      obtain ⟨a, b, c, d⟩ := renameToBackup_ok h
      exact ⟨a, b, fun hh => absurd hh (by simp), fun _ => ⟨c, d⟩⟩
  · simp only [hi, Bool.not_false, if_true]
    exact ⟨by first | rfl | trivial, by first | rfl | trivial,
      fun _ => by first | rfl | trivial, fun hh => absurd hh (by simp)⟩

/-! ## `ApplyProfile` -/

/-- The two ways `ApplyProfile` succeeds: the bootstrap no-op, or displacement of the
active slot followed by the move of the target folder and a successful `Save`. -/
theorem applyProfile_ok {env : Env} {w : World} {profile_id : Str}
    (h : (ApplyProfile env w profile_id).1 = true) :
    ∃ es target, (FileUtil.EnsureDir env w.disk).2 = .dir es ∧
      (∀ k x, w.disk.node k = some x → AssetRoot.dir es = w.disk) ∧
      profileAt w.config profile_id = some target ∧
      ((FolderExists (.dir es) target.folder_name = false ∧
          profile_id = w.config.active_profile_id ∧
          FolderExists (.dir es) w.config.images_folder_name = true ∧
          (ApplyProfile env w profile_id).2 = { w with disk := .dir es }) ∨
       (FolderExists (.dir es) target.folder_name = true ∧
          (RenameActiveToIdle env { w with disk := .dir es }).1 = true ∧
          (FileUtil.Rename env (RenameActiveToIdle env { w with disk := .dir es }).2.disk
            target.folder_name w.config.images_folder_name).1 = true ∧
          (ApplyProfile env w profile_id).2 =
            { config := { w.config with active_profile_id := target.id }
              file := .text (some (ConfigToJson
                { w.config with active_profile_id := target.id }))
              disk := (FileUtil.Rename env
                (RenameActiveToIdle env { w with disk := .dir es }).2.disk
                target.folder_name w.config.images_folder_name).2 })) := by
  unfold ApplyProfile EnsureUhdDir at h ⊢
  by_cases he : (FileUtil.EnsureDir env w.disk).1 = true
  · obtain ⟨es, hes, hsame⟩ := ensureDir_ok he
    simp only [he, Bool.not_true, Bool.false_eq_true, if_false, hes] at h ⊢
    cases hp : profileAt w.config profile_id with
    | none => simp [hp] at h
    | some target =>
      simp only [hp] at h ⊢
      refine ⟨es, target, rfl, fun k x hk => by rw [← hes]; exact (hsame k x hk), rfl, ?_⟩
      by_cases ht : FolderExists (.dir es) target.folder_name = true
      · right
        simp only [ht, Bool.not_true, Bool.false_eq_true, if_false] at h ⊢
        by_cases hd : (RenameActiveToIdle env { w with disk := .dir es }).1 = true
        · simp only [hd, Bool.not_true, Bool.false_eq_true, if_false] at h ⊢
          obtain ⟨hc, hf, _⟩ := renameActiveToIdle_ok hd
          simp only at hc hf
          by_cases hm : (FileUtil.Rename env
              (RenameActiveToIdle env { w with disk := .dir es }).2.disk
              target.folder_name
              (RenameActiveToIdle env { w with disk := .dir es }).2.config.images_folder_name).1
                = true
          · simp only [hm, Bool.not_true, Bool.false_eq_true, if_false] at h ⊢
            rw [save_ok h]
            simp only [hc]
            rw [hc] at hm
            exact ⟨trivial, trivial, hm, trivial⟩
          · simp [hm] at h
        · simp [hd] at h
      · left
        simp only [ht, Bool.not_false, if_true] at h ⊢
        by_cases hc : profile_id = w.config.active_profile_id ∧
            FolderExists (.dir es) w.config.images_folder_name = true
        · simp only [hc, and_self, if_true] at h ⊢
        · simp [hc] at h
  · simp [he] at h

/-- Running `ApplyProfile` on a state whose target folder is missing while the target is the
recorded active profile and the active slot is populated: success, nothing changes. -/
theorem applyProfile_noop (env : Env) (w : World) (profile_id : Str) (target : Profile)
    (es : List (Str × Node)) (hdisk : w.disk = .dir es)
    (hp : profileAt w.config profile_id = some target)
    (ht : FolderExists w.disk target.folder_name = false)
    (hid : profile_id = w.config.active_profile_id)
    (hi : FolderExists w.disk w.config.images_folder_name = true) :
    ApplyProfile env w profile_id = (true, w) := by
  obtain ⟨c, f, d⟩ := w
  simp only at hdisk hp ht hid hi
  subst hdisk
  unfold ApplyProfile EnsureUhdDir
  simp only [ensureDir_dir, Bool.not_true, Bool.false_eq_true, if_false, hp, ht,
    Bool.not_false, if_true, hi, and_true]
  rw [if_pos hid]

/-- What the target folder and the active slot hold after the displacement of the active
slot, when the target folder is a directory other than the active slot. -/
theorem displaced_target_isDir {env : Env} {w : World} {t : Str}
    (h : (RenameActiveToIdle env w).1 = true)
    (ht : FolderExists w.disk t = true) (hne : t ≠ w.config.images_folder_name) :
    FolderExists (RenameActiveToIdle env w).2.disk t = true := by
  obtain ⟨_, _, hno, hyes⟩ := renameActiveToIdle_ok h
  by_cases hi : FolderExists w.disk w.config.images_folder_name = true
  · obtain ⟨hsame, hmove⟩ := hyes hi
    by_cases hd : w.config.images_folder_name = displacedTo w.config
    · rw [hsame hd]; exact ht
    · obtain ⟨_, h2, h3⟩ := hmove hd
      rw [folderExists_iff] at ht hi ⊢
      by_cases htd : t = displacedTo w.config
      · rw [htd, h2]; exact hi
      · rw [h3 t hne htd]; exact ht
  · have : FolderExists w.disk w.config.images_folder_name = false := by simpa using hi
    rw [hno this]; exact ht

/-- C8 as stated fails: when the official folder, the backup folder and the active slot
share the name `images`, no recorded active profile exists and `images` cannot be
removed, `ApplyProfile("official")` succeeds once and fails when repeated. -/
theorem applyProfile_repeat_counterexample :
    (ApplyProfile imagesUndeletable sharedSlotWorld officialId).1 = true ∧
      (ApplyProfile imagesUndeletable
        (ApplyProfile imagesUndeletable sharedSlotWorld officialId).2 officialId).1 = false := by
  decide

/-- C8 (amended): `ApplyProfile` is idempotent on an explicit filesystem state for every
profile whose folder is not the active slot itself, when the folder names the call uses
(the active slot, the profile's folder and the folder the active slot is displaced to) are
single path components: when a first `ApplyProfile(id)` succeeds, an immediately following
`ApplyProfile(id)` succeeds as well (whatever the environment permits) and leaves the
directory layout, the catalog and the persisted file exactly as the first call left
them. -/
theorem applyProfile_idempotent (env env' : Env) (w : World) (profile_id : Str)
    (_hnames : isPathComponent w.config.images_folder_name = true ∧
      isPathComponent (displacedTo w.config) = true)
    (_hfolder : ∀ p, profileAt w.config profile_id = some p →
      isPathComponent p.folder_name = true)
    (hslot : ∀ p, profileAt w.config profile_id = some p →
      p.folder_name ≠ w.config.images_folder_name)
    (h : (ApplyProfile env w profile_id).1 = true) :
    ApplyProfile env' (ApplyProfile env w profile_id).2 profile_id
      = (true, (ApplyProfile env w profile_id).2) := by
  obtain ⟨es, target, _, _, hp, hcase⟩ := applyProfile_ok h
  have hne := hslot target hp
  have htid : target.id = profile_id := (profileAt_some hp).2
  rcases hcase with ⟨ht, hid, hi, hres⟩ | ⟨ht, hd, hm, hres⟩
  · rw [hres]
    exact applyProfile_noop env' _ profile_id target es rfl hp ht hid hi
  · rw [hres]
    have hT := displaced_target_isDir hd ht hne
    obtain ⟨c, hc⟩ := (folderExists_iff _ _).1 hT
    have hnode := rename_ok_node hm hne
    obtain ⟨node, hn, _⟩ := rename_ok hm
    obtain ⟨es2, hes2⟩ := node_some_isDir hn
    have hdir : ∃ es3, (FileUtil.Rename env
        (RenameActiveToIdle env { w with disk := .dir es }).2.disk
        target.folder_name w.config.images_folder_name).2 = .dir es3 := by
      have := hnode w.config.images_folder_name
      simp only [if_true] at this
      rw [hc] at this
      exact node_some_isDir this
    obtain ⟨es3, hes3⟩ := hdir
    apply applyProfile_noop env' _ profile_id target es3 hes3
    · rw [← hp]; exact profileAt_profiles _ _ rfl _
    · have := hnode target.folder_name
      simp only [hne, if_false, if_true] at this
      cases hfe : FolderExists _ target.folder_name with
      | false => rfl
      | true =>
        obtain ⟨c', hc'⟩ := (folderExists_iff _ _).1 hfe
        rw [this] at hc'
        exact absurd hc' (by simp)
    · exact htid.symm
    · rw [folderExists_iff]
      refine ⟨c, ?_⟩
      have := hnode w.config.images_folder_name
      simp only [if_true] at this
      rw [this, hc]

/-- Witness of C8: applying `my_theme` to the sample state succeeds, and applying it
again succeeds and changes nothing. -/
theorem applyProfile_idempotent_witness :
    (isPathComponent sampleWorld.config.images_folder_name = true ∧
        isPathComponent (displacedTo sampleWorld.config) = true) ∧
      (∀ p, profileAt sampleWorld.config "my_theme".toList = some p →
        isPathComponent p.folder_name = true) ∧
      (∀ p, profileAt sampleWorld.config "my_theme".toList = some p →
        p.folder_name ≠ sampleWorld.config.images_folder_name) ∧
      (ApplyProfile permissive sampleWorld "my_theme".toList).1 = true ∧
      ApplyProfile permissive (ApplyProfile permissive sampleWorld "my_theme".toList).2
          "my_theme".toList
        = (true, (ApplyProfile permissive sampleWorld "my_theme".toList).2) :=
  ⟨by decide, by decide, by decide, by decide,
    applyProfile_idempotent permissive permissive sampleWorld "my_theme".toList
      (by decide) (by decide) (by decide) (by decide)⟩

/-- C9 as stated fails: with no recorded active profile the active slot is displaced to
the backup folder; when the target profile is stored there, its content is removed before
the move and the active slot ends up with its old content, not with the target's. -/
theorem applyProfile_backup_counterexample :
    (∃ target, profileAt backupProfileWorld.config "p".toList = some target ∧
        FolderExists backupProfileWorld.disk target.folder_name = true ∧
        target.folder_name ≠ backupProfileWorld.config.images_folder_name) ∧
      profileAt backupProfileWorld.config backupProfileWorld.config.active_profile_id = none ∧
      (ApplyProfile permissive backupProfileWorld "p".toList).1 = true ∧
      (ApplyProfile permissive backupProfileWorld "p".toList).2.disk.node "images".toList
        = some (.dir [("fpga.bin".toList, [1])]) ∧
      backupProfileWorld.disk.node "I_P__backup".toList
        = some (.dir [("fpga.bin".toList, [2])]) ∧
      (ApplyProfile permissive backupProfileWorld "p".toList).2.disk.node
          backupProfileWorld.config.images_folder_name
        ≠ backupProfileWorld.disk.node "I_P__backup".toList := by
  refine ⟨⟨{ id := "p".toList, display_name := "p".toList,
             folder_name := "I_P__backup".toList, is_official := false }, ?_, ?_, ?_⟩,
    ?_, ?_, ?_, ?_, ?_⟩ <;> decide

/-- C9 (amended): when `id` names a catalog profile whose folder exists on disk and is
different from the active slot and from the folder the active slot is displaced to (the
folder of the recorded active profile, or the backup folder when no active profile with a
folder name is recorded), these three folder names being single path components, a
successful `ApplyProfile(id)` leaves the active slot with exactly the content the
profile's folder held before, that folder no longer exists, `activeProfileId` is `id` and
the profile list is unchanged. -/
theorem applyProfile_moves_folder (env : Env) (w : World) (profile_id : Str)
    (target : Profile)
    (hp : profileAt w.config profile_id = some target)
    (_hnames : isPathComponent w.config.images_folder_name = true ∧
      isPathComponent target.folder_name = true ∧
      isPathComponent (displacedTo w.config) = true)
    (hex : FolderExists w.disk target.folder_name = true)
    (hslot : target.folder_name ≠ w.config.images_folder_name)
    (hdest : target.folder_name ≠ displacedTo w.config)
    (h : (ApplyProfile env w profile_id).1 = true) :
    (ApplyProfile env w profile_id).2.disk.node w.config.images_folder_name
        = w.disk.node target.folder_name ∧
      FolderExists (ApplyProfile env w profile_id).2.disk w.config.images_folder_name = true ∧
      (ApplyProfile env w profile_id).2.disk.node target.folder_name = none ∧
      FolderExists (ApplyProfile env w profile_id).2.disk target.folder_name = false ∧
      (ApplyProfile env w profile_id).2.config.active_profile_id = profile_id ∧
      (ApplyProfile env w profile_id).2.config.profiles = w.config.profiles := by
  obtain ⟨es, target', _, hsame, hp', hcase⟩ := applyProfile_ok h
  rw [hp] at hp'
  obtain rfl : target = target' := by simpa using hp'
  have htid : target.id = profile_id := (profileAt_some hp).2
  obtain ⟨c, hc⟩ := (folderExists_iff _ _).1 hex
  have hdisk : AssetRoot.dir es = w.disk := hsame _ _ hc
  rcases hcase with ⟨ht, _, _, _⟩ | ⟨_, hd, hm, hres⟩
  · rw [hdisk, hex] at ht
    exact absurd ht (by simp)
  · have hw : ({ w with disk := .dir es } : World) = w := by rw [hdisk]
    rw [hw] at hd hm hres
    have hnode := rename_ok_node hm hslot
    have hkeep : (RenameActiveToIdle env w).2.disk.node target.folder_name
        = w.disk.node target.folder_name := by
      obtain ⟨_, _, hno, hyes⟩ := renameActiveToIdle_ok hd
      by_cases hi : FolderExists w.disk w.config.images_folder_name = true
      · obtain ⟨hsm, hmove⟩ := hyes hi
        by_cases hdd : w.config.images_folder_name = displacedTo w.config
        · rw [hsm hdd]
        · exact (hmove hdd).2.2 _ hslot hdest
      · have : FolderExists w.disk w.config.images_folder_name = false := by simpa using hi
        rw [hno this]
    have h1 : (ApplyProfile env w profile_id).2.disk.node w.config.images_folder_name
        = w.disk.node target.folder_name := by
      rw [hres]
      have := hnode w.config.images_folder_name
      simp only [if_true] at this
      rw [this, hkeep]
    have h2 : (ApplyProfile env w profile_id).2.disk.node target.folder_name = none := by
      rw [hres]
      have := hnode target.folder_name
      simp only [hslot, if_false, if_true] at this
      exact this
    refine ⟨h1, ?_, h2, ?_, ?_, ?_⟩
    · rw [folderExists_iff]; exact ⟨c, by rw [h1, hc]⟩
    · cases hfe : FolderExists (ApplyProfile env w profile_id).2.disk target.folder_name with
      | false => rfl
      | true =>
        obtain ⟨c', hc'⟩ := (folderExists_iff _ _).1 hfe
        rw [h2] at hc'
        exact absurd hc' (by simp)
    · rw [hres]; exact htid
    · rw [hres]

/-- Witness of C9: applying `my_theme` to the sample state, where `official` is active. -/
theorem applyProfile_moves_folder_witness :
    profileAt sampleWorld.config "my_theme".toList
        = some { id := "my_theme".toList, display_name := "My Theme".toList,
                 folder_name := "I_P_my_theme".toList, is_official := false } ∧
      (isPathComponent sampleWorld.config.images_folder_name = true ∧
        isPathComponent "I_P_my_theme".toList = true ∧
        isPathComponent (displacedTo sampleWorld.config) = true) ∧
      FolderExists sampleWorld.disk "I_P_my_theme".toList = true ∧
      "I_P_my_theme".toList ≠ sampleWorld.config.images_folder_name ∧
      "I_P_my_theme".toList ≠ displacedTo sampleWorld.config ∧
      (ApplyProfile permissive sampleWorld "my_theme".toList).1 = true ∧
      (ApplyProfile permissive sampleWorld "my_theme".toList).2.disk.node
          sampleWorld.config.images_folder_name
        = sampleWorld.disk.node "I_P_my_theme".toList :=
  ⟨by decide, by decide, by decide, by decide, by decide, by decide,
    (applyProfile_moves_folder permissive sampleWorld "my_theme".toList
      { id := "my_theme".toList, display_name := "My Theme".toList,
        folder_name := "I_P_my_theme".toList, is_official := false }
      (by decide) (by decide) (by decide) (by decide) (by decide) (by decide)).1⟩

/-! ## `RefreshFromDisk` -/

theorem discoverStep_append (cfg : AppConfig) (known : List Str) (profiles : List Profile)
    (name : Str) :
    discoverStep cfg known profiles name = profiles ++ discoverStep cfg known [] name := by
  unfold discoverStep
  by_cases h1 : name = cfg.images_folder_name
  · simp [h1]
  · by_cases h2 : name ∈ known
    · simp [h1, h2]
    · by_cases h3 : name = cfg.backup_profile_folder
      · simp [h1, h2, h3]
      · by_cases h4 : cfg.idle_profile_prefix.isPrefixOf name = true
        · by_cases h5 : ToLowerAscii (name.drop cfg.idle_profile_prefix.length) = []
          · simp [h1, h2, h3, h4, h5]
          · simp [h1, h2, h3, h4, h5]
        · simp [h1, h2, h3, h4]

theorem foldl_discoverStep (cfg : AppConfig) (known : List Str) (dirs : List Str)
    (profiles : List Profile) :
    dirs.foldl (discoverStep cfg known) profiles = profiles ++ discoverFrom cfg known dirs := by
  induction dirs generalizing profiles with
  | nil => simp [discoverFrom]
  | cons name rest ih =>
    rw [List.foldl_cons, ih, discoverStep_append, discoverFrom, List.append_assoc]

/-- The entries discovery appends: one for every listed directory that is not the active
slot, not a known folder, not the backup folder, starts with the idle prefix and has a
non-empty remainder. -/
theorem mem_discoverFrom {cfg : AppConfig} {known : List Str} {dirs : List Str}
    {d : Profile} :
    d ∈ discoverFrom cfg known dirs ↔
      ∃ name ∈ dirs, name ≠ cfg.images_folder_name ∧ name ∉ known ∧
        name ≠ cfg.backup_profile_folder ∧ cfg.idle_profile_prefix.isPrefixOf name = true ∧
        ToLowerAscii (name.drop cfg.idle_profile_prefix.length) ≠ [] ∧
        d = { id := ToLowerAscii (name.drop cfg.idle_profile_prefix.length),
              display_name := ToLowerAscii (name.drop cfg.idle_profile_prefix.length),
              folder_name := name, is_official := false } := by
  induction dirs with
  | nil => simp [discoverFrom]
  | cons name rest ih =>
    rw [discoverFrom, List.mem_append, ih]
    constructor
    · rintro (h | ⟨n, hn, hrest⟩)
      · refine ⟨name, List.mem_cons_self _ _, ?_⟩
        unfold discoverStep at h
        by_cases h1 : name = cfg.images_folder_name
        · simp [h1] at h
        · by_cases h2 : name ∈ known
          · simp [h1, h2] at h
          · by_cases h3 : name = cfg.backup_profile_folder
            · simp [h1, h2, h3] at h
            · by_cases h4 : cfg.idle_profile_prefix.isPrefixOf name = true
              · by_cases h5 : ToLowerAscii (name.drop cfg.idle_profile_prefix.length) = []
                · simp [h1, h2, h3, h4, h5] at h
                · simp only [h1, h2, h3, h4, h5, if_false, Bool.not_true, Bool.false_eq_true,
                    List.nil_append, List.mem_singleton] at h
                  exact ⟨h1, h2, h3, h4, h5, h⟩
              · simp [h1, h2, h3, h4] at h
      · exact ⟨n, List.mem_cons_of_mem _ hn, hrest⟩
    · rintro ⟨n, hn, h1, h2, h3, h4, h5, e⟩
      rcases List.mem_cons.1 hn with hn | hn
      · subst hn
        left
        unfold discoverStep
        simp only [h1, h2, h3, h4, h5, if_false, Bool.not_true, Bool.false_eq_true,
          List.nil_append, List.mem_singleton]
        exact e
      · exact Or.inr ⟨n, hn, h1, h2, h3, h4, h5, e⟩

/-- The operation `RefreshFromDisk` in two parts: the directory part `refreshDisk`, then discovery,
normalization and `Save`. -/
theorem refreshFromDisk_eq (env : Env) (w : World) :
    RefreshFromDisk env w =
      if (refreshDisk env w).1 = true then
        Save env
          { w with
            disk := (refreshDisk env w).2
            config := NormalizeProfiles
              { w.config with
                profiles := w.config.profiles ++
                  discoverFrom w.config (w.config.profiles.map Profile.folder_name)
                    (FileUtil.ListDirs (refreshDisk env w).2) } }
      else (false, { w with disk := (refreshDisk env w).2 }) := by
  unfold RefreshFromDisk refreshDisk EnsureUhdDir
  by_cases he : (FileUtil.EnsureDir env w.disk).1 = true
  · simp only [he, Bool.not_true, Bool.false_eq_true, if_false, foldl_discoverStep]
    by_cases hc : (!FolderExists (FileUtil.EnsureDir env w.disk).2
          w.config.official_profile_folder) = true ∧
        FolderExists (FileUtil.EnsureDir env w.disk).2 w.config.images_folder_name = true
    · simp only [if_pos hc]
      by_cases hcp : (FileUtil.CopyDir env (FileUtil.EnsureDir env w.disk).2
          w.config.images_folder_name w.config.official_profile_folder).1 = true
      · simp [hcp]
      · simp [hcp]
    · simp only [if_neg hc]
      simp
  · simp [he]

/-! ## More on normalization -/

theorem normalizeProfiles_eq (config : AppConfig) :
    NormalizeProfiles config
      = { config with profiles := normalizeFrom config [] config.profiles } := by
  simp [NormalizeProfiles, foldl_normalizeStep]

/-- Distinct, non-empty, unseen ids at the front of the input all pass the loop, each with
its defaults filled in; the loop then continues with their ids seen. -/
theorem normalizeFrom_append_distinct (config : AppConfig) (a b : List Profile)
    (seen : List Str) (ha : ∀ p ∈ a, p.id ≠ [] ∧ p.id ∉ seen)
    (hnd : (a.map Profile.id).Nodup) :
    normalizeFrom config seen (a ++ b)
      = a.map (fillDefaults config)
          ++ normalizeFrom config ((a.map Profile.id).reverse ++ seen) b := by
  induction a generalizing seen with
  | nil => simp
  | cons q rest ih =>
    obtain ⟨h1, h2⟩ := ha q (List.mem_cons_self _ _)
    simp only [List.map_cons, List.nodup_cons] at hnd
    simp only [List.cons_append, normalizeFrom, h1, h2, if_false, List.map_cons,
      List.reverse_cons, List.append_assoc, List.singleton_append]
    congr 1
    apply ih _ _ hnd.2
    intro p hp
    obtain ⟨a1, a2⟩ := ha p (List.mem_cons_of_mem _ hp)
    refine ⟨a1, ?_⟩
    intro hmem
    rcases List.mem_cons.1 hmem with e | e
    · exact hnd.1 (List.mem_map.2 ⟨p, hp, e⟩)
    · exact a2 e

theorem normalizeFrom_eq_nil (config : AppConfig) (l : List Profile) (seen : List Str)
    (h : ∀ p ∈ l, p.id = [] ∨ p.id ∈ seen) : normalizeFrom config seen l = [] := by
  induction l with
  | nil => simp [normalizeFrom]
  | cons q rest ih =>
    have hrest := ih (fun p hp => h p (List.mem_cons_of_mem _ hp))
    rcases h q (List.mem_cons_self _ _) with h1 | h1
    · simp [normalizeFrom, h1, hrest]
    · by_cases h0 : q.id = []
      · simp [normalizeFrom, h0, hrest]
      · simp [normalizeFrom, h0, h1, hrest]

/-- Every non-empty id of the input is seen already or is the id of an emitted entry. -/
theorem normalizeFrom_ids_complete (config : AppConfig) (l : List Profile) (seen : List Str)
    (q : Profile) (hq : q ∈ l) (hne : q.id ≠ []) :
    q.id ∈ seen ∨ q.id ∈ (normalizeFrom config seen l).map Profile.id := by
  induction l generalizing seen with
  | nil => simp at hq
  | cons r rest ih =>
    simp only [normalizeFrom]
    rcases List.mem_cons.1 hq with e | hmem
    · subst e
      by_cases h2 : q.id ∈ seen
      · exact Or.inl h2
      · right
        simp [hne, h2, fillDefaults_id]
    · by_cases h1 : r.id = []
      · simp only [h1, if_true]
        exact ih seen hmem
      · by_cases h2 : r.id ∈ seen
        · simp only [h1, h2, if_true, if_false]
          exact ih seen hmem
        · simp only [h1, h2, if_false, List.map_cons, List.mem_cons, fillDefaults_id]
          rcases ih (r.id :: seen) hmem with h3 | h3
          · rcases List.mem_cons.1 h3 with e | e
            · exact Or.inr (Or.inl e)
            · exact Or.inl e
          · exact Or.inr (Or.inr h3)

/-- Every emitted entry comes from the first input entry with its id. -/
theorem normalizeFrom_mem_first (config : AppConfig) (l : List Profile) (seen : List Str)
    (p : Profile) (hp : p ∈ normalizeFrom config seen l) :
    ∃ pre q post, l = pre ++ q :: post ∧ p = fillDefaults config q ∧
      ∀ x ∈ pre, x.id ≠ q.id := by
  induction l generalizing seen with
  | nil => simp [normalizeFrom] at hp
  | cons r rest ih =>
    simp only [normalizeFrom] at hp
    by_cases h1 : r.id = []
    · simp only [h1, if_true] at hp
      obtain ⟨pre, q, post, e1, e2, e3⟩ := ih seen hp
      have hq : q.id ≠ [] := by
        have := (normalizeFrom_mem config rest seen p hp).1
        rw [e2, fillDefaults_id] at this
        exact this
      refine ⟨r :: pre, q, post, by simp [e1], e2, ?_⟩
      intro x hx
      rcases List.mem_cons.1 hx with e | e
      · subst e; rw [h1]; exact fun h => hq h.symm
      · exact e3 x e
    · by_cases h2 : r.id ∈ seen
      · simp only [h1, h2, if_true, if_false] at hp
        obtain ⟨pre, q, post, e1, e2, e3⟩ := ih seen hp
        have hq : q.id ∉ seen := by
          have := (normalizeFrom_mem config rest seen p hp).2.1
          rw [e2, fillDefaults_id] at this
          exact this
        refine ⟨r :: pre, q, post, by simp [e1], e2, ?_⟩
        intro x hx
        rcases List.mem_cons.1 hx with e | e
        · subst e; exact fun h => hq (h ▸ h2)
        · exact e3 x e
      · simp only [h1, h2, if_false, List.mem_cons] at hp
        rcases hp with hp | hp
        · exact ⟨[], r, rest, rfl, hp, by simp⟩
        · obtain ⟨pre, q, post, e1, e2, e3⟩ := ih (r.id :: seen) hp
          have hq : q.id ∉ r.id :: seen := by
            have := (normalizeFrom_mem config rest (r.id :: seen) p hp).2.1
            rw [e2, fillDefaults_id] at this
            exact this
          refine ⟨r :: pre, q, post, by simp [e1], e2, ?_⟩
          intro x hx
          rcases List.mem_cons.1 hx with e | e
          · subst e; exact fun h => hq (h ▸ List.mem_cons_self _ _)
          · exact e3 x e

/-- A list is normalized for a configuration when its ids are non-empty and pairwise
distinct and every entry already carries its defaults. -/
theorem normalizeFrom_normalized (config : AppConfig) (l : List Profile) :
    (∀ p ∈ normalizeFrom config [] l, p.id ≠ [] ∧ fillDefaults config p = p) ∧
      ((normalizeFrom config [] l).map Profile.id).Nodup :=
  ⟨fun p hp => ⟨(normalizeFrom_mem config l [] p hp).1,
      (normalizeFrom_mem config l [] p hp).2.2.1⟩,
    normalizeFrom_nodup config l []⟩

theorem discoverFrom_config (config : AppConfig) (ps : List Profile) (known dirs : List Str) :
    discoverFrom { config with profiles := ps } known dirs = discoverFrom config known dirs := by
  induction dirs with
  | nil => rfl
  | cons name rest ih =>
    simp only [discoverFrom, ih]
    rfl

/-- The catalog part of scan idempotence: discovery over the same listing followed by
normalization, run on its own result, changes nothing. -/
theorem rescan_fixed (config : AppConfig) (P : List Profile) (dirs : List Str)
    (hP : ∀ p ∈ P, p.id ≠ [] ∧ fillDefaults config p = p)
    (hnd : (P.map Profile.id).Nodup) :
    normalizeFrom config []
        (normalizeFrom config []
            (P ++ discoverFrom config (P.map Profile.folder_name) dirs)
          ++ discoverFrom config
              ((normalizeFrom config []
                (P ++ discoverFrom config (P.map Profile.folder_name) dirs)).map
                  Profile.folder_name) dirs)
      = normalizeFrom config [] (P ++ discoverFrom config (P.map Profile.folder_name) dirs) := by
  have hmapP : P.map (fillDefaults config) = P := by
    conv_rhs => rw [← List.map_id P]
    apply List.map_congr_left
    intro p hp
    exact (hP p hp).2
  have hsplit := normalizeFrom_append_distinct config P
    (discoverFrom config (P.map Profile.folder_name) dirs) []
    (fun p hp => ⟨(hP p hp).1, by simp⟩) hnd
  rw [hmapP] at hsplit
  obtain ⟨hN1, hN2⟩ := normalizeFrom_normalized config
    (P ++ discoverFrom config (P.map Profile.folder_name) dirs)
  generalize hP1 : normalizeFrom config []
    (P ++ discoverFrom config (P.map Profile.folder_name) dirs) = P1 at hsplit hN1 hN2 ⊢
  have hmapP1 : P1.map (fillDefaults config) = P1 := by
    conv_rhs => rw [← List.map_id P1]
    apply List.map_congr_left
    intro p hp
    exact (hN1 p hp).2
  rw [normalizeFrom_append_distinct config P1 _ [] (fun p hp => ⟨(hN1 p hp).1, by simp⟩) hN2,
    hmapP1]
  rw [normalizeFrom_eq_nil]
  · simp
  · intro d hd
    right
    obtain ⟨name, hn, h1, h2, h3, h4, h5, e⟩ := mem_discoverFrom.1 hd
    have hsub : ∀ x ∈ P, x ∈ P1 := by
      intro x hx
      rw [hsplit]
      exact List.mem_append_left _ hx
    have h2' : name ∉ P.map Profile.folder_name := by
      intro hmem
      obtain ⟨x, hx, ex⟩ := List.mem_map.1 hmem
      exact h2 (List.mem_map.2 ⟨x, hsub x hx, ex⟩)
    have hdD : d ∈ discoverFrom config (P.map Profile.folder_name) dirs :=
      mem_discoverFrom.2 ⟨name, hn, h1, h2', h3, h4, h5, e⟩
    have hdid : d.id ≠ [] := by rw [e]; exact h5
    have := normalizeFrom_ids_complete config
      (P ++ discoverFrom config (P.map Profile.folder_name) dirs) [] d
      (List.mem_append_right _ hdD) hdid
    rw [hP1] at this
    simpa using this

theorem fillDefaults_congr {c1 c2 : AppConfig}
    (h1 : c1.official_profile_folder = c2.official_profile_folder)
    (h2 : c1.idle_profile_prefix = c2.idle_profile_prefix) (p : Profile) :
    fillDefaults c1 p = fillDefaults c2 p := by
  unfold fillDefaults
  rw [h1, h2]

theorem normalizeFrom_congr {c1 c2 : AppConfig}
    (h1 : c1.official_profile_folder = c2.official_profile_folder)
    (h2 : c1.idle_profile_prefix = c2.idle_profile_prefix) (seen : List Str)
    (l : List Profile) : normalizeFrom c1 seen l = normalizeFrom c2 seen l := by
  induction l generalizing seen with
  | nil => rfl
  | cons q rest ih => simp only [normalizeFrom, ih, fillDefaults_congr h1 h2]

/-! ## `Load` -/

/-- A successful `Load` leaves the catalog `NormalizeProfiles` computes after
`EnsureOfficialProfile`, for a configuration `c` with the same official folder name and
idle prefix. -/
theorem load_ok {env : Env} {w : World} (h : (Load env w).1 = true) :
    ∃ c : AppConfig,
      (Load env w).2.config.profiles
        = normalizeFrom c [] (EnsureOfficialProfile c).profiles ∧
      (Load env w).2.config.official_profile_folder = c.official_profile_folder ∧
      (Load env w).2.config.idle_profile_prefix = c.idle_profile_prefix := by
  have hE : ∀ c : AppConfig,
      (NormalizeProfiles (EnsureOfficialProfile c)).profiles
          = normalizeFrom c [] (EnsureOfficialProfile c).profiles ∧
        (NormalizeProfiles (EnsureOfficialProfile c)).official_profile_folder
          = c.official_profile_folder ∧
        AppConfig.idle_profile_prefix (NormalizeProfiles (EnsureOfficialProfile c))
          = c.idle_profile_prefix := by
    intro c
    rw [normalizeProfiles_eq]
    have hf := ensureOfficial_fields c
    refine ⟨?_, ?_, ?_⟩
    · exact normalizeFrom_congr (by rw [hf]) (by rw [hf]) _ _
    · rw [hf]
    · rw [hf]
  unfold Load at h ⊢
  cases hfile : w.file with
  | absent =>
    simp only [hfile] at h ⊢
    refine ⟨defaultConfig env, ?_⟩
    rw [save_config]
    exact hE _
  | inaccessible =>
    simp only [hfile] at h ⊢
    refine ⟨defaultConfig env, ?_⟩
    rw [save_config]
    exact hE _
  | unreadable => simp [hfile] at h
  | text parsed =>
    cases parsed with
    | none => simp [hfile] at h
    | some v =>
      cases v with
      | object root_obj =>
        simp only [hfile] at h ⊢
        refine ⟨readConfig env root_obj, ?_⟩
        split <;> exact hE _
      | null => simp [hfile] at h
      | bool b => simp [hfile] at h
      | number n => simp [hfile] at h
      | string s => simp [hfile] at h
      | array items => simp [hfile] at h

/-- After a successful `Load` the catalog is normalized: ids are non-empty and pairwise
distinct and every entry carries its defaults. -/
theorem load_normalized {env : Env} {w : World} (h : (Load env w).1 = true) :
    (∀ p ∈ (Load env w).2.config.profiles,
        p.id ≠ [] ∧ fillDefaults (Load env w).2.config p = p) ∧
      ((Load env w).2.config.profiles.map Profile.id).Nodup := by
  obtain ⟨c, h1, h2, h3⟩ := load_ok h
  obtain ⟨a, b⟩ := normalizeFrom_normalized c (EnsureOfficialProfile c).profiles
  rw [h1]
  refine ⟨fun p hp => ⟨(a p hp).1, ?_⟩, b⟩
  rw [fillDefaults_congr h2 h3]
  exact (a p hp).2

/-! ## The directory part of `RefreshFromDisk` -/

theorem copyDir_ok {env : Env} {disk : AssetRoot} {src dst : Str}
    (h : (FileUtil.CopyDir env disk src dst).1 = true) :
    ∃ node result, disk.node src = some node ∧
      copyResult src node (disk.node dst) = some result ∧
      (FileUtil.CopyDir env disk src dst).2 = disk.withNode dst result := by
  unfold FileUtil.CopyDir at h ⊢
  cases hn : disk.node src with
  | none => simp [hn] at h
  | some node =>
    simp only [hn] at h ⊢
    by_cases e : src = dst
    · simp [e] at h
    · simp only [e, if_false] at h ⊢
      cases hr : copyResult src node (disk.node dst) with
      | none => simp [hr] at h
      | some result =>
        simp only [hr] at h ⊢
        by_cases hp : env.permits (.copy src dst) = true
        · exact ⟨node, result, rfl, hr, by simp [hp]⟩
        · simp [hp] at h

theorem copyDir_fail {env : Env} {disk : AssetRoot} {src dst : Str}
    (h : (FileUtil.CopyDir env disk src dst).1 = false) :
    (FileUtil.CopyDir env disk src dst).2 = disk := by
  unfold FileUtil.CopyDir at h ⊢
  cases hn : disk.node src with
  | none => rfl
  | some node =>
    simp only [hn] at h ⊢
    by_cases e : src = dst
    · simp [e]
    · simp only [e, if_false] at h ⊢
      cases hr : copyResult src node (disk.node dst) with
      | none => rfl
      | some result =>
        simp only [hr] at h ⊢
        by_cases hp : env.permits (.copy src dst) = true
        · simp [hp] at h
        · simp [hp]

theorem ensureDir_fail {env : Env} {disk : AssetRoot}
    (h : (FileUtil.EnsureDir env disk).1 = false) : (FileUtil.EnsureDir env disk).2 = disk := by
  cases disk with
  | missing =>
    unfold FileUtil.EnsureDir at h ⊢
    by_cases hp : env.permits .createRoot = true
    · simp [hp] at h
    · simp [hp]
  | notDir => rfl
  | dir es => rfl

theorem ensureDir_of_folder {env : Env} {disk : AssetRoot} {name : Str}
    (h : FolderExists (FileUtil.EnsureDir env disk).2 name = true) :
    (FileUtil.EnsureDir env disk).2 = disk := by
  cases disk with
  | missing =>
    unfold FileUtil.EnsureDir at h ⊢
    by_cases hp : env.permits .createRoot = true
    · simp only [hp, if_true] at h
      rw [folderExists_iff] at h
      obtain ⟨c, hc⟩ := h
      simp [AssetRoot.node, AssetRoot.entries] at hc
    · simp [hp]
  | notDir => rfl
  | dir es => rfl

/-- A failing directory part leaves the layout as it was. -/
theorem refreshDisk_fail {env : Env} {w : World} (h : (refreshDisk env w).1 = false) :
    (refreshDisk env w).2 = w.disk := by
  unfold refreshDisk at h ⊢
  by_cases he : (FileUtil.EnsureDir env w.disk).1 = true
  · simp only [he, Bool.not_true, Bool.false_eq_true, if_false] at h ⊢
    by_cases hc : (!FolderExists (FileUtil.EnsureDir env w.disk).2
          w.config.official_profile_folder) = true ∧
        FolderExists (FileUtil.EnsureDir env w.disk).2 w.config.images_folder_name = true
    · simp only [if_pos hc] at h ⊢
      rw [copyDir_fail h]
      exact ensureDir_of_folder hc.2
    · rw [if_neg hc] at h
      simp at h
  · have he' : (FileUtil.EnsureDir env w.disk).1 = false := by simpa using he
    simp only [he', Bool.not_false, if_true]
    exact ensureDir_fail he'

/-- After a successful directory part, the directory part of a further run finds nothing
to do, whatever the environment permits. -/
theorem refreshDisk_stable {env env' : Env} {w w' : World}
    (h : (refreshDisk env w).1 = true) (hd : w'.disk = (refreshDisk env w).2)
    (ho : w'.config.official_profile_folder = w.config.official_profile_folder)
    (hi : w'.config.images_folder_name = w.config.images_folder_name) :
    refreshDisk env' w' = (true, w'.disk) := by
  have key : ∃ es, (refreshDisk env w).2 = .dir es ∧
      ¬ ((!FolderExists (.dir es) w.config.official_profile_folder) = true ∧
        FolderExists (.dir es) w.config.images_folder_name = true) := by
    unfold refreshDisk at h ⊢
    by_cases he : (FileUtil.EnsureDir env w.disk).1 = true
    · obtain ⟨es, hes, _⟩ := ensureDir_ok he
      simp only [he, Bool.not_true, Bool.false_eq_true, if_false, hes] at h ⊢
      by_cases hc : (!FolderExists (.dir es) w.config.official_profile_folder) = true ∧
          FolderExists (.dir es) w.config.images_folder_name = true
      · simp only [if_pos hc] at h ⊢
        obtain ⟨node, result, hn, hr, hres⟩ := copyDir_ok h
        obtain ⟨c, hcn⟩ := (folderExists_iff _ _).1 hc.2
        rw [hcn] at hn
        obtain rfl : Node.dir c = node := by simpa using hn
        have hoff : ∀ c', (AssetRoot.dir es).node w.config.official_profile_folder
            ≠ some (.dir c') := by
          intro c' hc'
          have := (folderExists_iff _ _).2 ⟨c', hc'⟩
          rw [this] at hc
          simp at hc
        have hres2 : ∃ c2, result = .dir c2 := by
          cases hnode : (AssetRoot.dir es).node w.config.official_profile_folder with
          | none =>
            rw [hnode] at hr
            simp only [copyResult, Option.some.injEq] at hr
            exact ⟨c, hr.symm⟩
          | some x =>
            cases x with
            | file b => rw [hnode] at hr; simp [copyResult] at hr
            | dir c' => exact absurd hnode (hoff c')
        obtain ⟨c2, rfl⟩ := hres2
        rw [hres]
        obtain ⟨es', hes'⟩ := withNode_isDir es w.config.official_profile_folder (.dir c2)
        refine ⟨es', hes', ?_⟩
        rintro ⟨h1, _⟩
        have : FolderExists (.dir es') w.config.official_profile_folder = true := by
          rw [folderExists_iff, ← hes', node_withNode]
          exact ⟨c2, by simp⟩
        rw [this] at h1
        simp at h1
      · simp only [if_neg hc]
        exact ⟨es, rfl, hc⟩
    · simp [he] at h
  obtain ⟨es, hes, hnot⟩ := key
  unfold refreshDisk
  rw [hd, hes, ho, hi]
  simp only [ensureDir_dir, Bool.not_true, Bool.false_eq_true, if_false, if_neg hnot]

/-- Once the directory part of a run has succeeded, a further run leaves the catalog the
first run produced, provided the catalog the first run started from was normalized. -/
theorem refresh_twice_config (env env' : Env) (w : World)
    (hP : ∀ p ∈ w.config.profiles, p.id ≠ [] ∧ fillDefaults w.config p = p)
    (hnd : (w.config.profiles.map Profile.id).Nodup)
    (hd : (refreshDisk env w).1 = true) :
    (RefreshFromDisk env' (RefreshFromDisk env w).2).2.config
      = (RefreshFromDisk env w).2.config := by
  have h1 : (RefreshFromDisk env w).2.config = NormalizeProfiles
      { w.config with
        profiles := w.config.profiles ++
          discoverFrom w.config (w.config.profiles.map Profile.folder_name)
            (FileUtil.ListDirs (refreshDisk env w).2) } := by
    rw [refreshFromDisk_eq, if_pos hd, save_config]
  have h2 : (RefreshFromDisk env w).2.disk = (refreshDisk env w).2 := by
    rw [refreshFromDisk_eq, if_pos hd, save_disk]
  rw [normalizeProfiles_eq] at h1
  simp only at h1
  have hstable : refreshDisk env' (RefreshFromDisk env w).2
      = (true, (RefreshFromDisk env w).2.disk) :=
    refreshDisk_stable hd h2 (by rw [h1]) (by rw [h1])
  rw [refreshFromDisk_eq env' (RefreshFromDisk env w).2, hstable]
  simp only [if_true, save_config]
  rw [normalizeProfiles_eq]
  simp only
  generalize (RefreshFromDisk env w).2.config = c1 at h1 ⊢
  generalize (RefreshFromDisk env w).2.disk = d1 at h2 ⊢
  subst h1
  subst h2
  simp only
  have hfix := rescan_fixed w.config w.config.profiles
    (FileUtil.ListDirs (refreshDisk env w).2) hP hnd
  congr 1
  simp only [normalizeFrom_config, discoverFrom_config]
  exact hfix

/-- C10: `RefreshFromDisk` is idempotent on the catalog: starting from the catalog a
successful `Load` produced and any directory layout, a second run directly after the first
(same layout, same listing order) leaves the catalog the first run left; when the first run
succeeded this holds whatever the environment permits during the second run. -/
theorem refreshFromDisk_idempotent (loadEnv env : Env) (w0 : World) (file : ConfigFile)
    (disk : AssetRoot) (hload : (Load loadEnv w0).1 = true) :
    (RefreshFromDisk env
        (RefreshFromDisk env
          { config := (Load loadEnv w0).2.config, file := file, disk := disk }).2).2.config
      = (RefreshFromDisk env
          { config := (Load loadEnv w0).2.config, file := file, disk := disk }).2.config ∧
    ∀ env', (RefreshFromDisk env
          { config := (Load loadEnv w0).2.config, file := file, disk := disk }).1 = true →
      (RefreshFromDisk env'
        (RefreshFromDisk env
          { config := (Load loadEnv w0).2.config, file := file, disk := disk }).2).2.config
      = (RefreshFromDisk env
          { config := (Load loadEnv w0).2.config, file := file, disk := disk }).2.config := by
  obtain ⟨hP, hnd⟩ := load_normalized hload
  generalize hw : ({ config := (Load loadEnv w0).2.config, file := file, disk := disk } : World)
    = w
  have hc : w.config = (Load loadEnv w0).2.config := by rw [← hw]
  rw [← hc] at hP hnd
  constructor
  · by_cases hd : (refreshDisk env w).1 = true
    · exact refresh_twice_config env env w hP hnd hd
    · have hd' : (refreshDisk env w).1 = false := by simpa using hd
      have hsame : (RefreshFromDisk env w).2 = w := by
        rw [refreshFromDisk_eq, if_neg hd, refreshDisk_fail hd']
      rw [hsame, hsame]
  · intro env' hok
    have hd : (refreshDisk env w).1 = true := by
      by_contra hd
      rw [refreshFromDisk_eq, if_neg hd] at hok
      simp at hok
    exact refresh_twice_config env env' w hP hnd hd
/-- Witness of C10: after a first `Load` without a configuration file, two scans of an
asset root whose folders `I_P_Foo` and `I_P_foo` collide on the id `foo`. -/
theorem refreshFromDisk_idempotent_witness :
    (Load permissive firstRunWorld).1 = true ∧
      (RefreshFromDisk permissive
          (RefreshFromDisk permissive
            { config := (Load permissive firstRunWorld).2.config, file := .absent,
              disk := collidingDisk }).2).2.config
        = (RefreshFromDisk permissive
            { config := (Load permissive firstRunWorld).2.config, file := .absent,
              disk := collidingDisk }).2.config :=
  ⟨by decide,
    (refreshFromDisk_idempotent permissive permissive firstRunWorld .absent collidingDisk
      (by decide)).1⟩

/-! ## The catalog invariant -/

theorem filter_id_length_one {l : List Profile} {x : Str} {e : Profile}
    (hnd : (l.map Profile.id).Nodup) (he : e ∈ l) (hx : e.id = x) :
    (l.filter (fun p => p.id = x)).length = 1 := by
  induction l with
  | nil => simp at he
  | cons q rest ih =>
    simp only [List.map_cons, List.nodup_cons] at hnd
    rw [List.filter_cons]
    by_cases hq : q.id = x
    · have hnone : rest.filter (fun p => decide (p.id = x)) = [] := by
        rw [List.filter_eq_nil_iff]
        intro r hr
        have : r.id ≠ x := fun h => hnd.1 (List.mem_map.2 ⟨r, hr, h.trans hq.symm⟩)
        simpa using this
      simp [hq, hnone]
    · have he' : e ∈ rest := by
        rcases List.mem_cons.1 he with h | h
        · exact absurd (h ▸ hx) hq
        · exact h
      simp [hq, ih hnd.2 he']

theorem exists_of_filter_id_length {l : List Profile} {x : Str}
    (h : (l.filter (fun p => p.id = x)).length = 1) : ∃ e ∈ l, e.id = x := by
  cases hf : l.filter (fun p => decide (p.id = x)) with
  | nil => rw [hf] at h; simp at h
  | cons e rest =>
    have : e ∈ l.filter (fun p => decide (p.id = x)) := by rw [hf]; simp
    rw [List.mem_filter] at this
    exact ⟨e, this.1, by simpa using this.2⟩

theorem catalogInvariant_of (cfg : AppConfig) (h1 : ∀ p ∈ cfg.profiles, p.id ≠ [])
    (h2 : (cfg.profiles.map Profile.id).Nodup)
    (h3 : ∃ e ∈ cfg.profiles, e.id = officialId ∧ e.is_official = true ∧
      e.folder_name = cfg.official_profile_folder) : CatalogInvariant cfg := by
  obtain ⟨e, he, e1, e2, e3⟩ := h3
  refine ⟨h1, h2, filter_id_length_one h2 he e1, ?_⟩
  intro p hp hid
  have : p = e := List.inj_on_of_nodup_map h2 hp he (hid.trans e1.symm)
  rw [this]
  exact ⟨e2, e3⟩

theorem catalogInvariant_official {cfg : AppConfig} (h : CatalogInvariant cfg) :
    ∃ e ∈ cfg.profiles, e.id = officialId ∧ e.is_official = true ∧
      e.folder_name = cfg.official_profile_folder := by
  obtain ⟨_, _, h3, h4⟩ := h
  obtain ⟨e, he, e1⟩ := exists_of_filter_id_length h3
  exact ⟨e, he, e1, h4 e he e1⟩

theorem fillDefaults_official_folder (cfg : AppConfig) (p : Profile)
    (h1 : p.is_official = true) (h2 : p.folder_name = cfg.official_profile_folder) :
    (fillDefaults cfg p).folder_name = cfg.official_profile_folder := by
  rw [fillDefaults_eq_withDefaults]
  unfold withDefaults
  by_cases hf : p.folder_name = []
  · simp [hf, h1]
  · simp only [if_neg hf]
    exact h2

theorem first_occurrence_unique {l pre1 post1 pre2 post2 : List Profile} {a b : Profile}
    {x : Str} (h1 : l = pre1 ++ a :: post1) (h2 : l = pre2 ++ b :: post2)
    (ha : a.id = x) (hb : b.id = x) (hp1 : ∀ q ∈ pre1, q.id ≠ x)
    (hp2 : ∀ q ∈ pre2, q.id ≠ x) : a = b := by
  have e1 := @findIndexById_append pre1 post1 a x ha hp1
  have e2 := @findIndexById_append pre2 post2 b x hb hp2
  rw [← h1] at e1
  rw [← h2, e1] at e2
  have hlen : pre1.length = pre2.length := by simpa using e2
  have g1 := get?_append_cons pre1 post1 a
  have g2 := get?_append_cons pre2 post2 b
  rw [← h1] at g1
  rw [← h2, ← hlen, g1] at g2
  simpa using g2

/-- The catalog invariant holds after `EnsureOfficialProfile` followed by
`NormalizeProfiles`. -/
theorem ensured_normalized_invariant (c cfg : AppConfig)
    (hp : cfg.profiles = normalizeFrom c [] (EnsureOfficialProfile c).profiles)
    (ho : cfg.official_profile_folder = c.official_profile_folder) :
    CatalogInvariant cfg := by
  have hfirst : ∃ pre e post, (EnsureOfficialProfile c).profiles = pre ++ e :: post ∧
      (∀ q ∈ pre, q.id ≠ officialId) ∧ e.id = officialId ∧ e.is_official = true ∧
      e.folder_name = c.official_profile_folder := by
    rcases ensureOfficial_cases c with ⟨hall, hprof⟩ | ⟨pre, p, post, _, hpre, _, hprof⟩
    · exact ⟨c.profiles, _, [], hprof, hall, rfl, rfl, rfl⟩
    · exact ⟨pre, _, post, hprof, hpre, rfl, rfl, rfl⟩
  obtain ⟨pre, e, post, hl, hpre, e1, e2, e3⟩ := hfirst
  have hne : e.id ≠ [] := by rw [e1]; decide
  have hin : officialId ∈ (normalizeFrom c [] (EnsureOfficialProfile c).profiles).map
      Profile.id := by
    have := normalizeFrom_ids_complete c (EnsureOfficialProfile c).profiles [] e
      (by rw [hl]; simp) hne
    rw [e1] at this
    simpa using this
  obtain ⟨r, hr, hrid⟩ := List.mem_map.1 hin
  apply catalogInvariant_of
  · intro p hp'
    rw [hp] at hp'
    exact (normalizeFrom_mem c _ [] p hp').1
  · rw [hp]
    exact normalizeFrom_nodup c _ []
  · rw [hp, ho]
    refine ⟨r, hr, hrid, ?_⟩
    obtain ⟨pre2, q, post2, hl2, hrq, hpre2⟩ := normalizeFrom_mem_first c _ [] r hr
    have hqid : q.id = officialId := by
      rw [← hrid, hrq, fillDefaults_id]
    have hqe : e = q :=
      first_occurrence_unique hl hl2 e1 hqid hpre (fun x hx => by rw [← hqid]; exact hpre2 x hx)
    subst hqe
    rw [hrq, fillDefaults_is_official]
    exact ⟨e2, fillDefaults_official_folder c e e2 e3⟩

theorem renameActiveToIdle_config (env : Env) (w : World) :
    (RenameActiveToIdle env w).2.config = w.config := by
  unfold RenameActiveToIdle renameToFolder renameToBackup
  dsimp only
  repeat' split
  all_goals rfl

theorem applyProfile_catalog (env : Env) (w : World) (profile_id : Str) :
    (ApplyProfile env w profile_id).2.config.profiles = w.config.profiles ∧
      (ApplyProfile env w profile_id).2.config.official_profile_folder
        = w.config.official_profile_folder := by
  unfold ApplyProfile EnsureUhdDir
  dsimp only
  repeat' split
  all_goals first
    | exact ⟨rfl, rfl⟩
    | (simp only [renameActiveToIdle_config]; exact ⟨trivial, trivial⟩)
    | (simp only [save_config, renameActiveToIdle_config]; exact ⟨trivial, trivial⟩)

theorem generateLoop_ne_nil (existing : List Str) (base : Str) (i n : Nat) :
    generateLoop existing base i n ≠ [] := by
  induction n generalizing i with
  | zero => simp [generateLoop]
  | succ n ih =>
    simp only [generateLoop]
    split
    · simp [suffixed]
    · exact ih _

theorem generateProfileId_ne_nil (config : AppConfig) (display_name : Str) :
    GenerateProfileId config display_name ≠ [] := by
  unfold GenerateProfileId
  dsimp only
  split
  · unfold candidateBase
    split
    · decide
    · assumption
  · exact generateLoop_ne_nil _ _ _ _

/-- The catalog `AddProfileFromActive` leaves: the old one, or the old one with one
profile appended whose id is the generated id. -/
theorem addProfile_catalog (env : Env) (w : World) (display_name : Str) :
    (AddProfileFromActive env w display_name).2.config = w.config ∨
      ∃ p : Profile, p.id = GenerateProfileId w.config display_name ∧
        p.display_name = (if display_name = [] then p.id else display_name) ∧
        p.folder_name = w.config.idle_profile_prefix ++ p.id ∧ p.is_official = false ∧
        (AddProfileFromActive env w display_name).2.config
          = { w.config with profiles := w.config.profiles ++ [p] } := by
  unfold AddProfileFromActive EnsureUhdDir
  dsimp only
  repeat' split
  all_goals first
    | exact Or.inl rfl
    | (right; simp only [save_config]; exact ⟨_, rfl, rfl, rfl, rfl, rfl⟩)

theorem eraseIdx_append_cons {α : Type} (pre post : List α) (p : α) :
    (pre ++ p :: post).eraseIdx pre.length = pre ++ post := by
  induction pre with
  | nil => simp
  | cons q rest ih => simpa using ih

/-- The catalog `DeleteProfile` leaves: the old one, or the old one without the first
profile with the given id, which is not flagged official. -/
theorem deleteProfile_catalog (env : Env) (w : World) (profile_id : Str) :
    (DeleteProfile env w profile_id).2.config = w.config ∨
      ∃ pre p post, w.config.profiles = pre ++ p :: post ∧ p.id = profile_id ∧
        p.is_official = false ∧
        (DeleteProfile env w profile_id).2.config
          = { w.config with profiles := pre ++ post } := by
  unfold DeleteProfile
  by_cases h1 : profile_id = []
  · left; simp [h1]
  · by_cases h2 : profile_id = w.config.active_profile_id
    · left; simp [h1, h2]
    · simp only [h1, h2, if_false]
      cases hf : findIndexById w.config.profiles profile_id with
      | none => left; rfl
      | some i =>
        obtain ⟨pre, p, post, e1, e2, e3, _⟩ := findIndexById_some hf
        have hget : w.config.profiles.get? i = some p := by
          rw [e1, ← e2]; exact get?_append_cons _ _ _
        simp only [hget]
        by_cases ho : p.is_official = true
        · left; simp [ho]
        · simp only [ho, Bool.false_eq_true, if_false]
          have herase : w.config.profiles.eraseIdx i = pre ++ post := by
            rw [e1, ← e2]
            exact eraseIdx_append_cons pre post p
          generalize (if FolderExists w.disk p.folder_name = true then
            FileUtil.RemoveAll env w.disk p.folder_name else (true, w.disk)) = removed
          by_cases hr : removed.1 = true
          · right
            refine ⟨pre, p, post, e1, e3, by simpa using ho, ?_⟩
            simp only [hr, Bool.not_true, Bool.false_eq_true, if_false, save_config, herase]
          · left
            simp [hr]

theorem catalogInvariant_congr {c1 c2 : AppConfig} (hp : c1.profiles = c2.profiles)
    (ho : c1.official_profile_folder = c2.official_profile_folder)
    (h : CatalogInvariant c2) : CatalogInvariant c1 := by
  unfold CatalogInvariant at h ⊢
  rw [hp, ho]
  exact h

theorem load_invariant (env : Env) (w : World) (h : (Load env w).1 = true) :
    CatalogInvariant (Load env w).2.config := by
  obtain ⟨c, h1, h2, _⟩ := load_ok h
  exact ensured_normalized_invariant c _ h1 h2

theorem applyProfile_invariant (env : Env) (w : World) (profile_id : Str)
    (h : CatalogInvariant w.config) :
    CatalogInvariant (ApplyProfile env w profile_id).2.config :=
  catalogInvariant_congr (applyProfile_catalog env w profile_id).1
    (applyProfile_catalog env w profile_id).2 h

theorem addProfile_invariant (env : Env) (w : World) (display_name : Str)
    (h : CatalogInvariant w.config)
    (hfree : takenCandidates w.config (candidateBase display_name) < 9998) :
    CatalogInvariant (AddProfileFromActive env w display_name).2.config := by
  rcases addProfile_catalog env w display_name with hsame | ⟨p, hid, _, _, _, hcfg⟩
  · rw [hsame]; exact h
  · rw [hcfg]
    have hfresh := generateProfileId_not_mem w.config display_name hfree
    obtain ⟨e, he, e1, e2, e3⟩ := catalogInvariant_official h
    obtain ⟨h1, h2, _, _⟩ := h
    apply catalogInvariant_of
    · intro q hq
      rcases List.mem_append.1 hq with hq | hq
      · exact h1 q hq
      · rw [List.mem_singleton] at hq
        rw [hq, hid]
        exact generateProfileId_ne_nil _ _
    · simp only [List.map_append, List.map_cons, List.map_nil]
      rw [List.nodup_append]
      refine ⟨h2, by simp, ?_⟩
      intro a ha hb
      rw [List.mem_singleton] at hb
      rw [hb, hid] at ha
      exact hfresh ha
    · exact ⟨e, List.mem_append_left _ he, e1, e2, e3⟩

theorem deleteProfile_invariant (env : Env) (w : World) (profile_id : Str)
    (h : CatalogInvariant w.config) :
    CatalogInvariant (DeleteProfile env w profile_id).2.config := by
  rcases deleteProfile_catalog env w profile_id with hsame | ⟨pre, p, post, hl, _, hflag, hcfg⟩
  · rw [hsame]; exact h
  · rw [hcfg]
    obtain ⟨e, he, e1, e2, e3⟩ := catalogInvariant_official h
    obtain ⟨h1, h2, _, _⟩ := h
    rw [hl] at h1 h2 he
    apply catalogInvariant_of
    · intro q hq
      apply h1 q
      rcases List.mem_append.1 hq with hq | hq
      · exact List.mem_append_left _ hq
      · exact List.mem_append_right _ (List.mem_cons_of_mem _ hq)
    · have hsub : List.Sublist ((pre ++ post).map Profile.id)
          ((pre ++ p :: post).map Profile.id) := by
        apply List.Sublist.map
        exact List.Sublist.append (List.Sublist.refl _) (List.sublist_cons_self _ _)
      exact hsub.nodup h2
    · refine ⟨e, ?_, e1, e2, e3⟩
      rcases List.mem_append.1 he with hq | hq
      · exact List.mem_append_left _ hq
      · rcases List.mem_cons.1 hq with hq | hq
        · rw [hq, hflag] at e2
          exact absurd e2 (by simp)
        · exact List.mem_append_right _ hq

theorem refreshFromDisk_invariant (env : Env) (w : World) (h : CatalogInvariant w.config) :
    CatalogInvariant (RefreshFromDisk env w).2.config := by
  rw [refreshFromDisk_eq]
  by_cases hd : (refreshDisk env w).1 = true
  · rw [if_pos hd, save_config, normalizeProfiles_eq]
    simp only [normalizeFrom_config]
    obtain ⟨e, he, e1, e2, e3⟩ := catalogInvariant_official h
    obtain ⟨h1, h2, _, _⟩ := h
    apply catalogInvariant_of
    · intro q hq
      exact (normalizeFrom_mem _ _ [] q hq).1
    · exact normalizeFrom_nodup _ _ []
    · simp only
      rw [normalizeFrom_append_distinct w.config _ _ [] (fun p hp => ⟨h1 p hp, by simp⟩) h2]
      refine ⟨fillDefaults w.config e, List.mem_append_left _ (List.mem_map_of_mem _ he), ?_, ?_,
        fillDefaults_official_folder w.config e e2 e3⟩
      · rw [fillDefaults_id]; exact e1
      · rw [fillDefaults_is_official]; exact e2
  · rw [if_neg hd]
    exact h

/-- C1: the catalog invariant (ids non-empty and pairwise distinct, exactly one profile
with id `"official"`, flagged official and stored in the official folder) holds after every
successful `Load` and is preserved by `ApplyProfile`, `AddProfileFromActive` (when fewer
than 9998 of the candidate ids are taken), `DeleteProfile` and `RefreshFromDisk`, whether
or not the call reports success. -/
theorem catalogInvariant_maintained :
    (∀ (env : Env) (w : World), (Load env w).1 = true →
        CatalogInvariant (Load env w).2.config) ∧
      (∀ (env : Env) (w : World) (profile_id : Str), CatalogInvariant w.config →
        CatalogInvariant (ApplyProfile env w profile_id).2.config) ∧
      (∀ (env : Env) (w : World) (display_name : Str), CatalogInvariant w.config →
        takenCandidates w.config (candidateBase display_name) < 9998 →
        CatalogInvariant (AddProfileFromActive env w display_name).2.config) ∧
      (∀ (env : Env) (w : World) (profile_id : Str), CatalogInvariant w.config →
        CatalogInvariant (DeleteProfile env w profile_id).2.config) ∧
      (∀ (env : Env) (w : World), CatalogInvariant w.config →
        CatalogInvariant (RefreshFromDisk env w).2.config) :=
  ⟨load_invariant, applyProfile_invariant, addProfile_invariant, deleteProfile_invariant,
    refreshFromDisk_invariant⟩

/-- Witness of C1: the invariant after a first `Load`, and after each operation on the
sample state (where it holds before). -/
theorem catalogInvariant_maintained_witness :
    (Load permissive firstRunWorld).1 = true ∧
      CatalogInvariant (Load permissive firstRunWorld).2.config ∧
      CatalogInvariant sampleWorld.config ∧
      CatalogInvariant (ApplyProfile permissive sampleWorld "my_theme".toList).2.config ∧
      CatalogInvariant
        (AddProfileFromActive permissive sampleWorld "My Theme".toList).2.config ∧
      (AddProfileFromActive permissive sampleWorld "My Theme".toList).1 = true ∧
      CatalogInvariant (DeleteProfile permissive sampleWorld "my_theme".toList).2.config ∧
      (DeleteProfile permissive sampleWorld "my_theme".toList).1 = true ∧
      CatalogInvariant (RefreshFromDisk permissive sampleWorld).2.config :=
  ⟨by decide,
    catalogInvariant_maintained.1 permissive firstRunWorld (by decide),
    by decide,
    catalogInvariant_maintained.2.1 permissive sampleWorld "my_theme".toList (by decide),
    catalogInvariant_maintained.2.2.1 permissive sampleWorld "My Theme".toList (by decide)
      (takenCandidates_lt _ _ (by decide) (by decide)),
    by decide,
    catalogInvariant_maintained.2.2.2.1 permissive sampleWorld "my_theme".toList (by decide),
    by decide,
    catalogInvariant_maintained.2.2.2.2 permissive sampleWorld (by decide)⟩

/-! ## `Initialize` on a first run -/

theorem load_absent (env : Env) (w : World) (hfile : w.file = .absent) :
    Load env w =
      Save env { w with config := NormalizeProfiles (EnsureOfficialProfile (defaultConfig env)) } := by
  unfold Load
  rw [hfile]

theorem save_flag (env : Env) (w : World) : (Save env w).1 = env.permits .writeConfig := by
  cases h : env.permits .writeConfig <;> simp [Save, h]

/-- The configuration `Load` builds when no configuration file exists: the defaults with
the official profile as only entry; the active id is left empty. -/
theorem defaultConfig_normalized (env : Env) :
    NormalizeProfiles (EnsureOfficialProfile (defaultConfig env)) =
      { defaultConfig env with
        profiles :=
          [{ id := officialId, display_name := officialDisplayName,
             folder_name := Defaults.official_profile_folder, is_official := true }] } := by
  rfl

/-- The directory part of `RefreshFromDisk` on an asset root that holds only the active
slot `images`, under the default folder names: the active slot is copied to `R_NI`. -/
theorem firstRun_refreshDisk (env : Env) (cfg : AppConfig) (file : ConfigFile)
    (content : List (Str × List Nat))
    (hi : cfg.images_folder_name = "images".toList)
    (ho : cfg.official_profile_folder = "R_NI".toList) :
    refreshDisk env
        { config := cfg, file := file, disk := .dir [("images".toList, .dir content)] }
      = if env.permits (.copy "images".toList "R_NI".toList) then
          (true, .dir [("images".toList, .dir content), ("R_NI".toList, .dir content)])
        else (false, .dir [("images".toList, .dir content)]) := by
  unfold refreshDisk
  simp only [ensureDir_dir, hi, ho]
  have h1 : FolderExists (.dir [("images".toList, .dir content)]) "R_NI".toList = false := by
    simp [FolderExists, FileUtil.Exists, FileUtil.IsDir, AssetRoot.node, AssetRoot.entries,
      List.lookup]
  have h2 : FolderExists (.dir [("images".toList, .dir content)]) "images".toList = true := by
    simp [FolderExists, FileUtil.Exists, FileUtil.IsDir, AssetRoot.node, AssetRoot.entries,
      List.lookup]
  simp only [h1, h2]
  cases hp : env.permits (.copy "images".toList "R_NI".toList) <;>
    simp [FileUtil.CopyDir, AssetRoot.node, AssetRoot.entries, List.lookup, copyResult, hp,
      AssetRoot.withNode] <;> exact hp

/-- C11 (the code at the claim's input): starting without a configuration file on an
asset root that holds only the populated active slot, a successful `Initialize` leaves the
official profile as only catalog entry and creates the official folder `R_NI` as a copy of
the active slot, but it leaves `activeProfileId` empty, not `"official"`. -/
theorem initialize_first_run (env : Env) (w : World) (content : List (Str × List Nat))
    (hfile : w.file = .absent)
    (hdisk : w.disk = .dir [("images".toList, .dir content)])
    (hok : (Initialize env w).1 = true) :
    (Initialize env w).2.config.profiles =
        [{ id := officialId, display_name := officialDisplayName,
           folder_name := "R_NI".toList, is_official := true }] ∧
      (Initialize env w).2.disk.node "R_NI".toList = some (.dir content) ∧
      (Initialize env w).2.disk.node "images".toList = some (.dir content) ∧
      (Initialize env w).2.config.active_profile_id = [] ∧
      (Initialize env w).2.config.active_profile_id ≠ officialId := by
  obtain ⟨cfg0, file0, disk0⟩ := w
  simp only at hfile hdisk
  subst hfile hdisk
  unfold Initialize at hok ⊢
  rw [load_absent env _ rfl, defaultConfig_normalized] at hok ⊢
  simp only [save_flag] at hok ⊢
  by_cases hw : env.permits .writeConfig = true
  · simp only [hw, Bool.not_true, Bool.false_eq_true, if_false] at hok ⊢
    have hsave : ∀ x : World, (Save env x).2 =
        { x with file := .text (some (ConfigToJson x.config)) } := by
      intro x
      unfold Save
      simp [hw]
    rw [hsave] at hok ⊢
    rw [refreshFromDisk_eq] at hok ⊢
    rw [firstRun_refreshDisk env _ _ content rfl rfl] at hok ⊢
    by_cases hc : env.permits (.copy "images".toList "R_NI".toList) = true
    · simp only [hc, if_true, save_config, save_disk]
      refine ⟨rfl, rfl, rfl, rfl, ?_⟩
      show ([] : Str) ≠ officialId
      decide
    · simp at hc
      simp [hc] at hok
  · simp [hw] at hok

/-- Witness of C11: the first run on the sample asset root. -/
theorem initialize_first_run_witness :
    (Initialize permissive firstRunWorld).1 = true ∧
      (Initialize permissive firstRunWorld).2.config.profiles =
        [{ id := officialId, display_name := officialDisplayName,
           folder_name := "R_NI".toList, is_official := true }] ∧
      (Initialize permissive firstRunWorld).2.config.active_profile_id = [] :=
  ⟨by decide,
    (initialize_first_run permissive firstRunWorld [("fpga.bin".toList, [1])] rfl rfl
      (by decide)).1,
    (initialize_first_run permissive firstRunWorld [("fpga.bin".toList, [1])] rfl rfl
      (by decide)).2.2.2.1⟩

/-! ## `AddProfileFromActive` -/

/-- The source `AddProfileFromActive` copies from: the official profile's folder when it
exists on disk, the active slot when that folder is missing, the official profile is the
active one and the active slot exists. -/
theorem addProfile_ok {env : Env} {w : World} {display_name : Str}
    (h : (AddProfileFromActive env w display_name).1 = true) :
    ∃ official source content,
      profileAt w.config officialId = some official ∧
      ((FolderExists w.disk official.folder_name = true ∧ source = official.folder_name) ∨
        (FolderExists w.disk official.folder_name = false ∧
          w.config.active_profile_id = officialId ∧ source = w.config.images_folder_name)) ∧
      w.disk.node source = some (.dir content) ∧
      w.disk.node (w.config.idle_profile_prefix ++ GenerateProfileId w.config display_name)
        = none ∧
      (AddProfileFromActive env w display_name).2.disk
        = w.disk.withNode
            (w.config.idle_profile_prefix ++ GenerateProfileId w.config display_name)
            (.dir content) ∧
      (AddProfileFromActive env w display_name).2.config
        = { w.config with
            profiles := w.config.profiles ++
              [{ id := GenerateProfileId w.config display_name
                 display_name :=
                   if display_name = [] then GenerateProfileId w.config display_name
                   else display_name
                 folder_name :=
                   w.config.idle_profile_prefix ++ GenerateProfileId w.config display_name
                 is_official := false }] } := by
  unfold AddProfileFromActive EnsureUhdDir at h ⊢
  by_cases he : (FileUtil.EnsureDir env w.disk).1 = true
  · obtain ⟨es, hes, hsame⟩ := ensureDir_ok he
    simp only [he, Bool.not_true, Bool.false_eq_true, if_false, hes] at h ⊢
    cases hp : profileAt w.config officialId with
    | none => simp [hp] at h
    | some official =>
      simp only [hp] at h ⊢
      generalize hsrc : (if FolderExists (AssetRoot.dir es) official.folder_name = true then
          some official.folder_name
        else if w.config.active_profile_id = officialId ∧
            FolderExists (AssetRoot.dir es) w.config.images_folder_name = true then
          some w.config.images_folder_name
        else none) = source at h ⊢
      cases source with
      | none => simp at h
      | some src =>
        simp only at h ⊢
        by_cases hd : FolderExists (AssetRoot.dir es)
            (w.config.idle_profile_prefix ++ GenerateProfileId w.config display_name) = true
        · simp [hd] at h
        · simp only [hd, Bool.false_eq_true, if_false] at h ⊢
          by_cases hc : (FileUtil.CopyDir env (AssetRoot.dir es) src
              (w.config.idle_profile_prefix ++ GenerateProfileId w.config display_name)).1 = true
          · simp only [hc, Bool.not_true, Bool.false_eq_true, if_false, save_disk,
              save_config] at h ⊢
            obtain ⟨node, result, hn, hr, hres⟩ := copyDir_ok hc
            have hsrcdir : ∃ c, (AssetRoot.dir es).node src = some (.dir c) := by
              rw [← folderExists_iff]
              by_cases h1 : FolderExists (AssetRoot.dir es) official.folder_name = true
              · simp only [h1, if_true, Option.some.injEq] at hsrc
                rw [← hsrc]; exact h1
              · simp only [h1, Bool.false_eq_true, if_false] at hsrc
                by_cases h2 : w.config.active_profile_id = officialId ∧
                    FolderExists (AssetRoot.dir es) w.config.images_folder_name = true
                · simp only [h2, and_self, if_true, Option.some.injEq] at hsrc
                  rw [← hsrc]; exact h2.2
                · simp [h2] at hsrc
            have hdisk : AssetRoot.dir es = w.disk := by
              rw [← hes]
              apply @ensureDir_of_folder env w.disk src
              rw [hes]
              exact (folderExists_iff _ _).2 hsrcdir
            obtain ⟨c, hc2⟩ := hsrcdir
            rw [hc2] at hn
            obtain rfl : Node.dir c = node := by simpa using hn
            have hdst : (AssetRoot.dir es).node
                (w.config.idle_profile_prefix ++ GenerateProfileId w.config display_name)
                  = none ∧ result = .dir c := by
              cases hnode : (AssetRoot.dir es).node
                  (w.config.idle_profile_prefix ++ GenerateProfileId w.config display_name) with
              | none =>
                rw [hnode] at hr
                simp only [copyResult, Option.some.injEq] at hr
                exact ⟨rfl, hr.symm⟩
              | some x =>
                cases x with
                | file b => rw [hnode] at hr; simp [copyResult] at hr
                | dir c' =>
                  exact absurd ((folderExists_iff _ _).2 ⟨c', hnode⟩) hd
            obtain ⟨hnone, rfl⟩ := hdst
            refine ⟨official, src, c, rfl, ?_, ?_, ?_, ?_, trivial⟩
            · rw [← hdisk]
              by_cases h1 : FolderExists (AssetRoot.dir es) official.folder_name = true
              · simp only [h1, if_true, Option.some.injEq] at hsrc
                exact Or.inl ⟨h1, hsrc.symm⟩
              · simp only [h1, Bool.false_eq_true, if_false] at hsrc
                by_cases h2 : w.config.active_profile_id = officialId ∧
                    FolderExists (AssetRoot.dir es) w.config.images_folder_name = true
                · simp only [h2, and_self, if_true, Option.some.injEq] at hsrc
                  exact Or.inr ⟨by simpa using h1, h2.1, hsrc.symm⟩
                · simp [h2] at hsrc
            · rw [← hdisk]; exact hc2
            · rw [← hdisk]; exact hnone
            · rw [hres, hdisk]
          · simp [hc] at h
  · simp [he] at h
theorem generateProfileId_my_theme (cfg : AppConfig)
    (h : "my_theme".toList ∉ cfg.profiles.map Profile.id) :
    GenerateProfileId cfg "My Theme".toList = "my_theme".toList := by
  have hb : candidateBase "My Theme".toList = "my_theme".toList := by decide
  unfold GenerateProfileId
  simp only [hb]
  rw [if_pos h]

/-- C12: for a non-empty display name, a successful `AddProfileFromActive` appends exactly
one profile, with the generated id, the given display name, the folder `idlePrefix + id`
and no official flag, and changes nothing else in the catalog; the new folder did not exist
before and afterwards holds a copy of the official baseline: of the official profile's
folder when that exists on disk, of the active slot only when that folder is missing and
`"official"` is the active id; every other name of the layout is untouched.  With the
default prefix and `my_theme` free, "My Theme" gets the id `my_theme` and the folder
`I_P_my_theme`. -/
theorem addProfileFromActive_spec (env : Env) (w : World) (display_name : Str)
    (hname : display_name ≠ [])
    (hok : (AddProfileFromActive env w display_name).1 = true) :
    (AddProfileFromActive env w display_name).2.config =
        { w.config with
          profiles := w.config.profiles ++
            [{ id := GenerateProfileId w.config display_name
               display_name := display_name
               folder_name :=
                 w.config.idle_profile_prefix ++ GenerateProfileId w.config display_name
               is_official := false }] } ∧
      w.disk.node (w.config.idle_profile_prefix ++ GenerateProfileId w.config display_name)
        = none ∧
      FolderExists (AddProfileFromActive env w display_name).2.disk
        (w.config.idle_profile_prefix ++ GenerateProfileId w.config display_name) = true ∧
      (∃ official, profileAt w.config officialId = some official ∧
        (FolderExists w.disk official.folder_name = true →
          (AddProfileFromActive env w display_name).2.disk.node
              (w.config.idle_profile_prefix ++ GenerateProfileId w.config display_name)
            = w.disk.node official.folder_name) ∧
        (FolderExists w.disk official.folder_name = false →
          w.config.active_profile_id = officialId ∧
          FolderExists w.disk w.config.images_folder_name = true ∧
          (AddProfileFromActive env w display_name).2.disk.node
              (w.config.idle_profile_prefix ++ GenerateProfileId w.config display_name)
            = w.disk.node w.config.images_folder_name)) ∧
      (∀ k, k ≠ w.config.idle_profile_prefix ++ GenerateProfileId w.config display_name →
        (AddProfileFromActive env w display_name).2.disk.node k = w.disk.node k) ∧
      (w.config.idle_profile_prefix = "I_P_".toList →
        "my_theme".toList ∉ w.config.profiles.map Profile.id →
        GenerateProfileId w.config "My Theme".toList = "my_theme".toList ∧
        w.config.idle_profile_prefix ++ GenerateProfileId w.config "My Theme".toList
          = "I_P_my_theme".toList) := by
  obtain ⟨official, source, content, hp, hsrc, hnode, hnone, hdisk, hcfg⟩ := addProfile_ok hok
  obtain ⟨es, hes⟩ := node_some_isDir hnode
  have hdest : (AddProfileFromActive env w display_name).2.disk.node
      (w.config.idle_profile_prefix ++ GenerateProfileId w.config display_name)
        = some (.dir content) := by
    rw [hdisk, hes, node_withNode]; simp
  refine ⟨?_, hnone, ?_, ⟨official, hp, ?_, ?_⟩, ?_, ?_⟩
  · rw [hcfg]; simp only [if_neg hname]
  · rw [folderExists_iff]; exact ⟨content, hdest⟩
  · intro hex
    rcases hsrc with ⟨_, e⟩ | ⟨hno, _, _⟩
    · rw [hdest, ← e, hnode]
    · rw [hex] at hno; exact absurd hno (by simp)
  · intro hno
    rcases hsrc with ⟨hex, _⟩ | ⟨_, hact, e⟩
    · rw [hno] at hex; exact absurd hex (by simp)
    · refine ⟨hact, ?_, ?_⟩
      · rw [folderExists_iff, ← e]; exact ⟨content, hnode⟩
      · rw [hdest, ← e, hnode]
  · intro k hk
    rw [hdisk, hes, node_withNode, if_neg hk]
  · intro hpre hfree
    have := generateProfileId_my_theme w.config hfree
    rw [this, hpre]
    exact ⟨rfl, by decide⟩

/-- Witness of C12: "My Theme" added to the state a first run leaves. -/
theorem addProfileFromActive_spec_witness :
    "My Theme".toList ≠ [] ∧
      (AddProfileFromActive permissive (Initialize permissive firstRunWorld).2
        "My Theme".toList).1 = true ∧
      (AddProfileFromActive permissive (Initialize permissive firstRunWorld).2
        "My Theme".toList).2.config.profiles =
        [ { id := officialId, display_name := officialDisplayName,
            folder_name := "R_NI".toList, is_official := true },
          { id := "my_theme".toList, display_name := "My Theme".toList,
            folder_name := "I_P_my_theme".toList, is_official := false } ] ∧
      (AddProfileFromActive permissive (Initialize permissive firstRunWorld).2
        "My Theme".toList).2.disk.node "I_P_my_theme".toList
        = some (.dir [("fpga.bin".toList, [1])]) ∧
      (Initialize permissive firstRunWorld).2.disk.node
          ((Initialize permissive firstRunWorld).2.config.idle_profile_prefix ++
            GenerateProfileId (Initialize permissive firstRunWorld).2.config
              "My Theme".toList) = none :=
  ⟨by decide, by decide, by decide, by decide,
    (addProfileFromActive_spec permissive (Initialize permissive firstRunWorld).2
      "My Theme".toList (by decide) (by decide)).2.1⟩

/-! ## Failure and success of `Load` -/

/-- The configuration `Load` works from, by the state of the file: the defaults when no
file is found, the configuration read from the root object when the file parses to one. -/
theorem load_cases {env : Env} {w : World} (h : (Load env w).1 = true) :
    ((w.file = .absent ∨ w.file = .inaccessible) ∧
        (Load env w).2.config
          = NormalizeProfiles (EnsureOfficialProfile (defaultConfig env))) ∨
      ∃ root_obj, w.file = .text (some (.object root_obj)) ∧
        (Load env w).2.config =
          (if (NormalizeProfiles (EnsureOfficialProfile (readConfig env root_obj))).active_profile_id
              = [] then
            { NormalizeProfiles (EnsureOfficialProfile (readConfig env root_obj)) with
              active_profile_id := officialId }
          else NormalizeProfiles (EnsureOfficialProfile (readConfig env root_obj))) := by
  unfold Load at h ⊢
  cases hfile : w.file with
  | absent =>
    left
    simp only [save_config]
    exact ⟨Or.inl trivial, trivial⟩
  | inaccessible =>
    left
    simp only [save_config]
    exact ⟨Or.inr trivial, trivial⟩
  | unreadable => simp [hfile] at h
  | text parsed =>
    cases parsed with
    | none => simp [hfile] at h
    | some v =>
      cases v with
      | object root_obj =>
        right
        exact ⟨root_obj, rfl, rfl⟩
      | null => simp [hfile] at h
      | bool b => simp [hfile] at h
      | number n => simp [hfile] at h
      | string s => simp [hfile] at h
      | array items => simp [hfile] at h

theorem profileAt_none {config : AppConfig} {id : Str} :
    profileAt config id = none ↔ ∀ p ∈ config.profiles, p.id ≠ id := by
  unfold profileAt FindProfileById
  constructor
  · intro h
    cases hf : findIndexById config.profiles id with
    | none => exact findIndexById_none.1 hf
    | some i =>
      obtain ⟨q, hq, _, _⟩ := findIndexById_get hf
      simp only [hf, hq] at h
      exact absurd h (by simp)
  · intro h
    rw [findIndexById_none.2 h]

theorem profileAt_of_mem {config : AppConfig} {id : Str} {e : Profile}
    (he : e ∈ config.profiles) (hid : e.id = id) : ∃ p, profileAt config id = some p := by
  cases hp : profileAt config id with
  | none => exact absurd hid (profileAt_none.1 hp e he)
  | some p => exact ⟨p, rfl⟩

/-- `ApplyProfile` with an id that is not in the catalog: failure; only `EnsureUhdDir` has
run. -/
theorem applyProfile_unknown (env : Env) (w : World) (profile_id : Str)
    (h : profileAt w.config profile_id = none) :
    ApplyProfile env w profile_id
      = (false, { w with disk := (FileUtil.EnsureDir env w.disk).2 }) := by
  unfold ApplyProfile EnsureUhdDir
  by_cases he : (FileUtil.EnsureDir env w.disk).1 = true
  · simp only [he, Bool.not_true, Bool.false_eq_true, if_false, h]
  · simp [he]

theorem ensureDir_result (env : Env) (disk : AssetRoot) :
    (FileUtil.EnsureDir env disk).2 = disk ∨
      (disk = .missing ∧ env.permits .createRoot = true ∧
        (FileUtil.EnsureDir env disk).2 = .dir []) := by
  cases disk with
  | missing =>
    unfold FileUtil.EnsureDir
    by_cases hp : env.permits .createRoot = true
    · right; simp [hp]
    · left; simp [hp]
  | notDir => left; rfl
  | dir es => left; rfl

/-- `DeleteProfile` with an empty id, an id that is not in the catalog, the active id or
the id of a profile flagged official: failure, nothing changes. -/
theorem deleteProfile_rejected (env : Env) (w : World) (profile_id : Str)
    (h : profile_id = [] ∨ profileAt w.config profile_id = none ∨
      profile_id = w.config.active_profile_id ∨
      ∃ p, profileAt w.config profile_id = some p ∧ p.is_official = true) :
    DeleteProfile env w profile_id = (false, w) := by
  unfold DeleteProfile
  by_cases h1 : profile_id = []
  · simp [h1]
  · by_cases h2 : profile_id = w.config.active_profile_id
    · simp [h1, h2]
    · simp only [h1, h2, if_false]
      cases hf : findIndexById w.config.profiles profile_id with
      | none => rfl
      | some i =>
        obtain ⟨q, hq, hmem, hqid⟩ := findIndexById_get hf
        simp only [hq]
        have hpa : profileAt w.config profile_id = some q := by
          unfold profileAt FindProfileById
          simp only [hf, hq]
        rcases h with h | h | h | ⟨p, hp, hflag⟩
        · exact absurd h h1
        · rw [hpa] at h; exact absurd h (by simp)
        · exact absurd h h2
        · rw [hpa] at hp
          obtain rfl : q = p := by simpa using hp
          simp only [hflag, if_true]

/-- C14 as stated fails: `ApplyProfile` with an unknown id on a state whose asset root
directory is missing creates that directory before it rejects the id. -/
theorem applyProfile_unknown_creates_root_counterexample :
    profileAt sampleWithoutRoot.config "ghost".toList = none ∧
      (ApplyProfile permissive sampleWithoutRoot "ghost".toList).1 = false ∧
      sampleWithoutRoot.disk = .missing ∧
      (ApplyProfile permissive sampleWithoutRoot "ghost".toList).2.disk = .dir [] ∧
      (ApplyProfile permissive sampleWithoutRoot "ghost".toList).2.disk
        ≠ sampleWithoutRoot.disk := by
  decide

/-- C14 (amended): `ApplyProfile` with an id that is not in the catalog returns failure and
leaves the catalog and the persisted file unchanged; the directory layout is unchanged
too, except that a missing asset root directory has been created (empty) when the
environment permits it.  `DeleteProfile` with an empty id, an id that is not in the
catalog, the active id or the id of a profile flagged official returns failure and leaves
the whole state unchanged. -/
theorem invalid_input_rejected :
    (∀ (env : Env) (w : World) (profile_id : Str),
        (∀ p ∈ w.config.profiles, p.id ≠ profile_id) →
        (ApplyProfile env w profile_id).1 = false ∧
        (ApplyProfile env w profile_id).2.config = w.config ∧
        (ApplyProfile env w profile_id).2.file = w.file ∧
        ((ApplyProfile env w profile_id).2.disk = w.disk ∨
          (w.disk = .missing ∧ (ApplyProfile env w profile_id).2.disk = .dir [])) ∧
        (w.disk ≠ .missing → ApplyProfile env w profile_id = (false, w))) ∧
      (∀ (env : Env) (w : World) (profile_id : Str),
        (profile_id = [] ∨ (∀ p ∈ w.config.profiles, p.id ≠ profile_id) ∨
          profile_id = w.config.active_profile_id ∨
          ∃ p, profileAt w.config profile_id = some p ∧ p.is_official = true) →
        DeleteProfile env w profile_id = (false, w)) := by
  constructor
  · intro env w profile_id h
    rw [applyProfile_unknown env w profile_id (profileAt_none.2 h)]
    refine ⟨rfl, rfl, rfl, ?_, ?_⟩
    · rcases ensureDir_result env w.disk with h1 | ⟨h1, _, h3⟩
      · exact Or.inl h1
      · exact Or.inr ⟨h1, h3⟩
    · intro hne
      rcases ensureDir_result env w.disk with h1 | ⟨h1, _, _⟩
      · simp only [h1]
      · exact absurd h1 hne
  · intro env w profile_id h
    apply deleteProfile_rejected
    rcases h with h | h | h | h
    · exact Or.inl h
    · exact Or.inr (Or.inl (profileAt_none.2 h))
    · exact Or.inr (Or.inr (Or.inl h))
    · exact Or.inr (Or.inr (Or.inr h))

/-- Witness of C14: the unknown id `ghost` on the sample state, for both operations, and
the deletion of the official profile while `my_theme` is active. -/
theorem invalid_input_rejected_witness :
    ApplyProfile permissive sampleWorld "ghost".toList = (false, sampleWorld) ∧
      DeleteProfile permissive sampleWorld "ghost".toList = (false, sampleWorld) ∧
      DeleteProfile permissive myThemeActiveWorld officialId = (false, myThemeActiveWorld) :=
  ⟨(invalid_input_rejected.1 permissive sampleWorld "ghost".toList (by decide)).2.2.2.2
      (by decide),
    invalid_input_rejected.2 permissive sampleWorld "ghost".toList
      (Or.inr (Or.inl (by decide))),
    invalid_input_rejected.2 permissive myThemeActiveWorld officialId
      (Or.inr (Or.inr (Or.inr
        ⟨{ id := officialId, display_name := officialDisplayName,
           folder_name := "R_NI".toList, is_official := true }, by decide, rfl⟩)))⟩

/-! ## The active id and the official flag after `Load` -/

theorem ensureOfficial_active (config : AppConfig) :
    (EnsureOfficialProfile config).active_profile_id = config.active_profile_id := by
  rw [ensureOfficial_fields]

theorem readConfig_active (env : Env) (root_obj : List (Str × Value)) :
    (readConfig env root_obj).active_profile_id
      = GetString root_obj "active_profile_id".toList [] := by
  have hstep : ∀ (items : List Value) (cfg : AppConfig),
      (items.foldl loadProfileStep cfg).active_profile_id = cfg.active_profile_id := by
    intro items
    induction items with
    | nil => intro cfg; rfl
    | cons item rest ih =>
      intro cfg
      rw [List.foldl_cons, ih]
      unfold loadProfileStep
      split
      · dsimp only
        split <;> rfl
      · rfl
  unfold readConfig
  dsimp only
  split
  · rw [hstep]
  · rfl

theorem ensureOfficial_mem (config : AppConfig) (q : Profile)
    (hq : q ∈ (EnsureOfficialProfile config).profiles) :
    q.id = officialId ∨ q ∈ config.profiles := by
  rcases ensureOfficial_cases config with ⟨_, hprof⟩ | ⟨pre, p, post, hc, _, _, hprof⟩
  · rw [hprof] at hq
    rcases List.mem_append.1 hq with h | h
    · exact Or.inr h
    · left
      rw [List.mem_singleton.1 h]
  · rw [hprof] at hq
    rcases List.mem_append.1 hq with h | h
    · right; rw [hc]; exact List.mem_append_left _ h
    · rcases List.mem_cons.1 h with h | h
      · left; rw [h]
      · right; rw [hc]; exact List.mem_append_right _ (List.mem_cons_of_mem _ h)

/-- C16 as stated fails: a persisted profile `x` that carries the official flag keeps it,
so two profiles of the loaded catalog are flagged. -/
theorem load_second_flag_counterexample :
    (Load permissive { sampleWorld with file := flaggedFile }).1 = true ∧
      (Load permissive { sampleWorld with file := flaggedFile }).2.config.profiles =
        [ { id := "x".toList, display_name := "x".toList,
            folder_name := "I_P_x".toList, is_official := true },
          { id := officialId, display_name := officialDisplayName,
            folder_name := "R_NI".toList, is_official := true } ] ∧
      ((Load permissive { sampleWorld with file := flaggedFile }).2.config.profiles.filter
        (fun p => p.is_official)).length = 2 := by
  decide

/-- C16 (amended): after every successful `Load` exactly one profile of the catalog has
the id `"official"` and it carries `isOfficial = true`; every other profile of the
catalog carries the flag exactly as a persisted profile record with the same id stored
it, so it is flagged only if the persisted file flagged it. -/
theorem load_official_flag (env : Env) (w : World) (hok : (Load env w).1 = true) :
    ((Load env w).2.config.profiles.filter (fun p => p.id = officialId)).length = 1 ∧
      (∀ p ∈ (Load env w).2.config.profiles, p.id = officialId → p.is_official = true) ∧
      (∀ p ∈ (Load env w).2.config.profiles, p.id ≠ officialId →
        ∃ q ∈ persistedProfiles env w.file, q.id = p.id ∧ q.is_official = p.is_official) := by
  obtain ⟨_, _, h3, h4⟩ := load_invariant env w hok
  refine ⟨h3, fun p hp hid => (h4 p hp hid).1, ?_⟩
  intro p hp hid
  rcases load_cases hok with ⟨_, hc⟩ | ⟨root_obj, hfile, hc⟩
  · rw [hc, defaultConfig_normalized] at hp
    rw [List.mem_singleton.1 hp] at hid
    exact absurd rfl hid
  · have hprof : (Load env w).2.config.profiles
        = normalizeFrom (EnsureOfficialProfile (readConfig env root_obj)) []
            (EnsureOfficialProfile (readConfig env root_obj)).profiles := by
      rw [hc, normalizeProfiles_eq]
      split <;> rfl
    rw [hprof] at hp
    obtain ⟨_, _, _, q, hq, e⟩ := normalizeFrom_mem _ _ _ p hp
    have e1 : p.id = q.id := by rw [e, fillDefaults_id]
    have e2 : p.is_official = q.is_official := by rw [e, fillDefaults_is_official]
    rcases ensureOfficial_mem _ q hq with h | h
    · exact absurd (e1.trans h) hid
    · refine ⟨q, ?_, e1.symm, e2.symm⟩
      rw [hfile]
      exact h

/-- Witness of C16: the persisted sample document. -/
theorem load_official_flag_witness :
    (Load permissive sampleWorld).1 = true ∧
      ((Load permissive sampleWorld).2.config.profiles.filter
        (fun p => p.id = officialId)).length = 1 :=
  ⟨by decide, (load_official_flag permissive sampleWorld (by decide)).1⟩

/-! ## Folder names after normalization -/

/-- C17 as stated fails: with an empty official folder name the official profile is left
with an empty folder name. -/
theorem empty_official_folder_counterexample :
    (NormalizeProfiles (EnsureOfficialProfile emptyConfig)).profiles =
        [ { id := officialId, display_name := officialDisplayName,
            folder_name := [], is_official := true } ] ∧
      ¬ ∀ p ∈ (NormalizeProfiles (EnsureOfficialProfile emptyConfig)).profiles,
          p.folder_name ≠ [] := by
  decide

/-- C17 (amended): after `EnsureOfficialProfile` followed by `NormalizeProfiles`, every
profile of the catalog has a non-empty folder name exactly when the configuration's
official folder name is non-empty; the idle prefix may be any string, the empty one
included. -/
theorem normalized_folder_nonempty (config : AppConfig) :
    (∀ p ∈ (NormalizeProfiles (EnsureOfficialProfile config)).profiles, p.folder_name ≠ [])
      ↔ config.official_profile_folder ≠ [] := by
  have hfold : (EnsureOfficialProfile config).official_profile_folder
      = config.official_profile_folder := by
    rw [ensureOfficial_fields]
  have hprof : (NormalizeProfiles (EnsureOfficialProfile config)).profiles
      = normalizeFrom (EnsureOfficialProfile config) []
          (EnsureOfficialProfile config).profiles := by
    rw [normalizeProfiles_eq]
  constructor
  · intro hall
    have hinv : CatalogInvariant (NormalizeProfiles (EnsureOfficialProfile config)) := by
      refine ensured_normalized_invariant config _ ?_ ?_
      · rw [hprof]
        exact normalizeFrom_congr hfold (by rw [ensureOfficial_fields]) _ _
      · rw [normalizeProfiles_eq]
        exact hfold
    obtain ⟨e, he, _, _, e3⟩ := catalogInvariant_official hinv
    have := hall e he
    rw [e3, normalizeProfiles_eq] at this
    rw [← hfold]
    exact this
  · intro hne p hp
    rw [hprof] at hp
    obtain ⟨hid, _, hfix, _⟩ := normalizeFrom_mem _ _ _ p hp
    intro hempty
    rw [fillDefaults_eq_withDefaults] at hfix
    have hf : (withDefaults (EnsureOfficialProfile config) p).folder_name = [] := by
      rw [hfix]; exact hempty
    unfold withDefaults at hf
    simp only [hempty, if_true] at hf
    by_cases ho : p.is_official = true
    · rw [if_pos ho, hfold] at hf
      exact hne hf
    · rw [if_neg ho] at hf
      exact hid (List.append_eq_nil.1 hf).2

/-! ## `RenameActiveToIdle` -/

theorem renameToFolder_same_fails (env : Env) (w : World) (active : Profile)
    (hslot : FolderExists w.disk w.config.images_folder_name = true)
    (hsame : w.config.images_folder_name = active.folder_name) :
    (renameToFolder env w active).1 = false := by
  unfold renameToFolder
  dsimp only
  rw [← hsame, if_pos hslot]
  by_cases hr : (FileUtil.RemoveAll env w.disk w.config.images_folder_name).1 = true
  · have hn := removeAll_ok_node hr w.config.images_folder_name
    rw [if_pos rfl] at hn
    simp only [hr, Bool.not_true, Bool.false_eq_true, if_false]
    unfold FileUtil.Rename
    rw [hn]
  · simp [hr]

/-- C20 as stated fails: when the backup folder is the active slot itself and the removal
of that directory is refused, `RenameActiveToIdle` reports success through the backup
branch and the active slot still exists afterwards. -/
theorem renameActiveToIdle_slot_remains_counterexample :
    FolderExists sharedSlotWorld.disk sharedSlotWorld.config.images_folder_name = true ∧
      profileAt sharedSlotWorld.config sharedSlotWorld.config.active_profile_id = none ∧
      (RenameActiveToIdle imagesUndeletable sharedSlotWorld).1 = true ∧
      FolderExists (RenameActiveToIdle imagesUndeletable sharedSlotWorld).2.disk
        sharedSlotWorld.config.images_folder_name = true := by
  decide

/-- C20 (amended): `RenameActiveToIdle` on an explicit filesystem state whose active
folder name is a single path component. If the active slot does not exist it succeeds and
changes nothing. Otherwise, on success the catalog and the persisted file are unchanged,
and: if `activeProfileId` is non-empty and names a catalog profile with a non-empty folder
name that is a single path component, the active slot has been moved to that folder,
replacing (not merging with) any directory previously there, and the active slot no
longer exists; in every other case (empty active id, an active id naming no catalog
profile, or an active profile with an empty folder name), provided the backup folder name
is a single path component other than the active folder name, the active slot has been
moved to the backup slot, replacing any previous backup, and the active slot no longer
exists. -/
theorem renameActiveToIdle_spec (env : Env) (w : World)
    (_himages : isPathComponent w.config.images_folder_name = true) :
    (FolderExists w.disk w.config.images_folder_name = false →
      RenameActiveToIdle env w = (true, w)) ∧
    ((RenameActiveToIdle env w).1 = true →
      FolderExists w.disk w.config.images_folder_name = true →
      (RenameActiveToIdle env w).2.config = w.config ∧
      (RenameActiveToIdle env w).2.file = w.file ∧
      (∀ active, w.config.active_profile_id ≠ [] →
        profileAt w.config w.config.active_profile_id = some active →
        active.folder_name ≠ [] →
        isPathComponent active.folder_name = true →
        SlotMovedTo w.disk (RenameActiveToIdle env w).2.disk
          w.config.images_folder_name active.folder_name) ∧
      ((w.config.active_profile_id = [] ∨
          profileAt w.config w.config.active_profile_id = none ∨
          ∃ active, profileAt w.config w.config.active_profile_id = some active ∧
            active.folder_name = []) →
        isPathComponent w.config.backup_profile_folder = true →
        w.config.images_folder_name ≠ w.config.backup_profile_folder →
        SlotMovedTo w.disk (RenameActiveToIdle env w).2.disk
          w.config.images_folder_name w.config.backup_profile_folder)) := by
  constructor
  · intro hno
    unfold RenameActiveToIdle
    simp [hno]
  · intro hok hslot
    obtain ⟨hc, hf, _, hmove⟩ := renameActiveToIdle_ok hok
    obtain ⟨_, hmove⟩ := hmove hslot
    refine ⟨hc, hf, ?_, ?_⟩
    · intro active ha hp hfn _
      have hd : displacedTo w.config = active.folder_name := by
        unfold displacedTo
        rw [if_pos ha, hp]
        exact if_pos hfn
      have hne : w.config.images_folder_name ≠ active.folder_name := by
        intro hsame
        have hfail := renameToFolder_same_fails env w active hslot hsame
        have hrun : RenameActiveToIdle env w = renameToFolder env w active := by
          unfold RenameActiveToIdle
          simp only [hslot, Bool.not_true, Bool.false_eq_true, if_false, if_pos ha, hp,
            if_pos hfn]
        rw [hrun, hfail] at hok
        exact absurd hok (by simp)
      rw [← hd] at hne ⊢
      exact hmove hne
    · intro hcase _ hne
      have hd : displacedTo w.config = w.config.backup_profile_folder := by
        unfold displacedTo
        rcases hcase with h | h | ⟨active, h1, h2⟩
        · simp [h]
        · by_cases ha : w.config.active_profile_id ≠ []
          · rw [if_pos ha, h]
          · rw [if_neg ha]
        · by_cases ha : w.config.active_profile_id ≠ []
          · rw [if_pos ha, h1]
            simp [h2]
          · rw [if_neg ha]
      rw [← hd] at hne ⊢
      exact hmove hne

/-- Witness of C20: the sample state, whose active profile `official` is stored in
`R_NI`. -/
theorem renameActiveToIdle_spec_witness :
    isPathComponent sampleWorld.config.images_folder_name = true ∧
      isPathComponent "R_NI".toList = true ∧
      (RenameActiveToIdle permissive sampleWorld).1 = true ∧
      FolderExists sampleWorld.disk sampleWorld.config.images_folder_name = true ∧
      SlotMovedTo sampleWorld.disk (RenameActiveToIdle permissive sampleWorld).2.disk
        "images".toList "R_NI".toList :=
  ⟨by decide, by decide, by decide, by decide,
    ((renameActiveToIdle_spec permissive sampleWorld (by decide)).2 (by decide)
      (by decide)).2.2.1
      { id := officialId, display_name := officialDisplayName,
        folder_name := "R_NI".toList, is_official := true }
      (by decide) (by decide) (by decide) (by decide)⟩

/-! ## String escaping -/

theorem mem_escapeString {x : Char} {s : Str} :
    x ∈ EscapeString s ↔ ∃ c ∈ s, x ∈ escapeChar c := by
  induction s with
  | nil => simp [EscapeString]
  | cons c rest ih => simp [EscapeString, ih]

theorem escapeChar_other (c : Char) (h1 : c ≠ quoteChar) (h2 : c ≠ backslashChar)
    (h3 : c ≠ newlineChar) (h4 : c ≠ carriageReturnChar) (h5 : c ≠ tabChar) :
    escapeChar c = [c] := by
  simp [escapeChar, h1, h2, h3, h4, h5]

theorem escapeChar_no_control (c x : Char) (hx : x ∈ escapeChar c)
    (hc : x = newlineChar ∨ x = carriageReturnChar ∨ x = tabChar) : False := by
  unfold escapeChar at hx
  split at hx
  · rcases hc with h | h | h <;> subst h <;> revert hx <;> decide
  · split at hx
    · rcases hc with h | h | h <;> subst h <;> revert hx <;> decide
    · split at hx
      · rcases hc with h | h | h <;> subst h <;> revert hx <;> decide
      · split at hx
        · rcases hc with h | h | h <;> subst h <;> revert hx <;> decide
        · split at hx
          · rcases hc with h | h | h <;> subst h <;> revert hx <;> decide
          · rw [List.mem_singleton] at hx
            subst hx
            rcases hc with h | h | h <;> contradiction

/-- C19 fails for backspace and form feed: `EscapeString` has a case for quote,
backslash, newline, carriage return and tab only. Each of these five is written as a
backslash followed by `"`, `\`, `n`, `r`, `t`, and no newline, carriage return or tab
is ever left in the output; every other character, backspace and form feed included, is
copied as it is, so a string value holding a backspace or a form feed is serialized with
that character unescaped between the delimiting quotes. -/
theorem serialize_control_characters :
    (escapeChar quoteChar = [backslashChar, quoteChar] ∧
      escapeChar backslashChar = [backslashChar, backslashChar] ∧
      escapeChar newlineChar = [backslashChar, 'n'] ∧
      escapeChar carriageReturnChar = [backslashChar, 'r'] ∧
      escapeChar tabChar = [backslashChar, 't']) ∧
    (∀ s, newlineChar ∉ EscapeString s ∧ carriageReturnChar ∉ EscapeString s ∧
      tabChar ∉ EscapeString s) ∧
    (∀ s, backspaceChar ∈ s → backspaceChar ∈ EscapeString s) ∧
    (∀ s, formFeedChar ∈ s → formFeedChar ∈ EscapeString s) ∧
    SerializeString [backspaceChar, 'a', formFeedChar]
      = [quoteChar, backspaceChar, 'a', formFeedChar, quoteChar] := by
  refine ⟨by decide, ?_, ?_, ?_, by decide⟩
  · intro s
    refine ⟨?_, ?_, ?_⟩ <;> intro h <;> obtain ⟨c, _, hc⟩ := mem_escapeString.1 h
    · exact escapeChar_no_control c _ hc (Or.inl rfl)
    · exact escapeChar_no_control c _ hc (Or.inr (Or.inl rfl))
    · exact escapeChar_no_control c _ hc (Or.inr (Or.inr rfl))
  · intro s hs
    exact mem_escapeString.2 ⟨_, hs, by decide⟩
  · intro s hs
    exact mem_escapeString.2 ⟨_, hs, by decide⟩

/-! ## The string round trip -/

theorem parseStringLoop_quote (rest out : Str) :
    parseStringLoop (quoteChar :: rest) out = some (out, rest) := by
  rw [parseStringLoop.eq_def]
  simp only [if_true]

theorem parseStringLoop_plain (c : Char) (rest out : Str) (h1 : c ≠ quoteChar)
    (h2 : c ≠ backslashChar) :
    parseStringLoop (c :: rest) out = parseStringLoop rest (out ++ [c]) := by
  rw [parseStringLoop.eq_def]
  simp only [if_neg h1, if_neg h2]

/-- The loop of `ParseString` on a backslash followed by a double quote, a backslash or a
slash: the character after the backslash is appended. -/
theorem parseStringLoop_literal (esc : Char) (rest out : Str)
    (h : esc = quoteChar ∨ esc = backslashChar ∨ esc = '/') :
    parseStringLoop (backslashChar :: esc :: rest) out
      = parseStringLoop rest (out ++ [esc]) := by
  rw [parseStringLoop.eq_def]
  have h1 : backslashChar ≠ quoteChar := by decide
  simp only [if_neg h1, if_true, if_pos h]

theorem parseStringLoop_newline (rest out : Str) :
    parseStringLoop (backslashChar :: 'n' :: rest) out
      = parseStringLoop rest (out ++ [newlineChar]) := by
  rw [parseStringLoop.eq_def]
  have h1 : backslashChar ≠ quoteChar := by decide
  have h2 : ¬ ('n' = quoteChar ∨ 'n' = backslashChar ∨ 'n' = '/') := by decide
  have h3 : 'n' ≠ 'b' := by decide
  have h4 : 'n' ≠ 'f' := by decide
  simp only [if_neg h1, if_true, if_neg h2, if_neg h3, if_neg h4]

theorem parseStringLoop_carriageReturn (rest out : Str) :
    parseStringLoop (backslashChar :: 'r' :: rest) out
      = parseStringLoop rest (out ++ [carriageReturnChar]) := by
  rw [parseStringLoop.eq_def]
  have h1 : backslashChar ≠ quoteChar := by decide
  have h2 : ¬ ('r' = quoteChar ∨ 'r' = backslashChar ∨ 'r' = '/') := by decide
  have h3 : 'r' ≠ 'b' := by decide
  have h4 : 'r' ≠ 'f' := by decide
  have h5 : 'r' ≠ 'n' := by decide
  simp only [if_neg h1, if_true, if_neg h2, if_neg h3, if_neg h4, if_neg h5]

theorem parseStringLoop_tab (rest out : Str) :
    parseStringLoop (backslashChar :: 't' :: rest) out
      = parseStringLoop rest (out ++ [tabChar]) := by
  rw [parseStringLoop.eq_def]
  have h1 : backslashChar ≠ quoteChar := by decide
  have h2 : ¬ ('t' = quoteChar ∨ 't' = backslashChar ∨ 't' = '/') := by decide
  have h3 : 't' ≠ 'b' := by decide
  have h4 : 't' ≠ 'f' := by decide
  have h5 : 't' ≠ 'n' := by decide
  have h6 : 't' ≠ 'r' := by decide
  simp only [if_neg h1, if_true, if_neg h2, if_neg h3, if_neg h4, if_neg h5, if_neg h6]

/-- The loop of `ParseString` on the escape sequence `EscapeString` writes for `c`: it
appends `c` to `out`. -/
theorem parseStringLoop_escapeChar (c : Char) (rest out : Str) :
    parseStringLoop (escapeChar c ++ rest) out = parseStringLoop rest (out ++ [c]) := by
  unfold escapeChar
  by_cases h1 : c = quoteChar
  · subst h1
    rw [if_pos rfl]
    exact parseStringLoop_literal quoteChar rest out (Or.inl rfl)
  · rw [if_neg h1]
    by_cases h2 : c = backslashChar
    · subst h2
      rw [if_pos rfl]
      exact parseStringLoop_literal backslashChar rest out (Or.inr (Or.inl rfl))
    · rw [if_neg h2]
      by_cases h3 : c = newlineChar
      · subst h3
        rw [if_pos rfl]
        exact parseStringLoop_newline rest out
      · rw [if_neg h3]
        by_cases h4 : c = carriageReturnChar
        · subst h4
          rw [if_pos rfl]
          exact parseStringLoop_carriageReturn rest out
        · rw [if_neg h4]
          by_cases h5 : c = tabChar
          · subst h5
            rw [if_pos rfl]
            exact parseStringLoop_tab rest out
          · rw [if_neg h5]
            exact parseStringLoop_plain c rest out h1 h2

theorem match_none (t c : Char) (ts rest : Str) (h : c ≠ t) :
    Match (t :: ts) (c :: rest) = none := by
  unfold Match
  rw [if_neg]
  intro e
  simp only [List.length_cons, List.take_succ_cons, List.cons.injEq] at e
  exact h e.1

/-- The loop of `ParseString` on an escaped string followed by the closing quote: it
appends the string to `out` and stops right after the quote. -/
theorem parseStringLoop_escapeString (s rest out : Str) :
    parseStringLoop (EscapeString s ++ quoteChar :: rest) out = some (out ++ s, rest) := by
  induction s generalizing out with
  | nil =>
    simp only [EscapeString, List.nil_append, List.append_nil]
    exact parseStringLoop_quote rest out
  | cons c s ih =>
    simp only [EscapeString, List.append_assoc]
    rw [parseStringLoop_escapeChar, ih]
    simp

theorem parseString_serializeString (s rest : Str) :
    ParseString (SerializeString s ++ rest) = some (s, rest) := by
  have htext : SerializeString s ++ rest
      = quoteChar :: (EscapeString s ++ quoteChar :: rest) := by
    simp [SerializeString]
  rw [htext]
  unfold ParseString Expect
  simp only [Peek, ne_eq, not_true_eq_false, if_false, List.drop_one, List.tail_cons]
  rw [parseStringLoop_escapeString]
  rfl

theorem foldl_loadProfileStep (ps : List Profile) (cfg : AppConfig) :
    (ps.map ProfileToJson).foldl loadProfileStep cfg
      = { cfg with profiles := cfg.profiles ++ ps.filter (fun p => p.id ≠ []) } := by
  induction ps generalizing cfg with
  | nil => simp
  | cons p rest ih =>
    rw [List.map_cons, List.foldl_cons]
    have hstep : loadProfileStep cfg (ProfileToJson p)
        = if p.id ≠ [] then { cfg with profiles := cfg.profiles ++ [p] } else cfg := rfl
    rw [hstep]
    by_cases hid : p.id ≠ []
    · rw [if_pos hid, ih, List.filter_cons]
      simp [hid]
    · rw [if_neg hid, ih, List.filter_cons]
      simp [hid]

/-- The profiles `Load` reads from the document `Save` wrote: the profiles of the saved
configuration that have a non-empty id, field by field as they were. -/
theorem persistedProfiles_save (env : Env) (config : AppConfig) :
    persistedProfiles env (.text (some (ConfigToJson config)))
      = config.profiles.filter (fun p => p.id ≠ []) := by
  have hread : persistedProfiles env (.text (some (ConfigToJson config)))
      = ((config.profiles.map ProfileToJson).foldl loadProfileStep
          { schema_version := config.schema_version
            uhd_dir := config.uhd_dir
            images_folder_name := config.images_folder_name
            idle_profile_prefix := config.idle_profile_prefix
            official_profile_folder := config.official_profile_folder
            backup_profile_folder := config.backup_profile_folder
            active_profile_id := config.active_profile_id
            profiles := [] }).profiles := rfl
  rw [hread, foldl_loadProfileStep]
  simp

/-! ## Folder names as path components -/

theorem isPathComponent_iff (name : Str) :
    isPathComponent name = true ↔
      name ≠ [] ∧ name ≠ ".".toList ∧ name ≠ "..".toList ∧ ∀ c ∈ name, isNameChar c = true := by
  unfold isPathComponent
  simp only [Bool.and_eq_true, bne_iff_ne, ne_eq, List.all_eq_true]
  tauto

theorem isPathComponent_ne_nil {name : Str} (h : isPathComponent name = true) : name ≠ [] :=
  ((isPathComponent_iff name).1 h).1

/-- The characters `Slugify` writes and the digits: alphanumeric or an underscore. -/
theorem slugChar_isNameChar (c : Char) (h : isalnum c = true ∨ c = '_') :
    isNameChar c = true ∧ c ≠ '.' := by
  have hne : ∀ x : Char, isalnum x = false → x ≠ '_' → c ≠ x := by
    intro x hx hu e
    rcases h with h | h
    · rw [e, hx] at h
      exact absurd h (by simp)
    · exact hu (e ▸ h)
  refine ⟨?_, hne '.' (by decide) (by decide)⟩
  unfold isNameChar
  simp only [Bool.and_eq_true, bne_iff_ne, ne_eq]
  exact ⟨⟨hne '/' (by decide) (by decide), hne (Char.ofNat 92) (by decide) (by decide)⟩,
    hne (Char.ofNat 0) (by decide) (by decide)⟩

theorem isalnum_tolower (c : Char) (h : isalnum c = true) : isalnum (tolower c) = true := by
  unfold tolower Char.toLower
  by_cases hu : c.toNat ≥ 65 ∧ c.toNat ≤ 90
  · simp only [hu, and_self, if_true]
    obtain ⟨h1, h2⟩ := hu
    generalize c.toNat = n at h1 h2
    interval_cases n <;> decide
  · simp only [hu, if_false]
    exact h

theorem collapseRuns_chars (inRun : Bool) (l : Str) :
    ∀ c ∈ collapseRuns inRun l, isalnum c = true ∨ c = '_' := by
  induction l generalizing inRun with
  | nil => intro c hc; simp [collapseRuns] at hc
  | cons x rest ih =>
    intro c hc
    simp only [collapseRuns] at hc
    by_cases ha : isalnum x = true
    · simp only [ha, if_true, List.mem_cons] at hc
      rcases hc with hc | hc
      · left; rw [hc]; exact isalnum_tolower x ha
      · exact ih false c hc
    · by_cases hs : isSeparator x = true
      · simp only [ha, hs, if_true, Bool.false_eq_true, if_false] at hc
        cases inRun with
        | true =>
          simp only [if_true] at hc
          exact ih true c hc
        | false =>
          simp only [Bool.false_eq_true, if_false, List.mem_cons] at hc
          rcases hc with hc | hc
          · exact Or.inr hc
          · exact ih true c hc
      · simp only [ha, hs, Bool.false_eq_true, if_false] at hc
        exact ih inRun c hc

theorem candidateBase_chars (display_name : Str) :
    ∀ c ∈ candidateBase display_name, isalnum c = true ∨ c = '_' := by
  intro c hc
  unfold candidateBase at hc
  by_cases he : Slugify display_name = []
  · rw [if_pos he] at hc
    revert c
    decide
  · rw [if_neg he, slugify_eq] at hc
    unfold trimUnderscore at hc
    split at hc
    · exact collapseRuns_chars true display_name c (List.mem_of_mem_dropLast hc)
    · exact collapseRuns_chars true display_name c hc

theorem toDigitsCore_chars (fuel : Nat) :
    ∀ (n : Nat) (ds : List Char), (∀ c ∈ ds, isalnum c = true ∨ c = '_') →
      ∀ c ∈ Nat.toDigitsCore 10 fuel n ds, isalnum c = true ∨ c = '_' := by
  induction fuel with
  | zero => intro n ds hds c hc; exact hds c (by simpa [Nat.toDigitsCore] using hc)
  | succ fuel ih =>
    intro n ds hds c hc
    have hd : isalnum (Nat.digitChar (n % 10)) = true := by
      have hlt : n % 10 < 10 := Nat.mod_lt _ (by decide)
      generalize n % 10 = m at hlt
      interval_cases m <;> decide
    have hds2 : ∀ c ∈ Nat.digitChar (n % 10) :: ds, isalnum c = true ∨ c = '_' := by
      intro x hx
      rcases List.mem_cons.1 hx with hx | hx
      · left; rw [hx]; exact hd
      · exact hds x hx
    simp only [Nat.toDigitsCore] at hc
    split at hc
    · exact hds2 c hc
    · exact ih _ _ hds2 c hc

theorem suffixed_chars (base : Str) (i : Nat)
    (hb : ∀ c ∈ base, isalnum c = true ∨ c = '_') :
    ∀ c ∈ suffixed base i, isalnum c = true ∨ c = '_' := by
  intro c hc
  unfold suffixed to_string Nat.toDigits at hc
  rcases List.mem_append.1 hc with hc | hc
  · rcases List.mem_append.1 hc with hc | hc
    · exact hb c hc
    · right
      simpa using hc
  · exact toDigitsCore_chars _ _ [] (fun _ h => by simp at h) c hc

theorem generateLoop_chars (existing : List Str) (base : Str) (n i : Nat)
    (hb : ∀ c ∈ base, isalnum c = true ∨ c = '_') :
    ∀ c ∈ generateLoop existing base i n, isalnum c = true ∨ c = '_' := by
  induction n generalizing i with
  | zero =>
    intro c hc
    simp only [generateLoop] at hc
    rcases List.mem_append.1 hc with hc | hc
    · exact hb c hc
    · have hx : ∀ x ∈ "_x".toList, isalnum x = true ∨ x = '_' := by decide
      exact hx c hc
  | succ n ih =>
    intro c hc
    simp only [generateLoop] at hc
    split at hc
    · exact suffixed_chars base i hb c hc
    · exact ih (i + 1) c hc

/-- The id `GenerateProfileId` returns is made of alphanumeric characters and
underscores. -/
theorem generateProfileId_chars (config : AppConfig) (display_name : Str) :
    ∀ c ∈ GenerateProfileId config display_name, isalnum c = true ∨ c = '_' := by
  intro c hc
  unfold GenerateProfileId at hc
  dsimp only at hc
  split at hc
  · exact candidateBase_chars display_name c hc
  · exact generateLoop_chars _ _ _ _ (candidateBase_chars display_name) c hc

/-- The folder name `AddProfileFromActive` gives a new profile is a single path component
when the idle prefix is made of file name characters. -/
theorem generated_folder_component (config : AppConfig) (display_name : Str)
    (hpre : config.idle_profile_prefix.all isNameChar = true) :
    isPathComponent (config.idle_profile_prefix ++ GenerateProfileId config display_name)
      = true := by
  have hne := generateProfileId_ne_nil config display_name
  have hch := generateProfileId_chars config display_name
  have hlast : ∃ c, (config.idle_profile_prefix
      ++ GenerateProfileId config display_name).getLast? = some c ∧ c ≠ '.' := by
    rw [List.getLast?_append_of_ne_nil _ hne]
    cases hl : (GenerateProfileId config display_name).getLast? with
    | none => exact absurd (List.getLast?_eq_none_iff.1 hl) hne
    | some c =>
      exact ⟨c, rfl, (slugChar_isNameChar c (hch c (List.mem_of_getLast?_eq_some hl))).2⟩
  obtain ⟨c, hc, hdot⟩ := hlast
  rw [isPathComponent_iff]
  refine ⟨?_, ?_, ?_, ?_⟩
  · intro e
    rw [e] at hc
    simp at hc
  · intro e
    rw [e] at hc
    exact hdot (by simpa using hc.symm)
  · intro e
    rw [e] at hc
    exact hdot (by simpa using hc.symm)
  · intro x hx
    rcases List.mem_append.1 hx with hx | hx
    · exact List.all_eq_true.1 hpre x hx
    · exact (slugChar_isNameChar x (hch x hx)).1

/-! ## The official folder in reachable states -/

theorem generateLoop_cases (existing : List Str) (base : Str) (n i : Nat) :
    generateLoop existing base i n ∉ existing ∨
      generateLoop existing base i n = base ++ "_x".toList := by
  induction n generalizing i with
  | zero => right; rfl
  | succ n ih =>
    simp only [generateLoop]
    by_cases hc : suffixed base i ∈ existing
    · simp only [hc, not_true_eq_false, if_false]
      exact ih (i + 1)
    · left
      simp only [hc, not_false_eq_true, if_true]

/-- The id `GenerateProfileId` returns is not `"official"` when the catalog has a profile
with that id. -/
theorem generateProfileId_ne_official (config : AppConfig) (display_name : Str)
    (h : officialId ∈ config.profiles.map Profile.id) :
    GenerateProfileId config display_name ≠ officialId := by
  unfold GenerateProfileId
  by_cases hb : candidateBase display_name ∈ config.profiles.map Profile.id
  · simp only [hb, not_true_eq_false, if_false]
    rcases generateLoop_cases (config.profiles.map Profile.id) (candidateBase display_name)
      9998 2 with hfresh | hfall
    · intro e
      rw [e] at hfresh
      exact hfresh h
    · rw [hfall]
      intro e
      have hlast := congrArg List.getLast? e
      rw [List.getLast?_append] at hlast
      have hx : ("_x".toList.getLast?.or (candidateBase display_name).getLast?)
          = some 'x' := rfl
      rw [hx] at hlast
      exact absurd hlast (by decide)
  · simp only [hb, not_false_eq_true, if_true]
    intro e
    rw [e] at hb
    exact hb h

theorem fillDefaults_folder_of_ne (config : AppConfig) (p : Profile)
    (h : p.folder_name ≠ []) : (fillDefaults config p).folder_name = p.folder_name := by
  rw [fillDefaults_eq_withDefaults]
  unfold withDefaults
  simp only [if_neg h]

/-- An entry normalization keeps for an id that occurs in the first part of its input
comes from that first part. -/
theorem normalizeFrom_append_first (config : AppConfig) (l1 l2 : List Profile)
    (seen : List Str) (x : Str) (e : Profile) (he : e ∈ l1) (hx : e.id = x)
    (p : Profile) (hp : p ∈ normalizeFrom config seen (l1 ++ l2)) (hpx : p.id = x) :
    ∃ q ∈ l1, p = fillDefaults config q := by
  induction l1 generalizing seen with
  | nil => simp at he
  | cons r rest ih =>
    simp only [List.cons_append, normalizeFrom] at hp
    by_cases h1 : r.id = []
    · simp only [h1, if_true] at hp
      have hpne := (normalizeFrom_mem config _ seen p hp).1
      rcases List.mem_cons.1 he with her | her
      · subst her
        rw [hpx, ← hx, h1] at hpne
        exact absurd rfl hpne
      · obtain ⟨q, hq, e1⟩ := ih seen her hp
        exact ⟨q, List.mem_cons_of_mem _ hq, e1⟩
    · by_cases h2 : r.id ∈ seen
      · simp only [h1, h2, if_true, if_false] at hp
        have hpseen := (normalizeFrom_mem config _ seen p hp).2.1
        rcases List.mem_cons.1 he with her | her
        · subst her
          rw [hpx, ← hx] at hpseen
          exact absurd h2 hpseen
        · obtain ⟨q, hq, e1⟩ := ih seen her hp
          exact ⟨q, List.mem_cons_of_mem _ hq, e1⟩
      · simp only [h1, h2, if_false] at hp
        rcases List.mem_cons.1 hp with hhead | htail
        · exact ⟨r, List.mem_cons_self _ _, hhead⟩
        · have hpseen := (normalizeFrom_mem config _ _ p htail).2.1
          rcases List.mem_cons.1 he with her | her
          · subst her
            rw [hpx, ← hx] at hpseen
            exact absurd (List.mem_cons_self _ _) hpseen
          · obtain ⟨q, hq, e1⟩ := ih _ her htail
            exact ⟨q, List.mem_cons_of_mem _ hq, e1⟩

/-- The effect of a successful `DeleteProfile`: one profile that is not flagged official
leaves the catalog, and no directory other than its folder changes. -/
theorem deleteProfile_ok {env : Env} {w : World} {profile_id : Str}
    (h : (DeleteProfile env w profile_id).1 = true) :
    ∃ pre p post, w.config.profiles = pre ++ p :: post ∧ p.id = profile_id ∧
      p.is_official = false ∧
      (DeleteProfile env w profile_id).2.config
        = { w.config with profiles := pre ++ post } ∧
      ∀ k, k ≠ p.folder_name →
        (DeleteProfile env w profile_id).2.disk.node k = w.disk.node k := by
  unfold DeleteProfile at h ⊢
  by_cases h1 : profile_id = []
  · simp [h1] at h
  · by_cases h2 : profile_id = w.config.active_profile_id
    · simp [h1, h2] at h
    · simp only [h1, h2, if_false] at h ⊢
      cases hf : findIndexById w.config.profiles profile_id with
      | none => simp [hf] at h
      | some i =>
        obtain ⟨pre, p, post, e1, e2, e3, _⟩ := findIndexById_some hf
        have hget : w.config.profiles.get? i = some p := by
          rw [e1, ← e2]; exact get?_append_cons _ _ _
        simp only [hf, hget] at h ⊢
        by_cases ho : p.is_official = true
        · simp [ho] at h
        · simp only [ho, Bool.false_eq_true, if_false] at h ⊢
          have herase : w.config.profiles.eraseIdx i = pre ++ post := by
            rw [e1, ← e2]
            exact eraseIdx_append_cons pre post p
          have hnode : ∀ k, k ≠ p.folder_name →
              (if FolderExists w.disk p.folder_name = true then
                FileUtil.RemoveAll env w.disk p.folder_name
              else (true, w.disk)).2.node k = w.disk.node k := by
            intro k hk
            split
            · rcases removeAll_node env w.disk p.folder_name k with h3 | ⟨_, h3, _⟩
              · exact h3
              · exact absurd h3 hk
            · rfl
          generalize (if FolderExists w.disk p.folder_name = true then
            FileUtil.RemoveAll env w.disk p.folder_name else (true, w.disk)) = removed
            at h hnode ⊢
          by_cases hr : removed.1 = true
          · refine ⟨pre, p, post, e1, e3, by simpa using ho, ?_, ?_⟩
            · simp only [hr, Bool.not_true, Bool.false_eq_true, if_false, save_config, herase]
            · intro k hk
              simp only [hr, Bool.not_true, Bool.false_eq_true, if_false, save_disk]
              exact hnode k hk
          · simp [hr] at h

/-- A successful directory part of `RefreshFromDisk` removes no directory, and it leaves
the official folder in place when the active slot exists. -/
theorem refreshDisk_ok {env : Env} {w : World} (h : (refreshDisk env w).1 = true) :
    (∀ k, FolderExists w.disk k = true → FolderExists (refreshDisk env w).2 k = true) ∧
      (FolderExists w.disk w.config.images_folder_name = true →
        FolderExists (refreshDisk env w).2 w.config.official_profile_folder = true) := by
  unfold refreshDisk at h ⊢
  by_cases he : (FileUtil.EnsureDir env w.disk).1 = true
  · obtain ⟨es, hes, hsame⟩ := ensureDir_ok he
    have hkeep : ∀ k, FolderExists w.disk k = true → AssetRoot.dir es = w.disk := by
      intro k hk
      obtain ⟨c, hc⟩ := (folderExists_iff _ _).1 hk
      rw [← hes]
      exact hsame k _ hc
    simp only [he, Bool.not_true, Bool.false_eq_true, if_false, hes] at h ⊢
    by_cases hc : (!FolderExists (.dir es) w.config.official_profile_folder) = true ∧
        FolderExists (.dir es) w.config.images_folder_name = true
    · simp only [if_pos hc] at h ⊢
      obtain ⟨node, result, hn, hr, hres⟩ := copyDir_ok h
      obtain ⟨ci, hci⟩ := (folderExists_iff _ _).1 hc.2
      rw [hci] at hn
      have hnode : node = .dir ci := by
        cases hn
        rfl
      subst hnode
      have hoff : ∀ c, (AssetRoot.dir es).node w.config.official_profile_folder
          ≠ some (.dir c) := by
        intro c hcon
        have hex : FolderExists (.dir es) w.config.official_profile_folder = true :=
          (folderExists_iff _ _).2 ⟨c, hcon⟩
        rw [hex] at hc
        exact absurd hc.1 (by simp)
      have hresdir : ∃ c, result = .dir c := by
        cases hd : (AssetRoot.dir es).node w.config.official_profile_folder with
        | none =>
          rw [hd] at hr
          simp only [copyResult, Option.some.injEq] at hr
          exact ⟨ci, hr.symm⟩
        | some x =>
          cases x with
          | file b =>
            rw [hd] at hr
            simp [copyResult] at hr
          | dir c => exact absurd hd (hoff c)
      obtain ⟨cr, hcr⟩ := hresdir
      rw [hres]
      constructor
      · intro k hk
        rw [← hkeep k hk] at hk
        rw [folderExists_iff] at hk ⊢
        rw [node_withNode]
        by_cases hko : k = w.config.official_profile_folder
        · rw [if_pos hko]
          exact ⟨cr, by rw [hcr]⟩
        · rw [if_neg hko]
          exact hk
      · intro _
        rw [folderExists_iff, node_withNode, if_pos rfl]
        exact ⟨cr, by rw [hcr]⟩
    · simp only [if_neg hc] at h ⊢
      constructor
      · intro k hk
        rw [hkeep k hk]
        exact hk
      · intro hi
        rw [← hkeep _ hi] at hi
        by_contra hno
        exact hc ⟨by simpa using hno, hi⟩
  · simp [he] at h

theorem refreshFromDisk_ok {env : Env} {w : World} (h : (RefreshFromDisk env w).1 = true) :
    (refreshDisk env w).1 = true ∧
      (RefreshFromDisk env w).2.disk = (refreshDisk env w).2 ∧
      (RefreshFromDisk env w).2.config =
        { w.config with
          profiles := normalizeFrom w.config []
            (w.config.profiles ++
              discoverFrom w.config (w.config.profiles.map Profile.folder_name)
                (FileUtil.ListDirs (refreshDisk env w).2)) } := by
  rw [refreshFromDisk_eq] at h ⊢
  by_cases hd : (refreshDisk env w).1 = true
  · simp only [if_pos hd] at h ⊢
    refine ⟨hd, by rw [save_disk], ?_⟩
    rw [save_config, normalizeProfiles_eq]
    simp only [normalizeFrom_config]
  · rw [if_neg hd] at h
    exact absurd h (by simp)

theorem officialEntry_of_invariant {cfg : AppConfig} (h : CatalogInvariant cfg) :
    OfficialEntry cfg := by
  obtain ⟨e, he, e1, _, _⟩ := catalogInvariant_official h
  exact ⟨⟨e, he, e1⟩, h.2.2.2⟩

theorem officialEntry_profileAt {cfg : AppConfig} (h : OfficialEntry cfg) :
    ∃ e, profileAt cfg officialId = some e ∧
      e.folder_name = cfg.official_profile_folder := by
  obtain ⟨⟨e, he, e1⟩, hall⟩ := h
  obtain ⟨p, hp⟩ := profileAt_of_mem he e1
  obtain ⟨hmem, hid⟩ := profileAt_some hp
  exact ⟨p, hp, (hall p hmem hid).2⟩

/-- The part of `IdleLayout` that keeps the official folder and the active slot apart
from the folders of the other profiles. -/
theorem idleLayout_apart {cfg : AppConfig} (h : IdleLayout cfg) :
    cfg.official_profile_folder ≠ [] ∧
      cfg.idle_profile_prefix.isPrefixOf cfg.official_profile_folder = false ∧
      cfg.idle_profile_prefix.isPrefixOf cfg.images_folder_name = false ∧
      cfg.images_folder_name ≠ cfg.official_profile_folder ∧
      ∀ p ∈ cfg.profiles, p.id ≠ officialId →
        cfg.idle_profile_prefix.isPrefixOf p.folder_name = true := by
  obtain ⟨hOc, _, _, _, hPO, hPI, hIO, _, hprof⟩ := h
  exact ⟨isPathComponent_ne_nil hOc, hPO, hPI, hIO, fun p hp hid => (hprof p hp hid).1⟩

theorem idleLayout_prefix_ne {cfg : AppConfig} (h : IdleLayout cfg) :
    cfg.idle_profile_prefix ≠ [] := by
  intro hnil
  have := (idleLayout_apart h).2.1
  rw [hnil] at this
  simp at this

/-- Under `IdleLayout` every profile of the catalog is stored in a folder whose name is a
single path component. -/
theorem profile_folder_component {cfg : AppConfig} (hE : OfficialEntry cfg)
    (hL : IdleLayout cfg) : ∀ p ∈ cfg.profiles, isPathComponent p.folder_name = true := by
  intro p hp
  by_cases hid : p.id = officialId
  · rw [(hE.2 p hp hid).2]
    exact hL.1
  · exact (hL.2.2.2.2.2.2.2.2 p hp hid).2

theorem displacedTo_component {cfg : AppConfig} (hE : OfficialEntry cfg)
    (hL : IdleLayout cfg) : isPathComponent (displacedTo cfg) = true := by
  unfold displacedTo
  by_cases ha : cfg.active_profile_id ≠ []
  · rw [if_pos ha]
    cases hp : profileAt cfg cfg.active_profile_id with
    | none => exact hL.2.2.1
    | some active =>
      simp only
      by_cases hf : active.folder_name ≠ []
      · rw [if_pos hf]
        exact profile_folder_component hE hL active (profileAt_some hp).1
      · rw [if_neg hf]
        exact hL.2.2.1
  · rw [if_neg ha]
    exact hL.2.2.1

/-! ### Names of the children of the asset root -/

theorem plainDisk_without (disk : AssetRoot) (name : Str) (h : PlainDisk disk) :
    PlainDisk (disk.without name) := by
  cases disk with
  | missing => exact h
  | notDir => exact h
  | dir es =>
    intro e he
    simp only [AssetRoot.without, AssetRoot.entries] at he
    exact h e (List.mem_filter.1 he).1

theorem plainDisk_withNode (disk : AssetRoot) (name : Str) (x : Node) (h : PlainDisk disk)
    (hn : isPathComponent name = true) : PlainDisk (disk.withNode name x) := by
  cases disk with
  | missing => exact h
  | notDir => exact h
  | dir es =>
    intro e he
    simp only [AssetRoot.withNode, AssetRoot.entries] at he
    rcases List.mem_append.1 he with he | he
    · exact h e (List.mem_filter.1 he).1
    · rw [List.mem_singleton.1 he]
      exact hn

theorem plainDisk_ensureDir (env : Env) (disk : AssetRoot) (h : PlainDisk disk) :
    PlainDisk (FileUtil.EnsureDir env disk).2 := by
  rcases ensureDir_result env disk with e | ⟨_, _, e⟩
  · rw [e]; exact h
  · rw [e]
    intro x hx
    simp [AssetRoot.entries] at hx

theorem plainDisk_removeAll (env : Env) (disk : AssetRoot) (name : Str)
    (h : PlainDisk disk) : PlainDisk (FileUtil.RemoveAll env disk name).2 := by
  unfold FileUtil.RemoveAll
  split
  · exact h
  · split
    · exact plainDisk_without disk name h
    · exact h

theorem plainDisk_rename (env : Env) (disk : AssetRoot) (src dst : Str)
    (h : PlainDisk disk) (hd : isPathComponent dst = true) :
    PlainDisk (FileUtil.Rename env disk src dst).2 := by
  unfold FileUtil.Rename
  split
  · exact h
  · split
    · exact h
    · split
      · exact plainDisk_withNode _ dst _ (plainDisk_without disk src h) hd
      · exact h

theorem plainDisk_copyDir (env : Env) (disk : AssetRoot) (src dst : Str)
    (h : PlainDisk disk) (hd : isPathComponent dst = true) :
    PlainDisk (FileUtil.CopyDir env disk src dst).2 := by
  unfold FileUtil.CopyDir
  split
  · exact h
  · split
    · exact h
    · split
      · exact h
      · split
        · exact plainDisk_withNode disk dst _ h hd
        · exact h

theorem plainDisk_renameToBackup (env : Env) (w : World) (h : PlainDisk w.disk)
    (hd : isPathComponent w.config.backup_profile_folder = true) :
    PlainDisk (renameToBackup env w).2.disk := by
  unfold renameToBackup
  dsimp only
  split
  · exact plainDisk_rename _ _ _ _ (plainDisk_removeAll _ _ _ h) hd
  · exact plainDisk_rename _ _ _ _ h hd

theorem plainDisk_renameToFolder (env : Env) (w : World) (active : Profile)
    (h : PlainDisk w.disk) (hd : isPathComponent active.folder_name = true) :
    PlainDisk (renameToFolder env w active).2.disk := by
  unfold renameToFolder
  dsimp only
  split
  · split
    · exact plainDisk_removeAll _ _ _ h
    · exact plainDisk_rename _ _ _ _ (plainDisk_removeAll _ _ _ h) hd
  · exact plainDisk_rename _ _ _ _ h hd

theorem plainDisk_renameActiveToIdle (env : Env) (w : World) (hE : OfficialEntry w.config)
    (hL : IdleLayout w.config) (h : PlainDisk w.disk) :
    PlainDisk (RenameActiveToIdle env w).2.disk := by
  unfold RenameActiveToIdle
  dsimp only
  split
  · exact h
  · split
    · split
      · rename_i active hp
        split
        · exact plainDisk_renameToFolder env w active h
            (profile_folder_component hE hL active (profileAt_some hp).1)
        · exact plainDisk_renameToBackup env w h hL.2.2.1
      · exact plainDisk_renameToBackup env w h hL.2.2.1
    · exact plainDisk_renameToBackup env w h hL.2.2.1

theorem plainDisk_refreshDisk (env : Env) (w : World) (h : PlainDisk w.disk)
    (ho : isPathComponent w.config.official_profile_folder = true) :
    PlainDisk (refreshDisk env w).2 := by
  unfold refreshDisk
  dsimp only
  split
  · exact plainDisk_ensureDir env _ h
  · split
    · exact plainDisk_copyDir _ _ _ _ (plainDisk_ensureDir env _ h) ho
    · exact plainDisk_ensureDir env _ h

theorem plainDisk_deleteProfile (env : Env) (w : World) (profile_id : Str)
    (h : PlainDisk w.disk) : PlainDisk (DeleteProfile env w profile_id).2.disk := by
  unfold DeleteProfile
  dsimp only
  repeat' split
  all_goals first
    | exact h
    | exact plainDisk_removeAll _ _ _ h
    | (rw [save_disk]; first | exact h | exact plainDisk_removeAll _ _ _ h)

theorem listDirs_mem {disk : AssetRoot} {name : Str} (h : name ∈ FileUtil.ListDirs disk) :
    ∃ e ∈ disk.entries, e.1 = name := by
  unfold FileUtil.ListDirs at h
  obtain ⟨e, he, hname⟩ := List.mem_filterMap.1 h
  refine ⟨e, he, ?_⟩
  cases hx : e.2 with
  | file b => rw [hx] at hname; simp at hname
  | dir c => rw [hx] at hname; simpa using hname

theorem idleLayout_folder {cfg : AppConfig} (h : IdleLayout cfg) {name : Str}
    (hp : cfg.idle_profile_prefix.isPrefixOf name = true) :
    name ≠ [] ∧ name ≠ cfg.official_profile_folder ∧ name ≠ cfg.images_folder_name := by
  refine ⟨?_, ?_, ?_⟩
  · intro hnil
    rw [hnil] at hp
    have hne := idleLayout_prefix_ne h
    cases hpre : cfg.idle_profile_prefix with
    | nil => exact hne hpre
    | cons a b => rw [hpre] at hp; simp at hp
  · intro e
    rw [e, (idleLayout_apart h).2.1] at hp
    exact absurd hp (by simp)
  · intro e
    rw [e, (idleLayout_apart h).2.2.1] at hp
    exact absurd hp (by simp)

theorem world_disk_eq {w : World} {d : AssetRoot} (h : d = w.disk) :
    ({ w with disk := d } : World) = w := by
  subst h
  rfl

theorem officialAvailable_node {w : World} (h : OfficialAvailable w) :
    ∃ k x, w.disk.node k = some x := by
  rcases h with h | ⟨_, h⟩
  · obtain ⟨c, hc⟩ := (folderExists_iff _ _).1 h
    exact ⟨_, _, hc⟩
  · obtain ⟨c, hc⟩ := (folderExists_iff _ _).1 h
    exact ⟨_, _, hc⟩

/-- After the displacement of the active slot the official folder exists, when it existed
before or the official profile was the active one and the active slot existed. -/
theorem displaced_official {env : Env} {w : World} (hE : OfficialEntry w.config)
    (hL : IdleLayout w.config) (hJ : OfficialAvailable w)
    (h : (RenameActiveToIdle env w).1 = true) :
    FolderExists (RenameActiveToIdle env w).2.disk w.config.official_profile_folder
      = true := by
  rcases hJ with hO | ⟨hact, hi⟩
  · exact displaced_target_isDir h hO (Ne.symm (idleLayout_apart hL).2.2.2.1)
  · obtain ⟨_, _, _, hyes⟩ := renameActiveToIdle_ok h
    obtain ⟨e, he, hf⟩ := officialEntry_profileAt hE
    have hd : displacedTo w.config = w.config.official_profile_folder := by
      unfold displacedTo
      have hne : w.config.active_profile_id ≠ [] := by
        rw [hact]
        decide
      rw [if_pos hne, hact, he]
      simp only
      rw [hf, if_pos (idleLayout_apart hL).1]
    obtain ⟨_, hmove⟩ := hyes hi
    have hne : w.config.images_folder_name ≠ displacedTo w.config := by
      rw [hd]
      exact (idleLayout_apart hL).2.2.2.1
    obtain ⟨_, h2, _⟩ := hmove hne
    rw [hd] at h2
    rw [folderExists_iff] at hi ⊢
    rw [h2]
    exact hi

theorem applyProfile_keeps {env : Env} {w : World} {profile_id : Str}
    (hE : OfficialEntry w.config) (hL : IdleLayout w.config) (hJ : OfficialAvailable w)
    (hD : PlainDisk w.disk)
    (h : (ApplyProfile env w profile_id).1 = true) :
    OfficialEntry (ApplyProfile env w profile_id).2.config ∧
      IdleLayout (ApplyProfile env w profile_id).2.config ∧
      OfficialAvailable (ApplyProfile env w profile_id).2 ∧
      PlainDisk (ApplyProfile env w profile_id).2.disk := by
  obtain ⟨es, target, _, hsame, hp, hcase⟩ := applyProfile_ok h
  obtain ⟨k, x, hk⟩ := officialAvailable_node hJ
  have hw : ({ w with disk := .dir es } : World) = w := world_disk_eq (hsame k x hk)
  rw [hw] at hcase
  rcases hcase with ⟨_, _, _, hres⟩ | ⟨_, hdis, hmv, hres⟩
  · rw [hres]
    exact ⟨hE, hL, hJ, hD⟩
  · rw [hres]
    refine ⟨hE, hL, ?_, plainDisk_rename _ _ _ _
      (plainDisk_renameActiveToIdle env w hE hL hD) hL.2.1⟩
    have hO := displaced_official hE hL hJ hdis
    obtain ⟨hmem, hid⟩ := profileAt_some hp
    by_cases ht : target.id = officialId
    · right
      refine ⟨ht, ?_⟩
      have hf := (hE.2 target hmem ht).2
      rw [hf] at hmv ⊢
      show FolderExists _ w.config.images_folder_name = true
      rw [folderExists_iff] at hO ⊢
      rw [rename_ok_node hmv (Ne.symm (idleLayout_apart hL).2.2.2.1), if_pos rfl]
      exact hO
    · left
      have hpre := (idleLayout_apart hL).2.2.2.2 target hmem ht
      obtain ⟨_, hfo, hfi⟩ := idleLayout_folder hL hpre
      show FolderExists _ w.config.official_profile_folder = true
      rw [folderExists_iff] at hO ⊢
      rw [rename_ok_node hmv hfi, if_neg (Ne.symm (idleLayout_apart hL).2.2.2.1),
        if_neg (Ne.symm hfo)]
      exact hO

theorem addProfile_keeps {env : Env} {w : World} {display_name : Str}
    (hE : OfficialEntry w.config) (hL : IdleLayout w.config) (hJ : OfficialAvailable w)
    (hD : PlainDisk w.disk)
    (h : (AddProfileFromActive env w display_name).1 = true) :
    OfficialEntry (AddProfileFromActive env w display_name).2.config ∧
      IdleLayout (AddProfileFromActive env w display_name).2.config ∧
      OfficialAvailable (AddProfileFromActive env w display_name).2 ∧
      PlainDisk (AddProfileFromActive env w display_name).2.disk := by
  obtain ⟨_, source, content, _, _, hsrc, _, hdisk, hcfg⟩ := addProfile_ok h
  have hcomp := generated_folder_component w.config display_name hL.2.2.2.1
  obtain ⟨es, hes⟩ := node_some_isDir hsrc
  have hpre : w.config.idle_profile_prefix.isPrefixOf
      (w.config.idle_profile_prefix ++ GenerateProfileId w.config display_name) = true := by
    rw [List.isPrefixOf_iff_prefix]
    exact List.prefix_append _ _
  obtain ⟨_, hno, hni⟩ := idleLayout_folder hL hpre
  have hnew : GenerateProfileId w.config display_name ≠ officialId := by
    apply generateProfileId_ne_official
    obtain ⟨⟨e, he, e1⟩, _⟩ := hE
    rw [← e1]
    exact List.mem_map_of_mem _ he
  have hkeep : ∀ k, k ≠ w.config.idle_profile_prefix ++ GenerateProfileId w.config display_name →
      FolderExists w.disk k = true →
      FolderExists (AddProfileFromActive env w display_name).2.disk k = true := by
    intro k hk hex
    rw [hdisk]
    rw [folderExists_iff] at hex ⊢
    rw [hes] at hex ⊢
    rw [node_withNode, if_neg hk]
    exact hex
  refine ⟨?_, ?_, ?_, ?_⟩
  · rw [hcfg]
    obtain ⟨⟨e, he, e1⟩, hall⟩ := hE
    refine ⟨⟨e, List.mem_append_left _ he, e1⟩, ?_⟩
    intro p hp hid
    rcases List.mem_append.1 hp with hp | hp
    · exact hall p hp hid
    · rw [List.mem_singleton.1 hp] at hid
      exact absurd hid hnew
  · rw [hcfg]
    obtain ⟨a1, a2, a3, a4, a5, a6, a7, a8, hprof⟩ := hL
    refine ⟨a1, a2, a3, a4, a5, a6, a7, a8, ?_⟩
    intro p hp hid
    rcases List.mem_append.1 hp with hp | hp
    · exact hprof p hp hid
    · rw [List.mem_singleton.1 hp]
      exact ⟨hpre, hcomp⟩
  rotate_left
  · rw [hdisk]
    exact plainDisk_withNode _ _ _ hD hcomp
  · have hnames : (AddProfileFromActive env w display_name).2.config.official_profile_folder
          = w.config.official_profile_folder ∧
        (AddProfileFromActive env w display_name).2.config.images_folder_name
          = w.config.images_folder_name ∧
        (AddProfileFromActive env w display_name).2.config.active_profile_id
          = w.config.active_profile_id := by
      rw [hcfg]
      exact ⟨rfl, rfl, rfl⟩
    unfold OfficialAvailable
    rw [hnames.1, hnames.2.1, hnames.2.2]
    rcases hJ with hO | ⟨hact, hi⟩
    · exact Or.inl (hkeep _ (Ne.symm hno) hO)
    · exact Or.inr ⟨hact, hkeep _ (Ne.symm hni) hi⟩

theorem deleteProfile_keeps {env : Env} {w : World} {profile_id : Str}
    (hE : OfficialEntry w.config) (hL : IdleLayout w.config) (hJ : OfficialAvailable w)
    (hD : PlainDisk w.disk)
    (h : (DeleteProfile env w profile_id).1 = true) :
    OfficialEntry (DeleteProfile env w profile_id).2.config ∧
      IdleLayout (DeleteProfile env w profile_id).2.config ∧
      OfficialAvailable (DeleteProfile env w profile_id).2 ∧
      PlainDisk (DeleteProfile env w profile_id).2.disk := by
  obtain ⟨pre, p, post, hl, _, hflag, hcfg, hnode⟩ := deleteProfile_ok h
  have hpmem : p ∈ w.config.profiles := by rw [hl]; simp
  have hpid : p.id ≠ officialId := by
    intro e
    have := (hE.2 p hpmem e).1
    rw [hflag] at this
    exact absurd this (by simp)
  have hsub : ∀ q, q ∈ pre ++ post → q ∈ w.config.profiles := by
    intro q hq
    rw [hl]
    rcases List.mem_append.1 hq with hq | hq
    · exact List.mem_append_left _ hq
    · exact List.mem_append_right _ (List.mem_cons_of_mem _ hq)
  obtain ⟨_, hfo, hfi⟩ := idleLayout_folder hL ((idleLayout_apart hL).2.2.2.2 p hpmem hpid)
  refine ⟨?_, ?_, ?_, plainDisk_deleteProfile env w profile_id hD⟩
  · rw [hcfg]
    obtain ⟨⟨e, he, e1⟩, hall⟩ := hE
    refine ⟨⟨e, ?_, e1⟩, fun q hq hid => hall q (hsub q hq) hid⟩
    rw [hl] at he
    rcases List.mem_append.1 he with he | he
    · exact List.mem_append_left _ he
    · rcases List.mem_cons.1 he with he | he
      · rw [he] at e1
        exact absurd e1 hpid
      · exact List.mem_append_right _ he
  · rw [hcfg]
    obtain ⟨a1, a2, a3, a4, a5, a6, a7, a8, hprof⟩ := hL
    exact ⟨a1, a2, a3, a4, a5, a6, a7, a8, fun q hq hid => hprof q (hsub q hq) hid⟩
  · have hnames : (DeleteProfile env w profile_id).2.config.official_profile_folder
          = w.config.official_profile_folder ∧
        (DeleteProfile env w profile_id).2.config.images_folder_name
          = w.config.images_folder_name ∧
        (DeleteProfile env w profile_id).2.config.active_profile_id
          = w.config.active_profile_id := by
      rw [hcfg]
      exact ⟨rfl, rfl, rfl⟩
    unfold OfficialAvailable
    rw [hnames.1, hnames.2.1, hnames.2.2]
    rcases hJ with hO | ⟨hact, hi⟩
    · left
      rw [folderExists_iff] at hO ⊢
      rw [hnode _ (Ne.symm hfo)]
      exact hO
    · right
      refine ⟨hact, ?_⟩
      rw [folderExists_iff] at hi ⊢
      rw [hnode _ (Ne.symm hfi)]
      exact hi

/-- A successful `RefreshFromDisk` keeps the official entry and the layout of the folder
names, and the official folder exists after it when the official folder or the active
slot existed before. -/
theorem refreshFromDisk_keeps {env : Env} {w : World}
    (hE : OfficialEntry w.config) (hL : IdleLayout w.config)
    (hslot : FolderExists w.disk w.config.official_profile_folder = true ∨
      FolderExists w.disk w.config.images_folder_name = true)
    (hD : PlainDisk w.disk)
    (h : (RefreshFromDisk env w).1 = true) :
    OfficialEntry (RefreshFromDisk env w).2.config ∧
      IdleLayout (RefreshFromDisk env w).2.config ∧
      FolderExists (RefreshFromDisk env w).2.disk
        (RefreshFromDisk env w).2.config.official_profile_folder = true ∧
      PlainDisk (RefreshFromDisk env w).2.disk := by
  obtain ⟨hd, hdisk, hcfg⟩ := refreshFromDisk_ok h
  obtain ⟨hmono, hboot⟩ := refreshDisk_ok hd
  have hD2 : PlainDisk (refreshDisk env w).2 := plainDisk_refreshDisk env w hD hL.1
  obtain ⟨⟨e, he, e1⟩, hall⟩ := hE
  have hene : e.id ≠ [] := by
    rw [e1]
    decide
  refine ⟨?_, ?_, ?_, by rw [hdisk]; exact hD2⟩
  · rw [hcfg]
    constructor
    · have := normalizeFrom_ids_complete w.config
        (w.config.profiles ++
          discoverFrom w.config (w.config.profiles.map Profile.folder_name)
            (FileUtil.ListDirs (refreshDisk env w).2)) [] e (List.mem_append_left _ he) hene
      rcases this with hs | hm
      · simp at hs
      · obtain ⟨q, hq, hqid⟩ := List.mem_map.1 hm
        exact ⟨q, hq, hqid.trans e1⟩
    · intro p hp hid
      obtain ⟨q, hq, hpq⟩ := normalizeFrom_append_first w.config _ _ [] officialId e he e1 p
        hp hid
      have hqid : q.id = officialId := by
        rw [← hid, hpq, fillDefaults_id]
      obtain ⟨f1, f2⟩ := hall q hq hqid
      rw [hpq, fillDefaults_is_official]
      exact ⟨f1, fillDefaults_official_folder w.config q f1 f2⟩
  · rw [hcfg]
    have hL' := hL
    obtain ⟨a1, a2, a3, a4, a5, a6, a7, a8, hprof⟩ := hL'
    refine ⟨a1, a2, a3, a4, a5, a6, a7, a8, ?_⟩
    intro p hp hid
    obtain ⟨_, _, _, q, hq, hpq⟩ := normalizeFrom_mem _ _ _ p hp
    have hqid : q.id ≠ officialId := by
      rw [hpq, fillDefaults_id] at hid
      exact hid
    have hqpre : w.config.idle_profile_prefix.isPrefixOf q.folder_name = true ∧
        isPathComponent q.folder_name = true := by
      rcases List.mem_append.1 hq with hq | hq
      · exact hprof q hq hqid
      · obtain ⟨name, hname, _, _, _, hpre, _, hqe⟩ := mem_discoverFrom.1 hq
        rw [hqe]
        obtain ⟨x, hx, hxn⟩ := listDirs_mem hname
        exact ⟨hpre, by rw [← hxn]; exact hD2 x hx⟩
    show w.config.idle_profile_prefix.isPrefixOf p.folder_name = true ∧
      isPathComponent p.folder_name = true
    rw [hpq, fillDefaults_folder_of_ne _ _ (idleLayout_folder hL hqpre.1).1]
    exact hqpre
  · rw [hdisk, hcfg]
    show FolderExists (refreshDisk env w).2 w.config.official_profile_folder = true
    rcases hslot with hO | hi
    · exact hmono _ hO
    · exact hboot hi

theorem managerStep_keeps {w w' : World} (hstep : ManagerStep w w')
    (hE : OfficialEntry w.config) (hL : IdleLayout w.config) (hJ : OfficialAvailable w)
    (hD : PlainDisk w.disk) :
    OfficialEntry w'.config ∧ IdleLayout w'.config ∧ OfficialAvailable w' ∧
      PlainDisk w'.disk := by
  rcases hstep with ⟨env, id, h, rfl⟩ | ⟨env, h, rfl⟩ | ⟨env, name, h, rfl⟩ |
    ⟨env, id, h, rfl⟩ | ⟨env, h, rfl⟩
  · exact applyProfile_keeps hE hL hJ hD h
  · exact applyProfile_keeps hE hL hJ hD h
  · exact addProfile_keeps hE hL hJ hD h
  · exact deleteProfile_keeps hE hL hJ hD h
  · have hslot : FolderExists w.disk w.config.official_profile_folder = true ∨
        FolderExists w.disk w.config.images_folder_name = true := by
      rcases hJ with hO | ⟨_, hi⟩
      · exact Or.inl hO
      · exact Or.inr hi
    obtain ⟨a, b, c, d⟩ := refreshFromDisk_keeps hE hL hslot hD h
    exact ⟨a, b, Or.inl c, d⟩

theorem refreshDisk_of_official {env : Env} {w : World}
    (h : FolderExists w.disk w.config.official_profile_folder = true) :
    (refreshDisk env w).2 = w.disk := by
  obtain ⟨c, hc⟩ := (folderExists_iff _ _).1 h
  obtain ⟨es, hes⟩ := node_some_isDir hc
  unfold refreshDisk
  rw [hes] at h ⊢
  simp only [ensureDir_dir, Bool.not_true, Bool.false_eq_true, if_false, h, false_and]

theorem displacedTo_ne_official {cfg : AppConfig} (hL : IdleLayout cfg)
    (hact : cfg.active_profile_id ≠ officialId) :
    displacedTo cfg ≠ cfg.official_profile_folder := by
  have hbak := hL.2.2.2.2.2.2.2.1
  unfold displacedTo
  by_cases ha : cfg.active_profile_id ≠ []
  · rw [if_pos ha]
    cases hp : profileAt cfg cfg.active_profile_id with
    | none => exact hbak
    | some active =>
      simp only
      by_cases hf : active.folder_name ≠ []
      · rw [if_pos hf]
        obtain ⟨hmem, hid⟩ := profileAt_some hp
        have hne : active.id ≠ officialId := by
          rw [hid]
          exact hact
        exact (idleLayout_folder hL ((idleLayout_apart hL).2.2.2.2 active hmem hne)).2.1
      · rw [if_neg hf]
        exact hbak
  · rw [if_neg ha]
    exact hbak

/-- While the official profile is not the active one, a successful call leaves what the
official folder holds as it is, or (`ApplyProfile` of the official profile) moves it
unchanged into the active slot. -/
theorem managerStep_official_content {w w' : World} (hstep : ManagerStep w w')
    (hE : OfficialEntry w.config) (hL : IdleLayout w.config) (hJ : OfficialAvailable w)
    (hact : w.config.active_profile_id ≠ officialId) :
    w'.disk.node w.config.official_profile_folder
        = w.disk.node w.config.official_profile_folder ∨
      (w'.config.active_profile_id = officialId ∧
        w'.disk.node w.config.images_folder_name
          = w.disk.node w.config.official_profile_folder) := by
  have hO : FolderExists w.disk w.config.official_profile_folder = true := by
    rcases hJ with hO | ⟨ha, _⟩
    · exact hO
    · exact absurd ha hact
  have hIO := (idleLayout_apart hL).2.2.2.1
  have happly : ∀ (env : Env) (id : Str), (ApplyProfile env w id).1 = true →
      (ApplyProfile env w id).2.disk.node w.config.official_profile_folder
          = w.disk.node w.config.official_profile_folder ∨
        ((ApplyProfile env w id).2.config.active_profile_id = officialId ∧
          (ApplyProfile env w id).2.disk.node w.config.images_folder_name
            = w.disk.node w.config.official_profile_folder) := by
    intro env id h
    obtain ⟨es, target, _, hsame, hp, hcase⟩ := applyProfile_ok h
    obtain ⟨k, x, hk⟩ := officialAvailable_node hJ
    have hw : ({ w with disk := .dir es } : World) = w := world_disk_eq (hsame k x hk)
    rw [hw] at hcase
    rcases hcase with ⟨_, _, _, hres⟩ | ⟨_, hdis, hmv, hres⟩
    · left
      rw [hres]
    · have hkeep : (RenameActiveToIdle env w).2.disk.node w.config.official_profile_folder
          = w.disk.node w.config.official_profile_folder := by
        obtain ⟨_, _, hno, hyes⟩ := renameActiveToIdle_ok hdis
        by_cases hi : FolderExists w.disk w.config.images_folder_name = true
        · obtain ⟨hsm, hmove⟩ := hyes hi
          by_cases hdd : w.config.images_folder_name = displacedTo w.config
          · rw [hsm hdd]
          · exact (hmove hdd).2.2 _ (Ne.symm hIO) (Ne.symm (displacedTo_ne_official hL hact))
        · have : FolderExists w.disk w.config.images_folder_name = false := by
            simpa using hi
          rw [hno this]
      obtain ⟨hmem, hid⟩ := profileAt_some hp
      rw [hres]
      by_cases ht : target.id = officialId
      · right
        refine ⟨ht, ?_⟩
        have hf := (hE.2 target hmem ht).2
        rw [hf] at hmv ⊢
        show (FileUtil.Rename env _ _ _).2.node w.config.images_folder_name = _
        rw [rename_ok_node hmv (Ne.symm hIO), if_pos rfl]
        exact hkeep
      · left
        have hpre := (idleLayout_apart hL).2.2.2.2 target hmem ht
        obtain ⟨_, hfo, hfi⟩ := idleLayout_folder hL hpre
        show (FileUtil.Rename env _ _ _).2.node w.config.official_profile_folder = _
        rw [rename_ok_node hmv hfi, if_neg (Ne.symm hIO), if_neg (Ne.symm hfo)]
        exact hkeep
  rcases hstep with ⟨env, id, h, rfl⟩ | ⟨env, h, rfl⟩ | ⟨env, name, h, rfl⟩ |
    ⟨env, id, h, rfl⟩ | ⟨env, h, rfl⟩
  · exact happly env id h
  · exact happly env officialId h
  · left
    obtain ⟨_, source, content, _, _, hsrc, _, hdisk, _⟩ := addProfile_ok h
    obtain ⟨es, hes⟩ := node_some_isDir hsrc
    have hpre : w.config.idle_profile_prefix.isPrefixOf
        (w.config.idle_profile_prefix ++ GenerateProfileId w.config name) = true := by
      rw [List.isPrefixOf_iff_prefix]
      exact List.prefix_append _ _
    obtain ⟨_, hno, _⟩ := idleLayout_folder hL hpre
    rw [hdisk, hes, node_withNode, if_neg (Ne.symm hno)]
  · left
    obtain ⟨pre, p, post, hl, _, hflag, _, hnode⟩ := deleteProfile_ok h
    have hpmem : p ∈ w.config.profiles := by rw [hl]; simp
    have hpid : p.id ≠ officialId := by
      intro e
      have := (hE.2 p hpmem e).1
      rw [hflag] at this
      exact absurd this (by simp)
    obtain ⟨_, hfo, _⟩ := idleLayout_folder hL ((idleLayout_apart hL).2.2.2.2 p hpmem hpid)
    exact hnode _ (Ne.symm hfo)
  · left
    obtain ⟨_, hdisk, _⟩ := refreshFromDisk_ok h
    rw [hdisk, refreshDisk_of_official hO]

theorem initialize_ok {env : Env} {w : World} (h : (Initialize env w).1 = true) :
    (Load env w).1 = true ∧ (RefreshFromDisk env (Load env w).2).1 = true ∧
      (Initialize env w).2 = (RefreshFromDisk env (Load env w).2).2 := by
  by_cases hl : (Load env w).1 = true
  · have hrun : Initialize env w = RefreshFromDisk env (Load env w).2 := by
      unfold Initialize
      simp [hl]
    rw [hrun] at h ⊢
    exact ⟨hl, h, rfl⟩
  · unfold Initialize at h
    simp [hl] at h

theorem load_disk (env : Env) (w : World) : (Load env w).2.disk = w.disk := by
  unfold Load
  split
  · rw [save_disk]
  · rw [save_disk]
  all_goals rfl

theorem skipWhitespace_blank (ws rest : Str) (h : ∀ c ∈ ws, isspace c = true) :
    SkipWhitespace (ws ++ rest) = SkipWhitespace rest := by
  induction ws with
  | nil => rfl
  | cons c ws ih =>
    have hc : isspace c = true := h c (List.mem_cons_self _ _)
    unfold SkipWhitespace at ih ⊢
    rw [List.cons_append, List.dropWhile_cons, if_pos hc]
    exact ih (fun x hx => h x (List.mem_cons_of_mem _ hx))

theorem skipWhitespace_cons (c : Char) (rest : Str) (h : isspace c = false) :
    SkipWhitespace (c :: rest) = c :: rest := by
  unfold SkipWhitespace
  rw [List.dropWhile_cons, h]
  simp

theorem skipWhitespace_idem (rest : Str) :
    SkipWhitespace (SkipWhitespace rest) = SkipWhitespace rest := by
  induction rest with
  | nil => rfl
  | cons c rest ih =>
    by_cases hc : isspace c = true
    · have : SkipWhitespace (c :: rest) = SkipWhitespace rest :=
        skipWhitespace_blank [c] rest (fun x hx => by rw [List.mem_singleton.1 hx]; exact hc)
      rw [this, ih]
    · have hc' : isspace c = false := by simpa using hc
      rw [skipWhitespace_cons c rest hc', skipWhitespace_cons c rest hc']

theorem pad_blank (level : Nat) : ∀ c ∈ pad level, isspace c = true := by
  intro c hc
  unfold pad at hc
  rw [List.eq_of_mem_replicate hc]
  decide

theorem skipWhitespace_serializeString (s rest : Str) :
    SkipWhitespace (SerializeString s ++ rest) = SerializeString s ++ rest := by
  have htext : SerializeString s ++ rest
      = quoteChar :: (EscapeString s ++ quoteChar :: rest) := by
    simp [SerializeString]
  rw [htext]
  exact skipWhitespace_cons _ _ (by decide)

/-- The parser skips blanks in front of a value. -/
theorem parseValue_blank (num : NumberText) (fuel : Nat) (ws rest : Str)
    (h : ∀ c ∈ ws, isspace c = true) :
    ParseValue num fuel (ws ++ rest) = ParseValue num fuel rest := by
  cases fuel with
  | zero => simp [ParseValue]
  | succ f =>
    rw [ParseValue, ParseValue, skipWhitespace_blank ws rest h]

theorem parseValue_skip (num : NumberText) (fuel : Nat) (rest : Str) :
    ParseValue num fuel (SkipWhitespace rest) = ParseValue num fuel rest := by
  cases fuel with
  | zero => simp [ParseValue]
  | succ f =>
    rw [ParseValue, ParseValue, skipWhitespace_idem]

theorem parseValue_string (num : NumberText) (fuel : Nat) (s tail : Str) :
    ParseValue num (fuel + 1) (SerializeString s ++ tail) = some (.string s, tail) := by
  have htext : SerializeString s ++ tail
      = quoteChar :: (EscapeString s ++ quoteChar :: tail) := by
    simp [SerializeString]
  have hnull : Match "null".toList (SerializeString s ++ tail) = none := by
    rw [htext]
    exact match_none _ _ _ _ (by decide)
  have htrue : Match "true".toList (SerializeString s ++ tail) = none := by
    rw [htext]
    exact match_none _ _ _ _ (by decide)
  have hfalse : Match "false".toList (SerializeString s ++ tail) = none := by
    rw [htext]
    exact match_none _ _ _ _ (by decide)
  have hpeek : Peek (SerializeString s ++ tail) = quoteChar := by
    rw [htext]
    rfl
  rw [ParseValue, skipWhitespace_serializeString]
  simp only [hnull, htrue, hfalse, hpeek, if_true, parseString_serializeString]

theorem parseValue_true (num : NumberText) (fuel : Nat) (tail : Str) :
    ParseValue num (fuel + 1) ('t' :: 'r' :: 'u' :: 'e' :: tail)
      = some (.bool true, tail) := by
  have hnull : Match "null".toList ('t' :: 'r' :: 'u' :: 'e' :: tail) = none :=
    match_none _ _ _ _ (by decide)
  have htrue : Match "true".toList ('t' :: 'r' :: 'u' :: 'e' :: tail) = some tail := by
    simp [Match]
  rw [ParseValue, skipWhitespace_cons _ _ (by decide)]
  simp only [hnull, htrue]

theorem parseValue_false (num : NumberText) (fuel : Nat) (tail : Str) :
    ParseValue num (fuel + 1) ('f' :: 'a' :: 'l' :: 's' :: 'e' :: tail)
      = some (.bool false, tail) := by
  have hnull : Match "null".toList ('f' :: 'a' :: 'l' :: 's' :: 'e' :: tail) = none :=
    match_none _ _ _ _ (by decide)
  have htrue : Match "true".toList ('f' :: 'a' :: 'l' :: 's' :: 'e' :: tail) = none :=
    match_none _ _ _ _ (by decide)
  have hfalse : Match "false".toList ('f' :: 'a' :: 'l' :: 's' :: 'e' :: tail)
      = some tail := by
    simp [Match]
  rw [ParseValue, skipWhitespace_cons _ _ (by decide)]
  simp only [hnull, htrue, hfalse]

theorem numberStart_ne (c x : Char) (hc : c = '-' ∨ isdigit c = true)
    (hx : isdigit x = false) (hm : x ≠ '-') : c ≠ x := by
  intro e
  rcases hc with hc | hc
  · exact hm (e ▸ hc)
  · rw [e, hx] at hc
    exact absurd hc (by simp)

theorem numberStart_not_space (c : Char) (hc : c = '-' ∨ isdigit c = true) :
    isspace c = false := by
  rcases hc with hc | hc
  · rw [hc]
    decide
  · unfold isdigit Char.isDigit at hc
    unfold isspace
    have h1 : 48 ≤ c.toNat ∧ c.toNat ≤ 57 := by
      simp only [Bool.and_eq_true, decide_eq_true_eq] at hc
      exact ⟨hc.1, hc.2⟩
    simp only [decide_eq_false_iff_not]
    omega

theorem parseValue_number (num : NumberText) (fuel : Nat) (n m : Int) (tail : Str)
    (h : NumberRereadAs num n m) :
    ParseValue num (fuel + 1) (num.format n ++ ',' :: tail)
      = some (.number m, ',' :: tail) := by
  obtain ⟨hstart, hread⟩ := h
  cases ht : num.format n with
  | nil =>
    rw [ht] at hstart
    rcases hstart with h | h <;> exact absurd h (by decide)
  | cons c t =>
    rw [ht] at hstart
    have hc : c = '-' ∨ isdigit c = true := hstart
    have hnull : Match "null".toList (c :: (t ++ ',' :: tail)) = none :=
      match_none _ _ _ _ (numberStart_ne c 'n' hc (by decide) (by decide))
    have htrue : Match "true".toList (c :: (t ++ ',' :: tail)) = none :=
      match_none _ _ _ _ (numberStart_ne c 't' hc (by decide) (by decide))
    have hfalse : Match "false".toList (c :: (t ++ ',' :: tail)) = none :=
      match_none _ _ _ _ (numberStart_ne c 'f' hc (by decide) (by decide))
    have hq : Peek (c :: (t ++ ',' :: tail)) ≠ quoteChar :=
      numberStart_ne c quoteChar hc (by decide) (by decide)
    have hb : Peek (c :: (t ++ ',' :: tail)) ≠ braceOpenChar :=
      numberStart_ne c braceOpenChar hc (by decide) (by decide)
    have ha : Peek (c :: (t ++ ',' :: tail)) ≠ bracketOpenChar :=
      numberStart_ne c bracketOpenChar hc (by decide) (by decide)
    have hn : Peek (c :: (t ++ ',' :: tail)) = '-' ∨
        isdigit (Peek (c :: (t ++ ',' :: tail))) = true := hc
    have hr := hread tail
    rw [ht] at hr
    rw [ParseValue, List.cons_append, skipWhitespace_cons _ _ (numberStart_not_space c hc)]
    simp only [hnull, htrue, hfalse, if_neg hq, if_neg hb, if_neg ha, if_pos hn]
    rw [← List.cons_append, hr]

/-- One round of the loop of `ParseObject` on a member that is followed by a comma. -/
theorem parseMembers_comma (num : NumberText) (fuel : Nat) (ws key vt more : Str)
    (v : Value) (obj : List (Str × Value)) (hws : ∀ c ∈ ws, isspace c = true)
    (hv : ParseValue num fuel (vt ++ ',' :: more) = some (v, ',' :: more)) :
    parseMembers num (fuel + 1)
        (ws ++ (SerializeString key ++ ':' :: ' ' :: (vt ++ ',' :: more))) obj
      = parseMembers num fuel more (emplace key v obj) := by
  have hpeek : Peek (SerializeString key ++ ':' :: ' ' :: (vt ++ ',' :: more))
      = quoteChar := by
    have : SerializeString key ++ ':' :: ' ' :: (vt ++ ',' :: more)
        = quoteChar :: (EscapeString key ++ quoteChar :: ':' :: ' ' :: (vt ++ ',' :: more)) := by
      simp [SerializeString]
    rw [this]
    rfl
  have hval : ParseValue num fuel (SkipWhitespace (' ' :: (vt ++ ',' :: more)))
      = some (v, ',' :: more) := by
    rw [parseValue_skip]
    have := parseValue_blank num fuel [' '] (vt ++ ',' :: more)
      (fun c hc => by rw [List.mem_singleton.1 hc]; decide)
    rw [List.singleton_append] at this
    rw [this, hv]
  rw [parseMembers, skipWhitespace_blank ws _ hws, skipWhitespace_serializeString]
  simp only [hpeek, ne_eq, not_true_eq_false, if_false, parseString_serializeString]
  rw [skipWhitespace_cons ':' _ (by decide)]
  have hexp : Expect ':' (':' :: ' ' :: (vt ++ ',' :: more))
      = some (' ' :: (vt ++ ',' :: more)) := rfl
  simp only [hexp, hval]
  rw [skipWhitespace_cons ',' _ (by decide)]
  have hnot : Peek (',' :: more) ≠ braceCloseChar := (by decide : ',' ≠ braceCloseChar)
  have hexp2 : Expect ',' (',' :: more) = some more := rfl
  simp only [if_neg hnot, hexp2]

/-- The last round of the loop of `ParseObject`: the member is followed by blanks and the
closing brace. -/
theorem parseMembers_last (num : NumberText) (fuel : Nat) (ws key vt ws2 rest : Str)
    (v : Value) (obj : List (Str × Value)) (hws : ∀ c ∈ ws, isspace c = true)
    (hws2 : ∀ c ∈ ws2, isspace c = true)
    (hv : ParseValue num fuel (vt ++ (ws2 ++ braceCloseChar :: rest))
      = some (v, ws2 ++ braceCloseChar :: rest)) :
    parseMembers num (fuel + 1)
        (ws ++ (SerializeString key ++ ':' :: ' ' :: (vt ++ (ws2 ++ braceCloseChar :: rest))))
        obj
      = some (emplace key v obj, rest) := by
  have hpeek : Peek (SerializeString key
      ++ ':' :: ' ' :: (vt ++ (ws2 ++ braceCloseChar :: rest))) = quoteChar := by
    have : SerializeString key ++ ':' :: ' ' :: (vt ++ (ws2 ++ braceCloseChar :: rest))
        = quoteChar :: (EscapeString key
            ++ quoteChar :: ':' :: ' ' :: (vt ++ (ws2 ++ braceCloseChar :: rest))) := by
      simp [SerializeString]
    rw [this]
    rfl
  have hval : ParseValue num fuel
      (SkipWhitespace (' ' :: (vt ++ (ws2 ++ braceCloseChar :: rest))))
      = some (v, ws2 ++ braceCloseChar :: rest) := by
    rw [parseValue_skip]
    have := parseValue_blank num fuel [' '] (vt ++ (ws2 ++ braceCloseChar :: rest))
      (fun c hc => by rw [List.mem_singleton.1 hc]; decide)
    rw [List.singleton_append] at this
    rw [this, hv]
  rw [parseMembers, skipWhitespace_blank ws _ hws, skipWhitespace_serializeString]
  simp only [hpeek, ne_eq, not_true_eq_false, if_false, parseString_serializeString]
  rw [skipWhitespace_cons ':' _ (by decide)]
  have hexp : Expect ':' (':' :: ' ' :: (vt ++ (ws2 ++ braceCloseChar :: rest)))
      = some (' ' :: (vt ++ (ws2 ++ braceCloseChar :: rest))) := rfl
  simp only [hexp, hval]
  rw [skipWhitespace_blank ws2 _ hws2, skipWhitespace_cons braceCloseChar _ (by decide)]
  have hyes : Peek (braceCloseChar :: rest) = braceCloseChar := rfl
  simp only [hyes, if_true, List.drop_one, List.tail_cons]

/-- One round of the loop of `ParseArray` on an element that is followed by a comma. -/
theorem parseItems_comma (num : NumberText) (fuel : Nat) (ws vt more : Str)
    (v : Value) (arr : List Value) (hws : ∀ c ∈ ws, isspace c = true)
    (hv : ParseValue num fuel (vt ++ ',' :: more) = some (v, ',' :: more)) :
    parseItems num (fuel + 1) (ws ++ (vt ++ ',' :: more)) arr
      = parseItems num fuel more (arr ++ [v]) := by
  have hval : ParseValue num fuel (SkipWhitespace (ws ++ (vt ++ ',' :: more)))
      = some (v, ',' :: more) := by
    rw [parseValue_skip, parseValue_blank num fuel ws _ hws, hv]
  rw [parseItems]
  simp only [hval]
  rw [skipWhitespace_cons ',' _ (by decide)]
  have hnot : Peek (',' :: more) ≠ bracketCloseChar := (by decide : ',' ≠ bracketCloseChar)
  have hexp2 : Expect ',' (',' :: more) = some more := rfl
  simp only [if_neg hnot, hexp2]

/-- The last round of the loop of `ParseArray`. -/
theorem parseItems_last (num : NumberText) (fuel : Nat) (ws vt ws2 rest : Str)
    (v : Value) (arr : List Value) (hws : ∀ c ∈ ws, isspace c = true)
    (hws2 : ∀ c ∈ ws2, isspace c = true)
    (hv : ParseValue num fuel (vt ++ (ws2 ++ bracketCloseChar :: rest))
      = some (v, ws2 ++ bracketCloseChar :: rest)) :
    parseItems num (fuel + 1) (ws ++ (vt ++ (ws2 ++ bracketCloseChar :: rest))) arr
      = some (arr ++ [v], rest) := by
  have hval : ParseValue num fuel
      (SkipWhitespace (ws ++ (vt ++ (ws2 ++ bracketCloseChar :: rest))))
      = some (v, ws2 ++ bracketCloseChar :: rest) := by
    rw [parseValue_skip, parseValue_blank num fuel ws _ hws, hv]
  rw [parseItems]
  simp only [hval]
  rw [skipWhitespace_blank ws2 _ hws2, skipWhitespace_cons bracketCloseChar _ (by decide)]
  have hyes : Peek (bracketCloseChar :: rest) = bracketCloseChar := rfl
  simp only [hyes, if_true, List.drop_one, List.tail_cons]

theorem profileToJson_eq (p : Profile) :
    ProfileToJson p = .object
      [ ("display_name".toList, .string p.display_name),
        ("folder_name".toList, .string p.folder_name),
        ("id".toList, .string p.id),
        ("is_official".toList, .bool p.is_official) ] := rfl

theorem serialize_profile (num : NumberText) (p : Profile) (d : Nat) (tail : Str) :
    Serialize num 2 (ProfileToJson p) d ++ tail
      = braceOpenChar :: newlineChar :: (pad ((d + 1) * 2)
        ++ (SerializeString "display_name".toList ++ ':' :: ' ' ::
          (SerializeString p.display_name ++ ',' :: newlineChar :: (pad ((d + 1) * 2)
        ++ (SerializeString "folder_name".toList ++ ':' :: ' ' ::
          (SerializeString p.folder_name ++ ',' :: newlineChar :: (pad ((d + 1) * 2)
        ++ (SerializeString "id".toList ++ ':' :: ' ' ::
          (SerializeString p.id ++ ',' :: newlineChar :: (pad ((d + 1) * 2)
        ++ (SerializeString "is_official".toList ++ ':' :: ' ' ::
          ((if p.is_official then "true".toList else "false".toList)
            ++ (newlineChar :: pad (d * 2) ++ braceCloseChar :: tail))))))))))))) := by
  rw [profileToJson_eq]
  simp only [Serialize, serializeMembers, List.isEmpty_cons, List.isEmpty_nil,
    Bool.false_eq_true, if_false, if_true, List.append_assoc, List.cons_append,
    List.nil_append, List.append_nil]

theorem parseMembers_skip (num : NumberText) (fuel : Nat) (rest : Str)
    (obj : List (Str × Value)) :
    parseMembers num fuel (SkipWhitespace rest) obj = parseMembers num fuel rest obj := by
  cases fuel with
  | zero => simp [parseMembers]
  | succ f => rw [parseMembers, parseMembers, skipWhitespace_idem]

theorem parseItems_skip (num : NumberText) (fuel : Nat) (rest : Str) (arr : List Value) :
    parseItems num fuel (SkipWhitespace rest) arr = parseItems num fuel rest arr := by
  cases fuel with
  | zero => simp [parseItems]
  | succ f => rw [parseItems, parseItems, skipWhitespace_idem]

/-- The parser enters an object whose first member starts on the next line. -/
theorem parseValue_object (num : NumberText) (fuel k : Nat) (key more rest : Str)
    (obj : List (Str × Value))
    (h : parseMembers num fuel (newlineChar :: (pad k ++ (SerializeString key ++ more))) []
      = some (obj, rest)) :
    ParseValue num (fuel + 2)
        (braceOpenChar :: newlineChar :: (pad k ++ (SerializeString key ++ more)))
      = some (.object obj, rest) := by
  have hnull : Match "null".toList
      (braceOpenChar :: newlineChar :: (pad k ++ (SerializeString key ++ more))) = none :=
    match_none _ _ _ _ (by decide)
  have htrue : Match "true".toList
      (braceOpenChar :: newlineChar :: (pad k ++ (SerializeString key ++ more))) = none :=
    match_none _ _ _ _ (by decide)
  have hfalse : Match "false".toList
      (braceOpenChar :: newlineChar :: (pad k ++ (SerializeString key ++ more))) = none :=
    match_none _ _ _ _ (by decide)
  have hq : Peek (braceOpenChar :: newlineChar :: (pad k ++ (SerializeString key ++ more)))
      ≠ quoteChar := (by decide : braceOpenChar ≠ quoteChar)
  have hb : Peek (braceOpenChar :: newlineChar :: (pad k ++ (SerializeString key ++ more)))
      = braceOpenChar := rfl
  have hexp : Expect braceOpenChar
      (braceOpenChar :: newlineChar :: (pad k ++ (SerializeString key ++ more)))
      = some (newlineChar :: (pad k ++ (SerializeString key ++ more))) := rfl
  have hskip : SkipWhitespace (newlineChar :: (pad k ++ (SerializeString key ++ more)))
      = SerializeString key ++ more := by
    have := skipWhitespace_blank (newlineChar :: pad k) (SerializeString key ++ more)
      (fun c hc => by
        rcases List.mem_cons.1 hc with e | e
        · rw [e]
          decide
        · exact pad_blank k c e)
    rw [List.cons_append] at this
    rw [this, skipWhitespace_serializeString]
  have hopen : Peek (SkipWhitespace
      (newlineChar :: (pad k ++ (SerializeString key ++ more)))) ≠ braceCloseChar := by
    rw [hskip]
    have : SerializeString key ++ more = quoteChar :: (EscapeString key ++ quoteChar :: more) := by
      simp [SerializeString]
    rw [this]
    exact (by decide : quoteChar ≠ braceCloseChar)
  have hobj : ParseObject num (fuel + 1)
      (braceOpenChar :: newlineChar :: (pad k ++ (SerializeString key ++ more)))
      = some (obj, rest) := by
    rw [ParseObject]
    simp only [hexp, if_neg hopen, parseMembers_skip, h]
  rw [ParseValue, skipWhitespace_cons braceOpenChar _ (by decide)]
  simp only [hnull, htrue, hfalse, if_neg hq, if_pos hb, hobj]

theorem blank_line (k : Nat) : ∀ c ∈ newlineChar :: pad k, isspace c = true := by
  intro c hc
  rcases List.mem_cons.1 hc with e | e
  · rw [e]
    decide
  · exact pad_blank k c e

/-- A member with a string value on a line of its own, followed by a comma. -/
theorem parseMembers_string (num : NumberText) (fuel k : Nat) (key s more : Str)
    (obj : List (Str × Value)) :
    parseMembers num (fuel + 2)
        (newlineChar :: (pad k ++ (SerializeString key ++ ':' :: ' ' ::
          (SerializeString s ++ ',' :: more)))) obj
      = parseMembers num (fuel + 1) more (emplace key (.string s) obj) := by
  have := parseMembers_comma num (fuel + 1) (newlineChar :: pad k) key (SerializeString s)
    more (.string s) obj (blank_line k) (parseValue_string num fuel s _)
  rw [List.cons_append] at this
  exact this

theorem parse_profile (num : NumberText) (fuel d : Nat) (p : Profile) (tail : Str) :
    ParseValue num (fuel + 7) (Serialize num 2 (ProfileToJson p) d ++ tail)
      = some (ProfileToJson p, tail) := by
  rw [serialize_profile]
  apply Eq.trans (parseValue_object num _ _ _ _ tail
    [ ("display_name".toList, .string p.display_name),
      ("folder_name".toList, .string p.folder_name),
      ("id".toList, .string p.id),
      ("is_official".toList, .bool p.is_official) ] ?_) (by rw [profileToJson_eq])
  rw [parseMembers_string, parseMembers_string, parseMembers_string]
  have hlast : ∀ (vt : Str) (b : Bool) (obj : List (Str × Value)),
      ParseValue num (fuel + 1) (vt ++ (newlineChar :: pad (d * 2) ++ braceCloseChar :: tail))
        = some (.bool b, newlineChar :: pad (d * 2) ++ braceCloseChar :: tail) →
      parseMembers num (fuel + 2)
        (newlineChar :: (pad ((d + 1) * 2) ++ (SerializeString "is_official".toList ++
          ':' :: ' ' :: (vt ++ (newlineChar :: pad (d * 2) ++ braceCloseChar :: tail))))) obj
        = some (emplace "is_official".toList (.bool b) obj, tail) := by
    intro vt b obj hv
    have := parseMembers_last num (fuel + 1) (newlineChar :: pad ((d + 1) * 2))
      "is_official".toList vt (newlineChar :: pad (d * 2)) tail (.bool b) obj
      (blank_line _) (blank_line _) hv
    rw [List.cons_append] at this
    exact this
  cases hb : p.is_official with
  | true =>
    rw [if_pos rfl, hlast _ true _ (parseValue_true num fuel _)]
    rfl
  | false =>
    rw [if_neg (by simp), hlast _ false _ (parseValue_false num fuel _)]
    rfl

theorem parseItems_blank (num : NumberText) (fuel : Nat) (ws rest : Str) (arr : List Value)
    (h : ∀ c ∈ ws, isspace c = true) :
    parseItems num fuel (ws ++ rest) arr = parseItems num fuel rest arr := by
  rw [← parseItems_skip, skipWhitespace_blank ws rest h, parseItems_skip]

/-- The text of a profile object begins with the opening brace. -/
theorem serialize_profile_head (num : NumberText) (p : Profile) (d : Nat) (tail : Str) :
    ∃ more, Serialize num 2 (ProfileToJson p) d ++ tail = braceOpenChar :: more :=
  ⟨_, serialize_profile num p d tail⟩

/-- The loop of `ParseArray` reads the profile objects `Serialize` wrote back one by
one. -/
theorem parseItems_profiles (num : NumberText) (d : Nat) (tail : Str) :
    ∀ (ps : List Profile) (fuel : Nat) (arr : List Value), ps ≠ [] →
      parseItems num (fuel + ps.length + 7)
          (serializeItems num 2 (ps.map ProfileToJson) d
            ++ (pad (d * 2) ++ bracketCloseChar :: tail)) arr
        = some (arr ++ ps.map ProfileToJson, tail) := by
  intro ps
  induction ps with
  | nil => intro _ _ h; exact absurd rfl h
  | cons p rest ih =>
    intro fuel arr _
    cases rest with
    | nil =>
      have htext : serializeItems num 2 ([p].map ProfileToJson) d
            ++ (pad (d * 2) ++ bracketCloseChar :: tail)
          = pad ((d + 1) * 2) ++ (Serialize num 2 (ProfileToJson p) (d + 1)
              ++ (newlineChar :: pad (d * 2) ++ bracketCloseChar :: tail)) := by
        simp only [List.map_cons, List.map_nil, serializeItems, List.isEmpty_nil, if_true,
          List.append_assoc, List.cons_append, List.nil_append, List.append_nil]
      rw [htext]
      exact parseItems_last num (fuel + 7) _ _ _ tail (ProfileToJson p) arr (pad_blank _)
        (blank_line _) (parse_profile num fuel (d + 1) p _)
    | cons q rest2 =>
      have htext : serializeItems num 2 ((p :: q :: rest2).map ProfileToJson) d
            ++ (pad (d * 2) ++ bracketCloseChar :: tail)
          = pad ((d + 1) * 2) ++ (Serialize num 2 (ProfileToJson p) (d + 1)
              ++ ',' :: ([newlineChar] ++ (serializeItems num 2
                  ((q :: rest2).map ProfileToJson) d
                ++ (pad (d * 2) ++ bracketCloseChar :: tail)))) := by
        simp only [List.map_cons, serializeItems, List.isEmpty_cons, Bool.false_eq_true,
          if_false, List.append_assoc, List.cons_append, List.nil_append, List.append_nil]
      have hfuel : fuel + (p :: q :: rest2).length + 7
          = (fuel + (q :: rest2).length + 7) + 1 := by
        simp only [List.length_cons]
        omega
      rw [htext, hfuel,
        parseItems_comma num _ _ _ _ (ProfileToJson p) arr (pad_blank _)
          (by
            have := parse_profile num (fuel + (q :: rest2).length) (d + 1) p
              (',' :: ([newlineChar] ++ (serializeItems num 2
                  ((q :: rest2).map ProfileToJson) d
                ++ (pad (d * 2) ++ bracketCloseChar :: tail))))
            exact this),
        parseItems_blank num _ [newlineChar] _ _
          (fun c hc => by rw [List.mem_singleton.1 hc]; decide),
        ih fuel _ (by simp)]
      simp

/-- The parser on an array whose first element does not start with the closing bracket. -/
theorem parseValue_array (num : NumberText) (fuel : Nat) (r rest : Str) (arr : List Value)
    (h : Peek (SkipWhitespace r) ≠ bracketCloseChar)
    (hitems : parseItems num fuel r [] = some (arr, rest)) :
    ParseValue num (fuel + 2) (bracketOpenChar :: r) = some (.array arr, rest) := by
  have hnull : Match "null".toList (bracketOpenChar :: r) = none :=
    match_none _ _ _ _ (by decide)
  have htrue : Match "true".toList (bracketOpenChar :: r) = none :=
    match_none _ _ _ _ (by decide)
  have hfalse : Match "false".toList (bracketOpenChar :: r) = none :=
    match_none _ _ _ _ (by decide)
  have hq : Peek (bracketOpenChar :: r) ≠ quoteChar :=
    (by decide : bracketOpenChar ≠ quoteChar)
  have hb : Peek (bracketOpenChar :: r) ≠ braceOpenChar :=
    (by decide : bracketOpenChar ≠ braceOpenChar)
  have ha : Peek (bracketOpenChar :: r) = bracketOpenChar := rfl
  have hexp : Expect bracketOpenChar (bracketOpenChar :: r) = some r := rfl
  have harr : ParseArray num (fuel + 1) (bracketOpenChar :: r) = some (arr, rest) := by
    rw [ParseArray]
    simp only [hexp, if_neg h, parseItems_skip, hitems]
  rw [ParseValue, skipWhitespace_cons bracketOpenChar _ (by decide)]
  simp only [hnull, htrue, hfalse, if_neg hq, if_neg hb, if_pos ha, harr]

theorem parseValue_empty_array (num : NumberText) (fuel : Nat) (tail : Str) :
    ParseValue num (fuel + 2) (bracketOpenChar :: bracketCloseChar :: tail)
      = some (.array [], tail) := by
  have hnull : Match "null".toList (bracketOpenChar :: bracketCloseChar :: tail) = none :=
    match_none _ _ _ _ (by decide)
  have htrue : Match "true".toList (bracketOpenChar :: bracketCloseChar :: tail) = none :=
    match_none _ _ _ _ (by decide)
  have hfalse : Match "false".toList (bracketOpenChar :: bracketCloseChar :: tail) = none :=
    match_none _ _ _ _ (by decide)
  have hq : Peek (bracketOpenChar :: bracketCloseChar :: tail) ≠ quoteChar :=
    (by decide : bracketOpenChar ≠ quoteChar)
  have hb : Peek (bracketOpenChar :: bracketCloseChar :: tail) ≠ braceOpenChar :=
    (by decide : bracketOpenChar ≠ braceOpenChar)
  have ha : Peek (bracketOpenChar :: bracketCloseChar :: tail) = bracketOpenChar := rfl
  have hexp : Expect bracketOpenChar (bracketOpenChar :: bracketCloseChar :: tail)
      = some (bracketCloseChar :: tail) := rfl
  have hclose : Peek (SkipWhitespace (bracketCloseChar :: tail)) = bracketCloseChar := by
    rw [skipWhitespace_cons bracketCloseChar _ (by decide)]
    rfl
  have harr : ParseArray num (fuel + 1) (bracketOpenChar :: bracketCloseChar :: tail)
      = some ([], tail) := by
    rw [ParseArray]
    simp only [hexp, if_pos hclose]
    rw [skipWhitespace_cons bracketCloseChar _ (by decide)]
    rfl
  rw [ParseValue, skipWhitespace_cons bracketOpenChar _ (by decide)]
  simp only [hnull, htrue, hfalse, if_neg hq, if_neg hb, if_pos ha, harr]

/-- The array of profile objects `Save` writes is read back as it was written. -/
theorem parse_profiles (num : NumberText) (fuel d : Nat) (ps : List Profile) (tail : Str) :
    ParseValue num (fuel + ps.length + 9)
        (Serialize num 2 (.array (ps.map ProfileToJson)) d ++ tail)
      = some (.array (ps.map ProfileToJson), tail) := by
  cases ps with
  | nil =>
    have htext : Serialize num 2 (.array (([] : List Profile).map ProfileToJson)) d ++ tail
        = bracketOpenChar :: bracketCloseChar :: tail := by
      simp only [List.map_nil, Serialize, List.isEmpty_nil, if_true, List.append_assoc,
        List.cons_append, List.nil_append, List.append_nil]
    rw [htext]
    exact parseValue_empty_array num (fuel + 7) tail
  | cons p rest =>
    have htext : Serialize num 2 (.array ((p :: rest).map ProfileToJson)) d ++ tail
        = bracketOpenChar :: ([newlineChar] ++
            (serializeItems num 2 ((p :: rest).map ProfileToJson) d
              ++ (pad (d * 2) ++ bracketCloseChar :: tail))) := by
      simp only [List.map_cons, Serialize, List.isEmpty_cons, Bool.false_eq_true, if_false,
        List.append_assoc, List.cons_append, List.nil_append, List.append_nil]
    have hopen : Peek (SkipWhitespace ([newlineChar] ++
        (serializeItems num 2 ((p :: rest).map ProfileToJson) d
          ++ (pad (d * 2) ++ bracketCloseChar :: tail)))) ≠ bracketCloseChar := by
      have hitems : ∃ more, serializeItems num 2 ((p :: rest).map ProfileToJson) d
            ++ (pad (d * 2) ++ bracketCloseChar :: tail)
          = pad ((d + 1) * 2) ++ braceOpenChar :: more := by
        obtain ⟨m, hm⟩ := serialize_profile_head num p (d + 1)
          ((if (rest.map ProfileToJson).isEmpty then [] else [',']) ++ [newlineChar]
            ++ serializeItems num 2 (rest.map ProfileToJson) d
            ++ (pad (d * 2) ++ bracketCloseChar :: tail))
        refine ⟨m, ?_⟩
        rw [← hm]
        simp only [List.map_cons, serializeItems, List.append_assoc]
      obtain ⟨more, hmore⟩ := hitems
      rw [hmore, skipWhitespace_blank _ _
        (fun c hc => by rw [List.mem_singleton.1 hc]; decide),
        skipWhitespace_blank _ _ (pad_blank _),
        skipWhitespace_cons braceOpenChar _ (by decide)]
      exact (by decide : braceOpenChar ≠ bracketCloseChar)
    have hfuel : fuel + (p :: rest).length + 9 = (fuel + (p :: rest).length + 7) + 2 := by
      omega
    rw [htext, hfuel]
    apply parseValue_array num _ _ _ _ hopen
    rw [parseItems_blank num _ [newlineChar] _ _
        (fun c hc => by rw [List.mem_singleton.1 hc]; decide),
      parseItems_profiles num d tail (p :: rest) fuel [] (by simp)]
    rfl

theorem configToJson_eq (cfg : AppConfig) :
    ConfigToJson cfg = .object
      [ ("active_profile_id".toList, .string cfg.active_profile_id),
        ("backup_profile_folder".toList, .string cfg.backup_profile_folder),
        ("idle_profile_prefix".toList, .string cfg.idle_profile_prefix),
        ("images_folder_name".toList, .string cfg.images_folder_name),
        ("official_profile_folder".toList, .string cfg.official_profile_folder),
        ("profiles".toList, .array (cfg.profiles.map ProfileToJson)),
        ("schema_version".toList, .number cfg.schema_version),
        ("uhd_dir".toList, .string cfg.uhd_dir) ] := rfl

theorem serialize_root (num : NumberText) (a b i g o u : Str) (pv : Value) (n : Int)
    (d : Nat) (tail : Str) :
    Serialize num 2 (.object
        [ ("active_profile_id".toList, .string a),
          ("backup_profile_folder".toList, .string b),
          ("idle_profile_prefix".toList, .string i),
          ("images_folder_name".toList, .string g),
          ("official_profile_folder".toList, .string o),
          ("profiles".toList, pv),
          ("schema_version".toList, .number n),
          ("uhd_dir".toList, .string u) ]) d ++ tail
      = braceOpenChar :: newlineChar :: (pad ((d + 1) * 2)
        ++ (SerializeString "active_profile_id".toList ++ ':' :: ' ' ::
          (SerializeString a ++ ',' :: newlineChar :: (pad ((d + 1) * 2)
        ++ (SerializeString "backup_profile_folder".toList ++ ':' :: ' ' ::
          (SerializeString b ++ ',' :: newlineChar :: (pad ((d + 1) * 2)
        ++ (SerializeString "idle_profile_prefix".toList ++ ':' :: ' ' ::
          (SerializeString i ++ ',' :: newlineChar :: (pad ((d + 1) * 2)
        ++ (SerializeString "images_folder_name".toList ++ ':' :: ' ' ::
          (SerializeString g ++ ',' :: newlineChar :: (pad ((d + 1) * 2)
        ++ (SerializeString "official_profile_folder".toList ++ ':' :: ' ' ::
          (SerializeString o ++ ',' :: newlineChar :: (pad ((d + 1) * 2)
        ++ (SerializeString "profiles".toList ++ ':' :: ' ' ::
          (Serialize num 2 pv (d + 1) ++ ',' :: newlineChar :: (pad ((d + 1) * 2)
        ++ (SerializeString "schema_version".toList ++ ':' :: ' ' ::
          (num.format n ++ ',' :: newlineChar :: (pad ((d + 1) * 2)
        ++ (SerializeString "uhd_dir".toList ++ ':' :: ' ' ::
          (SerializeString u
            ++ (newlineChar :: pad (d * 2)
              ++ braceCloseChar :: tail))))))))))))))))))))))))) := by
  simp only [Serialize, serializeMembers, List.isEmpty_cons, List.isEmpty_nil,
    Bool.false_eq_true, if_false, if_true, List.append_assoc, List.cons_append,
    List.nil_append, List.append_nil]

/-- A member on a line of its own whose value is read back as `v`, followed by a comma. -/
theorem parseMembers_line (num : NumberText) (fuel k : Nat) (key vt more : Str) (v : Value)
    (obj : List (Str × Value))
    (hv : ParseValue num fuel (vt ++ ',' :: more) = some (v, ',' :: more)) :
    parseMembers num (fuel + 1)
        (newlineChar :: (pad k ++ (SerializeString key ++ ':' :: ' ' ::
          (vt ++ ',' :: more)))) obj
      = parseMembers num fuel more (emplace key v obj) := by
  have := parseMembers_comma num fuel (newlineChar :: pad k) key vt more v obj
    (blank_line k) hv
  rw [List.cons_append] at this
  exact this

/-- The last member of an object, with a string value, followed by the line of the closing
brace. -/
theorem parseMembers_string_last (num : NumberText) (fuel k j : Nat) (key s tail : Str)
    (obj : List (Str × Value)) :
    parseMembers num (fuel + 2)
        (newlineChar :: (pad k ++ (SerializeString key ++ ':' :: ' ' ::
          (SerializeString s ++ (newlineChar :: pad j ++ braceCloseChar :: tail))))) obj
      = some (emplace key (.string s) obj, tail) := by
  have := parseMembers_last num (fuel + 1) (newlineChar :: pad k) key (SerializeString s)
    (newlineChar :: pad j) tail (.string s) obj (blank_line k) (blank_line j)
    (parseValue_string num fuel s _)
  rw [List.cons_append] at this
  exact this

/-- The document `Save` serializes is read back from its text, with the schema version as
the number library reads it back. -/
theorem parse_config (num : NumberText) (fuel d : Nat) (cfg : AppConfig) (m : Int)
    (tail : Str) (h : NumberRereadAs num cfg.schema_version m) :
    ParseValue num (fuel + cfg.profiles.length + 17)
        (Serialize num 2 (ConfigToJson cfg) d ++ tail)
      = some (ConfigToJson { cfg with schema_version := m }, tail) := by
  rw [configToJson_eq, serialize_root]
  apply Eq.trans (parseValue_object num _ _ _ _ tail
    [ ("active_profile_id".toList, .string cfg.active_profile_id),
      ("backup_profile_folder".toList, .string cfg.backup_profile_folder),
      ("idle_profile_prefix".toList, .string cfg.idle_profile_prefix),
      ("images_folder_name".toList, .string cfg.images_folder_name),
      ("official_profile_folder".toList, .string cfg.official_profile_folder),
      ("profiles".toList, .array (cfg.profiles.map ProfileToJson)),
      ("schema_version".toList, .number m),
      ("uhd_dir".toList, .string cfg.uhd_dir) ] ?_) (by rw [configToJson_eq])
  rw [parseMembers_string, parseMembers_string, parseMembers_string, parseMembers_string,
    parseMembers_string,
    parseMembers_line num (fuel + cfg.profiles.length + 9) _ _ _ _ _ _
      (parse_profiles num fuel (d + 1) cfg.profiles _),
    parseMembers_line num (fuel + cfg.profiles.length + 8) _ _ _ _ _ _
      (parseValue_number num (fuel + cfg.profiles.length + 7) cfg.schema_version m _ h),
    parseMembers_string_last num (fuel + cfg.profiles.length + 6)]
  rfl

theorem length_serializeItems (num : NumberText) (d : Nat) (items : List Value) :
    items.length ≤ (serializeItems num 2 items d).length := by
  induction items with
  | nil => simp
  | cons item rest ih =>
    simp only [serializeItems, List.length_append, List.length_cons, List.length_nil]
    omega

theorem length_serialize_array (num : NumberText) (d : Nat) (items : List Value) :
    items.length ≤ (Serialize num 2 (.array items) d).length := by
  cases items with
  | nil => simp
  | cons item rest =>
    have := length_serializeItems num d (item :: rest)
    simp only [Serialize, List.isEmpty_cons, Bool.false_eq_true, if_false,
      List.length_append, List.length_cons, List.length_nil] at this ⊢
    omega

theorem length_saveText (num : NumberText) (cfg : AppConfig) :
    cfg.profiles.length + 5 ≤ (SaveText num cfg).length := by
  have h := length_serialize_array num 1 (cfg.profiles.map ProfileToJson)
  rw [List.length_map] at h
  unfold SaveText
  rw [configToJson_eq, serialize_root]
  simp only [List.length_append, List.length_cons, List.length_nil]
  simp only [Nat.zero_add, Nat.one_mul] at h ⊢
  omega

/-- The text `Save` writes is parsed as the document it serializes, with the schema
version as the number library reads it back. -/
theorem parse_saveText (num : NumberText) (cfg : AppConfig) (m : Int)
    (h : NumberRereadAs num cfg.schema_version m) :
    Parse num (SaveText num cfg) = some (ConfigToJson { cfg with schema_version := m }) := by
  have hlen := length_saveText num cfg
  obtain ⟨f, hf⟩ : ∃ f, 3 * (SaveText num cfg).length + 3 = f + cfg.profiles.length + 17 :=
    ⟨3 * (SaveText num cfg).length + 3 - (cfg.profiles.length + 17), by omega⟩
  have hvalue := parse_config num f 0 cfg m [newlineChar] h
  have hskip : SkipWhitespace (SaveText num cfg) = SaveText num cfg := by
    unfold SaveText
    rw [configToJson_eq, serialize_root]
    exact skipWhitespace_cons braceOpenChar _ (by decide)
  unfold Parse
  rw [hskip, hf]
  have htext : SaveText num cfg = Serialize num 2 (ConfigToJson cfg) 0 ++ [newlineChar] := rfl
  rw [htext, hvalue]
  rfl

theorem parse_serializeString (num : NumberText) (s : Str) :
    Parse num (SerializeString s) = some (.string s) := by
  have hskip := skipWhitespace_serializeString s []
  have hvalue := parseValue_string num (3 * (SerializeString s).length + 2) s []
  rw [List.append_nil] at hskip hvalue
  unfold Parse
  rw [hskip, hvalue]
  rfl

theorem readConfig_configToJson (env : Env) (cfg : AppConfig)
    (members : List (Str × Value)) (h : ConfigToJson cfg = .object members) :
    readConfig env members
      = { cfg with profiles := cfg.profiles.filter (fun p => p.id ≠ []) } := by
  rw [configToJson_eq] at h
  injection h with h
  subst h
  have hread : readConfig env
        [ ("active_profile_id".toList, .string cfg.active_profile_id),
          ("backup_profile_folder".toList, .string cfg.backup_profile_folder),
          ("idle_profile_prefix".toList, .string cfg.idle_profile_prefix),
          ("images_folder_name".toList, .string cfg.images_folder_name),
          ("official_profile_folder".toList, .string cfg.official_profile_folder),
          ("profiles".toList, .array (cfg.profiles.map ProfileToJson)),
          ("schema_version".toList, .number cfg.schema_version),
          ("uhd_dir".toList, .string cfg.uhd_dir) ]
      = (cfg.profiles.map ProfileToJson).foldl loadProfileStep
          { schema_version := cfg.schema_version
            uhd_dir := cfg.uhd_dir
            images_folder_name := cfg.images_folder_name
            idle_profile_prefix := cfg.idle_profile_prefix
            official_profile_folder := cfg.official_profile_folder
            backup_profile_folder := cfg.backup_profile_folder
            active_profile_id := cfg.active_profile_id
            profiles := [] } := rfl
  rw [hread, foldl_loadProfileStep]
  simp

/-- What `Load` does with a file whose text parses to the document of `cfg`. -/
theorem load_document (env : Env) (w : World) (cfg : AppConfig) :
    (Load env { w with file := .text (some (ConfigToJson cfg)) }).1 = true ∧
      (Load env { w with file := .text (some (ConfigToJson cfg)) }).2.config.profiles
        = (NormalizeProfiles (EnsureOfficialProfile
            { cfg with profiles := cfg.profiles.filter (fun p => p.id ≠ []) })).profiles := by
  have hread := readConfig_configToJson env cfg _ (configToJson_eq cfg)
  rw [configToJson_eq]
  unfold Load
  simp only [hread]
  refine ⟨trivial, ?_⟩
  split <;> rfl

/-- A catalog that satisfies the catalog invariant and has no empty display or folder name
is left as it is by `EnsureOfficialProfile` followed by `NormalizeProfiles`. -/
theorem ensure_normalize_fixed (cfg : AppConfig) (hinv : CatalogInvariant cfg)
    (hnames : ∀ p ∈ cfg.profiles, p.display_name ≠ [] ∧ p.folder_name ≠ []) :
    (NormalizeProfiles (EnsureOfficialProfile cfg)).profiles = cfg.profiles := by
  obtain ⟨h1, h2, h3, h4⟩ := hinv
  have hens : (EnsureOfficialProfile cfg).profiles = cfg.profiles := by
    rcases ensureOfficial_cases cfg with ⟨hno, _⟩ | ⟨pre, p, post, e1, _, e3, e4⟩
    · obtain ⟨e, he, hid⟩ := exists_of_filter_id_length h3
      exact absurd hid (hno e he)
    · have hp : p ∈ cfg.profiles := by rw [e1]; simp
      obtain ⟨a, b⟩ := h4 p hp e3
      have hd := (hnames p hp).1
      rw [e4, e1, if_neg hd]
      congr 2
      obtain ⟨pi, pd, pf, po⟩ := p
      simp only at e3 a b
      subst e3 a b
      rfl
  rw [normalizeProfiles_profiles, hens]
  apply normalizeFrom_fixed _ _ _ _ h2
  intro p hp
  refine ⟨h1 p hp, by simp, ?_⟩
  obtain ⟨hd, hf⟩ := hnames p hp
  unfold fillDefaults
  simp [hd, hf]

theorem filter_id_nonempty (ps : List Profile) (h : ∀ p ∈ ps, p.id ≠ []) :
    ps.filter (fun p => p.id ≠ []) = ps := by
  apply List.filter_eq_self.2
  intro p hp
  simpa using h p hp

/-- C21: for every string `s` (any characters, quotes, backslashes and control characters
included), `ParseString` on the text made of a double quote, `EscapeString(s)` and a
closing double quote, followed by any further text, succeeds, returns exactly `s` and
stops right after the closing quote, and `Parse` on that text alone returns the string
value `s`. For the whole file: whenever the number library reads the schema version that
`Save` writes back as `m`, `Parse` on the text `Save` writes (`Serialize` with indentation
2 and a final newline) succeeds and returns the document of the saved configuration with
schema version `m`, which for the saved version itself is the file a successful `Save`
leaves; `Load` on that file succeeds; the profile records it reads are the saved profiles
with a non-empty id, with their ids, display names, folder names and flags as saved; the
catalog after `Load` is what `EnsureOfficialProfile` and `NormalizeProfiles` make of these
records; and when the saved catalog satisfies the catalog invariant and has no empty
display or folder name, the catalog after `Load` is the saved catalog. -/
theorem string_round_trip :
    (∀ s rest : Str, ParseString (SerializeString s ++ rest) = some (s, rest)) ∧
    (∀ (num : NumberText) (s : Str), Parse num (SerializeString s) = some (.string s)) ∧
    (∀ (num : NumberText) (env : Env) (w : World) (m : Int),
      NumberRereadAs num w.config.schema_version m →
        Parse num (SaveText num w.config)
          = some (ConfigToJson { w.config with schema_version := m }) ∧
        (m = w.config.schema_version → (Save env w).1 = true →
          (Save env w).2.file = .text (Parse num (SaveText num w.config))) ∧
        (Load env { w with file := .text (Parse num (SaveText num w.config)) }).1 = true ∧
        persistedProfiles env (.text (Parse num (SaveText num w.config)))
          = w.config.profiles.filter (fun p => p.id ≠ []) ∧
        (Load env
            { w with file := .text (Parse num (SaveText num w.config)) }).2.config.profiles
          = (NormalizeProfiles (EnsureOfficialProfile
              { w.config with
                schema_version := m
                profiles := w.config.profiles.filter (fun p => p.id ≠ []) })).profiles ∧
        (CatalogInvariant w.config →
          (∀ p ∈ w.config.profiles, p.display_name ≠ [] ∧ p.folder_name ≠ []) →
          (Load env
              { w with file := .text (Parse num (SaveText num w.config)) }).2.config.profiles
            = w.config.profiles)) := by
  refine ⟨parseString_serializeString, parse_serializeString, ?_⟩
  intro num env w m hnum
  have hparse := parse_saveText num w.config m hnum
  have hload := load_document env w { w.config with schema_version := m }
  rw [hparse]
  refine ⟨rfl, ?_, hload.1, ?_, hload.2, ?_⟩
  · intro hm hok
    rw [save_ok hok, hm]
  · exact persistedProfiles_save env { w.config with schema_version := m }
  · intro hinv hnames
    rw [hload.2]
    have hfilter := filter_id_nonempty w.config.profiles hinv.1
    have hfixed := ensure_normalize_fixed
      { w.config with
        schema_version := m
        profiles := w.config.profiles.filter (fun p => p.id ≠ []) }
      (catalogInvariant_congr hfilter rfl hinv) (by
        intro p hp
        have hp' : p ∈ w.config.profiles.filter (fun p => p.id ≠ []) := hp
        rw [hfilter] at hp'
        exact hnames p hp')
    exact hfixed.trans hfilter

/-- Witness of C21: a string with a quote, a backslash, a newline and a backspace, parsed
back in front of further text, and the sample configuration written with decimal numbers,
parsed and loaded again. -/
theorem string_round_trip_witness :
    ParseString
        (SerializeString [quoteChar, 'a', backslashChar, newlineChar, backspaceChar]
          ++ ", ".toList)
        = some ([quoteChar, 'a', backslashChar, newlineChar, backspaceChar], ", ".toList) ∧
      NumberRereadAs decimalNumbers sampleWorld.config.schema_version 1 ∧
      Parse decimalNumbers (SaveText decimalNumbers sampleWorld.config)
        = some (ConfigToJson sampleWorld.config) ∧
      (Save permissive sampleWorld).1 = true ∧
      (Save permissive sampleWorld).2.file
        = .text (Parse decimalNumbers (SaveText decimalNumbers sampleWorld.config)) ∧
      CatalogInvariant sampleWorld.config ∧
      (∀ p ∈ sampleWorld.config.profiles, p.display_name ≠ [] ∧ p.folder_name ≠ []) ∧
      (Load permissive
          { config := sampleWorld.config
            file := .text (Parse decimalNumbers (SaveText decimalNumbers sampleWorld.config))
            disk := sampleWorld.disk }).2.config.profiles
        = sampleWorld.config.profiles := by
  have hnum : NumberRereadAs decimalNumbers sampleWorld.config.schema_version 1 :=
    ⟨Or.inr rfl, fun _ => rfl⟩
  have h := string_round_trip.2.2 decimalNumbers permissive sampleWorld 1 hnum
  have hinv : CatalogInvariant sampleWorld.config := by decide
  have hnames : ∀ p ∈ sampleWorld.config.profiles,
      p.display_name ≠ [] ∧ p.folder_name ≠ [] := by decide
  have hsave : (Save permissive sampleWorld).1 = true := by decide
  exact ⟨string_round_trip.1 _ _, hnum, h.1, hsave, h.2.1 rfl hsave, hinv, hnames,
    h.2.2.2.2.2 hinv hnames⟩

end UhdHelper
